import Mathlib

/-!
Verification development for the enclave CLI's Dockerfile decoder, build
transform and deploy flow.

Conventions of the shallow embedding:
* Rust `u8` bytes are `Nat` (all constructed inputs are < 256; the decoder
  only compares bytes against constants, so no arithmetic wraps).
* Rust `String` / `&str` values are `List Char`; `Bytes` buffers are
  `List Nat`.
* Fallible Rust code returns `Except DecodeError _`.  Reachable Rust panics
  (an `unwrap` of `None`, an out-of-bounds slice) are modelled explicitly by
  the `DecodeError.rustPanic` value so that the embedding stays total.
-/

namespace EnclaveCli

deriving instance DecidableEq for Except

/-! ## Byte-level helpers mirroring Rust `u8` predicates -/

/-- Mirror of `u8::is_ascii_whitespace` (space, tab, newline, form feed,
carriage return). -/
def isAsciiWs (b : Nat) : Bool :=
  b = 32 || b = 9 || b = 10 || b = 12 || b = 13

/-- Mirror of `u8::is_ascii_alphabetic`. -/
def isAsciiAlpha (b : Nat) : Bool :=
  (65 ≤ b && b ≤ 90) || (97 ≤ b && b ≤ 122)

/-- Continuation byte test for UTF-8 (`0x80..=0xBF`). -/
def isUtf8Cont (b : Nat) : Bool :=
  128 ≤ b && b ≤ 191

/-- Mirror of `std::str::from_utf8` followed by `.chars()`: strict UTF-8
decoding (overlong forms, surrogates and out-of-range code points are
rejected), returning `none` exactly when Rust returns `Utf8Error`. -/
def utf8Decode : List Nat → Option (List Char)
  | [] => some []
  | b :: rest =>
    if b < 128 then
      (utf8Decode rest).map (fun cs => Char.ofNat b :: cs)
    else if 194 ≤ b && b ≤ 223 then
      match rest with
      | b2 :: r2 =>
        if isUtf8Cont b2 then
          (utf8Decode r2).map (fun cs => Char.ofNat ((b - 192) * 64 + (b2 - 128)) :: cs)
        else none
      | [] => none
    else if 224 ≤ b && b ≤ 239 then
      match rest with
      | b2 :: b3 :: r3 =>
        let cp := (b - 224) * 4096 + (b2 - 128) * 64 + (b3 - 128)
        if isUtf8Cont b2 && isUtf8Cont b3 && 2048 ≤ cp && !(55296 ≤ cp && cp ≤ 57343) then
          (utf8Decode r3).map (fun cs => Char.ofNat cp :: cs)
        else none
      | _ => none
    else if 240 ≤ b && b ≤ 244 then
      match rest with
      | b2 :: b3 :: b4 :: r4 =>
        let cp := (b - 240) * 262144 + (b2 - 128) * 4096 + (b3 - 128) * 64 + (b4 - 128)
        if isUtf8Cont b2 && isUtf8Cont b3 && isUtf8Cont b4 && 65536 ≤ cp && cp ≤ 1114111 then
          (utf8Decode r4).map (fun cs => Char.ofNat cp :: cs)
        else none
      | _ => none
    else none

/-- ASCII bytes of a Lean string literal; used to write concrete byte-level
inputs (all literals in this file are ASCII). -/
def sb (s : String) : List Nat :=
  s.data.map Char.toNat

/-- Mirror of Rust `char::is_whitespace` (the Unicode `White_Space` set). -/
def isRustWs (c : Char) : Bool :=
  let n := c.toNat
  n = 9 || n = 10 || n = 11 || n = 12 || n = 13 || n = 32 || n = 133 || n = 160 ||
    n = 5760 || (8192 ≤ n && n ≤ 8202) || n = 8232 || n = 8233 || n = 8239 ||
    n = 8287 || n = 12288

/-- Mirror of Rust `str::trim`. -/
def rustTrim (l : List Char) : List Char :=
  ((l.dropWhile isRustWs).reverse.dropWhile isRustWs).reverse

/-- Mirror of Rust `slice::split` on an equality predicate: always yields at
least one (possibly empty) piece, and adjacent separators yield empty
pieces. -/
def rsplit {α : Type} [DecidableEq α] (sep : α) : List α → List (List α)
  | [] => [[]]
  | b :: rest =>
    if b = sep then [] :: rsplit sep rest
    else
      match rsplit sep rest with
      | [] => [[b]]
      | h :: t => (b :: h) :: t

/-- Mirror of itertools `join` / `Vec::join` with a separator. -/
def joinSep {α : Type} (sep : List α) : List (List α) → List α
  | [] => []
  | [x] => x
  | x :: xs => x ++ sep ++ joinSep sep xs

/-- Mirror of `str::splitn(2, '=')`: the part before the first `=` and,
when a `=` is present, the remainder after it. -/
def splitFirstEq : List Char → List Char × Option (List Char)
  | [] => ([], none)
  | c :: rest =>
    if c = '=' then ([], some rest)
    else
      let p := splitFirstEq rest
      (c :: p.1, p.2)

/-- Mirror of `strip_prefix('"')` followed by `strip_suffix('"')`, each
applied at most once. -/
def rustStripQuotes (t : List Char) : List Char :=
  let t1 := match t with
    | '"' :: rest => rest
    | _ => t
  match t1.getLast? with
  | some '"' => t1.dropLast
  | _ => t1

/-- Decimal digit character. -/
def digitChar (n : Nat) : Char := Char.ofNat (48 + n)

/-- Mirror of the decimal `Display` of Rust unsigned integers. -/
def decRepr (n : Nat) : List Char :=
  if _h : n < 10 then [digitChar n]
  else decRepr (n / 10) ++ [digitChar (n % 10)]
termination_by n
decreasing_by exact Nat.div_lt_self (by omega) (by omega)

/-- Accumulating decimal parser used by `parseU16`. -/
def parseDigitsAux (acc : Nat) : List Char → Option Nat
  | [] => some acc
  | c :: rest =>
    if 48 ≤ c.toNat && c.toNat ≤ 57 then
      parseDigitsAux (acc * 10 + (c.toNat - 48)) rest
    else none

/-- Mirror of `str::parse::<u16>()`: optional leading `+`, at least one
digit, all digits, value within `u16` range. -/
def parseU16 (s : List Char) : Option Nat :=
  let body := match s with
    | '+' :: rest => rest
    | _ => s
  match body with
  | [] => none
  | _ =>
    match parseDigitsAux 0 body with
    | none => none
    | some v => if v ≤ 65535 then some v else none

/-! ## The directive data model (`docker/parse.rs`) -/

/-- Mirror of `Delimiter`. -/
inductive Delimiter
  | eq
  | noDelim
  deriving DecidableEq, Repr

/-- Mirror of `Mode`. -/
inductive Mode
  | exec
  | shell
  deriving DecidableEq, Repr

/-- Mirror of `Mode::from(u8)`: `[` means exec, anything else shell. -/
def modeFromByte (b : Nat) : Mode :=
  if b = 91 then .exec else .shell

/-- Mirror of `EnvVar`. -/
structure EnvVar where
  key : List Char
  val : List Char
  delim : Delimiter
  deriving DecidableEq, Repr

/-- Mirror of `impl Display for EnvVar`. -/
def EnvVar.render (v : EnvVar) : List Char :=
  match v.delim with
  | .eq => v.key ++ ['='] ++ v.val
  | .noDelim => v.key ++ [' '] ++ v.val

/-- Mirror of `Directive`.  Raw `Bytes` payloads are byte lists; parsed
string payloads are char lists. -/
inductive Directive
  | add (sourceUrl : List Char) (destinationPath : List Char)
  | comment (bytes : List Nat)
  | entrypoint (mode : Option Mode) (tokens : List (List Char))
  | cmd (mode : Option Mode) (tokens : List (List Char))
  | expose (port : Option Nat)
  | run (bytes : List Nat)
  | user (bytes : List Nat)
  | env (vars : List EnvVar)
  | other (directive : List Char) (arguments : List Nat)
  | fromD (arguments : List Nat)
  deriving DecidableEq, Repr

namespace Directive

def isCmd : Directive → Bool
  | .cmd _ _ => true
  | _ => false

def isEntrypoint : Directive → Bool
  | .entrypoint _ _ => true
  | _ => false

def isExpose : Directive → Bool
  | .expose _ => true
  | _ => false

/-- Mirror of `Directive::set_mode`.  The source panics when the receiver is
not `Entrypoint`/`Cmd`; every call site guards on
`is_cmd() || is_entrypoint()`, so the panic arm is unreachable and the
embedding returns the directive unchanged there. -/
def setMode : Directive → Mode → Directive
  | .entrypoint _ tokens, m => .entrypoint (some m) tokens
  | .cmd _ tokens, m => .cmd (some m) tokens
  | d, _ => d

def mode : Directive → Option Mode
  | .entrypoint m _ => m
  | .cmd m _ => m
  | _ => none

end Directive

/-! ## Decoder errors (`DecodeError`) -/

/-- Mirror of `DecodeError` (the upstream `IoError` variant carries a live
handle and is out of scope).  `rustPanic` additionally marks the reachable
Rust panics of the parsing code, which have no `DecodeError` variant. -/
inductive DecodeError
  | unexpectedToken
  | invalidUtf8
  | noEntrypoint
  | incompleteInstruction
  | invalidExposedPort
  | rustPanic
  deriving DecidableEq, Repr

/-! ## ENV argument parsing -/

/-- Scanner state of `extract_tokens_for_env_directive`. -/
structure EnvScan where
  inQuotes : Bool
  escape : Bool
  currentToken : List Char
  tokens : List (List Char)
  delim : Delimiter
  deriving Repr

/-- One character of the `extract_tokens_for_env_directive` loop, with the
match arms in source order.  Note that the source clears `escape` only on a
second backslash, never on an ordinary character. -/
def envScanStep (st : EnvScan) (c : Char) : EnvScan :=
  if c = '\\' && st.escape then
    { st with escape := false, currentToken := st.currentToken ++ [c] }
  else if c = '\\' then
    { st with escape := true }
  else if c = '"' then
    { st with inQuotes := !st.inQuotes, currentToken := st.currentToken ++ [c] }
  else if c = ' ' && st.inQuotes then
    { st with currentToken := st.currentToken ++ [c] }
  else if c = ' ' then
    if st.currentToken.isEmpty then st
    else { st with tokens := st.tokens ++ [rustTrim st.currentToken], currentToken := [] }
  else if c = '=' && !st.inQuotes && !st.escape then
    { st with currentToken := st.currentToken ++ [c], delim := .eq }
  else
    { st with currentToken := st.currentToken ++ [c] }

/-- Mirror of `Directive::extract_tokens_for_env_directive`. -/
def extractTokensForEnvDirective (directive : List Char) : List (List Char) × Delimiter :=
  let st := directive.foldl envScanStep ⟨false, false, [], [], .noDelim⟩
  let tokens :=
    if st.currentToken.isEmpty then st.tokens
    else st.tokens ++ [rustTrim st.currentToken]
  (tokens, st.delim)

/-- The `Eq`-delimiter loop of `parse_env_directive`: every token must
contain `=` and is split at its first `=`. -/
def parseEqTokens : List (List Char) → Except DecodeError (List EnvVar)
  | [] => .ok []
  | t :: rest =>
    if ('=' ∈ t) then
      match splitFirstEq t with
      | (key, some val) =>
        (parseEqTokens rest).map (fun vs => ⟨key, val, .eq⟩ :: vs)
      | (_, none) => .error .incompleteInstruction
    else .error .incompleteInstruction

/-- Mirror of `Directive::parse_env_directive`. -/
def parseEnvDirective (directive : List Char) : Except DecodeError (List EnvVar) :=
  let p := extractTokensForEnvDirective directive
  match p.2 with
  | .noDelim =>
    if p.1.length < 2 then .error .incompleteInstruction
    else
      match p.1 with
      | [] => .error .incompleteInstruction
      | key :: values => .ok [⟨key, joinSep [' '] values, .noDelim⟩]
  | .eq => parseEqTokens p.1

/-! ## `Directive::set_arguments` -/

/-- The `Entrypoint`/`Cmd` branch of `set_arguments`.  In exec mode the
source slices `given_arguments[1..len - 1]`, which panics when the buffer
holds fewer than two bytes; and it unwraps the mode, which panics when no
mode was ever set. -/
def parseEpCmdTokens (mode : Option Mode) (givenArguments : List Nat) :
    Except DecodeError (List (List Char)) :=
  match mode with
  | none => .error .rustPanic
  | some m =>
    if m = .exec then
      if givenArguments.length < 2 then .error .rustPanic
      else
        let terms := (givenArguments.drop 1).dropLast
        .ok ((rsplit 44 terms).filterMap
          (fun ts => (utf8Decode ts).map (fun tok => rustStripQuotes (rustTrim tok))))
    else
      .ok ((rsplit 32 givenArguments).filterMap utf8Decode)

/-- Mirror of `Directive::set_arguments`. -/
def Directive.setArguments (d : Directive) (givenArguments : List Nat) :
    Except DecodeError Directive :=
  match d with
  | .entrypoint mode _ =>
    (parseEpCmdTokens mode givenArguments).map (fun ts => .entrypoint mode ts)
  | .cmd mode _ =>
    (parseEpCmdTokens mode givenArguments).map (fun ts => .cmd mode ts)
  | .add _ _ =>
    let parsedArgs := ((rsplit 32 givenArguments).filterMap utf8Decode).filter
      (fun s => !s.isEmpty)
    match parsedArgs with
    | src :: dst :: _ => .ok (.add src dst)
    | _ => .error .incompleteInstruction
  | .expose _ =>
    match utf8Decode givenArguments with
    | none => .error .invalidUtf8
    | some cs =>
      match parseU16 cs with
      | none => .error .invalidExposedPort
      | some p => .ok (.expose (some p))
  | .env _ =>
    match utf8Decode givenArguments with
    | none => .error .invalidUtf8
    | some cs => (parseEnvDirective cs).map (fun vars => .env vars)
  | .other name _ => .ok (.other name givenArguments)
  | .comment _ => .ok (.comment givenArguments)
  | .run _ => .ok (.run givenArguments)
  | .user _ => .ok (.user givenArguments)
  | .fromD _ => .ok (.fromD givenArguments)

/-! ## Rendering (`impl Display for Directive`) -/

/-- Raw byte payloads are shown through `from_utf8`, with the source's
fallback text on invalid UTF-8. -/
def rawText (b : List Nat) : List Char :=
  (utf8Decode b).getD (String.data ("[Invalid utf8 arguments]"))

/-- Mirror of the `Entrypoint`/`Cmd` arm of `Directive::arguments`. -/
def epCmdText (mode : Option Mode) (tokens : List (List Char)) : List Char :=
  if mode = some Mode.exec then
    ['['] ++ joinSep (String.data (", ")) (tokens.map (fun t => ['"'] ++ t ++ ['"'])) ++ [']']
  else
    joinSep [' '] tokens

/-- Mirror of `Directive::arguments`. -/
def Directive.argumentsText : Directive → Option (List Char)
  | .add src dst => some (src ++ [' '] ++ dst)
  | .env vars => some (joinSep [' '] (vars.map EnvVar.render))
  | .comment b => some (rawText b)
  | .run b => some (rawText b)
  | .user b => some (rawText b)
  | .fromD b => some (rawText b)
  | .other _ b => some (rawText b)
  | .entrypoint mode tokens => some (epCmdText mode tokens)
  | .cmd mode tokens => some (epCmdText mode tokens)
  | .expose port => port.map decRepr

/-- The keyword printed in front of the arguments. -/
def Directive.keyword : Directive → List Char
  | .add _ _ => String.data ("ADD")
  | .comment _ => String.data ("#")
  | .entrypoint _ _ => String.data ("ENTRYPOINT")
  | .cmd _ _ => String.data ("CMD")
  | .expose _ => String.data ("EXPOSE")
  | .run _ => String.data ("RUN")
  | .user _ => String.data ("USER")
  | .env _ => String.data ("ENV")
  | .other name _ => name
  | .fromD _ => String.data ("FROM")

/-- Mirror of `impl Display for Directive`: `write!("{} {}", prefix, args)`
with empty text when `arguments()` is `None`. -/
def Directive.render (d : Directive) : List Char :=
  d.keyword ++ [' '] ++ (d.argumentsText.getD [])

/-! ## Keyword lookup (`TryFrom<&[u8]> for Directive`) -/

/-- Mirror of `Directive::try_from(&[u8])`. -/
def directiveTryFrom (value : List Nat) : Except DecodeError Directive :=
  match utf8Decode value with
  | none => .error .invalidUtf8
  | some cs =>
    if cs.head? = some '#' then .ok (.comment [])
    else
      let upper := cs.map Char.toUpper
      if upper = String.data ("ENTRYPOINT") then .ok (.entrypoint none [])
      else if upper = String.data ("CMD") then .ok (.cmd none [])
      else if upper = String.data ("EXPOSE") then .ok (.expose none)
      else if upper = String.data ("RUN") then .ok (.run [])
      else if upper = String.data ("USER") then .ok (.user [])
      else if upper = String.data ("ENV") then .ok (.env [])
      else if upper = String.data ("FROM") then .ok (.fromD [])
      else .ok (.other cs [])

/-! ## Decoder state machine (`DockerfileDecoder`) -/

/-- Mirror of `NewLineBehaviour`. -/
inductive NewLineBehaviour
  | escaped
  | ignoreLine
  | observe
  deriving DecidableEq, Repr

def NewLineBehaviour.isEscaped : NewLineBehaviour → Bool
  | .escaped => true
  | _ => false

def NewLineBehaviour.isObserve : NewLineBehaviour → Bool
  | .observe => true
  | _ => false

/-- Mirror of `StringToken`. -/
inductive StringToken
  | singleQuote
  | doubleQuote
  deriving DecidableEq, Repr

/-- The `StringStack` push/pop step: pop when the top matches, push
otherwise.  The top of the source's `Vec` is the head of this list. -/
def stackPushPop (ss : List StringToken) (t : StringToken) : List StringToken :=
  match ss with
  | top :: rest => if top = t then rest else t :: top :: rest
  | [] => [t]

/-- The fields of `DecoderState::DirectiveArguments`. -/
structure ArgsState where
  directive : Directive
  arguments : Option (List Nat)
  newLineBehaviour : NewLineBehaviour
  stringStack : List StringToken
  deriving DecidableEq, Repr

/-- Mirror of `DecoderState`. -/
inductive DecoderState
  | directive (buf : List Nat)
  | directiveArguments (st : ArgsState)
  | comment (buf : List Nat)
  | whitespace
  deriving DecidableEq, Repr

/-- Mirror of `DockerfileDecoder::derive_new_line_state` (also
`TryFrom<u8> for DecoderState`). -/
def deriveNewLineState (b : Nat) : Except DecodeError DecoderState :=
  if isAsciiWs b then .ok .whitespace
  else if isAsciiAlpha b then .ok (.directive [b])
  else if b = 35 then .ok (.comment [])
  else .error .unexpectedToken

/-- One byte of `decode_comment`: a newline emits the comment, anything else
is accumulated. -/
def commentStep (buf : List Nat) (b : Nat) : List Nat ⊕ Directive :=
  if b = 10 then .inr (.comment buf) else .inl (buf ++ [b])

/-- One byte of `decode_directive`: a space resolves the keyword and moves to
argument decoding, any other ASCII byte is accumulated, and a non-ASCII byte
is an `UnexpectedToken`. -/
def directiveStep (buf : List Nat) (b : Nat) : Except DecodeError (List Nat ⊕ ArgsState) :=
  if b = 32 then (directiveTryFrom buf).map (fun d => .inr ⟨d, none, .observe, []⟩)
  else if b ≤ 127 then .ok (.inl (buf ++ [b]))
  else .error .unexpectedToken

/-- One byte of `decode_directive_arguments`, with the match arms in source
order. -/
def argsStep (st : ArgsState) (b : Nat) : Except DecodeError (ArgsState ⊕ Directive) :=
  if (b = 10 || b = 92) && st.arguments.isNone then .error .unexpectedToken
  else if b = 10 && !st.newLineBehaviour.isObserve then
    .ok (.inl { st with arguments := some (st.arguments.getD [] ++ [b]) })
  else if b = 10 then
    (st.directive.setArguments (st.arguments.getD [])).map .inr
  else if b = 92 then
    let nlb :=
      if st.newLineBehaviour.isEscaped then NewLineBehaviour.observe
      else if st.newLineBehaviour.isObserve then NewLineBehaviour.escaped
      else st.newLineBehaviour
    .ok (.inl { st with arguments := some (st.arguments.getD [] ++ [b]),
                        newLineBehaviour := nlb })
  else if b = 32 && st.arguments.isNone then .ok (.inl st)
  else if b = 35 then
    let nlb :=
      if st.stringStack.isEmpty then
        if [92, 10].isSuffixOf (st.arguments.getD []) then NewLineBehaviour.ignoreLine
        else NewLineBehaviour.observe
      else st.newLineBehaviour
    .ok (.inl { st with arguments := some (st.arguments.getD [] ++ [b]),
                        newLineBehaviour := nlb })
  else
    let d :=
      if st.arguments.isNone && (st.directive.isCmd || st.directive.isEntrypoint) then
        st.directive.setMode (modeFromByte b)
      else st.directive
    let nlb :=
      if st.newLineBehaviour.isEscaped then NewLineBehaviour.observe
      else st.newLineBehaviour
    let ss :=
      if b = 39 || b = 34 then
        stackPushPop st.stringStack (if b = 39 then .singleQuote else .doubleQuote)
      else st.stringStack
    .ok (.inl ⟨d, some (st.arguments.getD [] ++ [b]), nlb, ss⟩)

/-- The `decode_comment` loop over the remaining buffer: either an emitted
comment plus the unconsumed rest, or the accumulated buffer at exhaustion. -/
def commentLoop : List Nat → List Nat → (Directive × List Nat) ⊕ List Nat
  | buf, [] => .inr buf
  | buf, b :: rest =>
    match commentStep buf b with
    | .inr d => .inl (d, rest)
    | .inl buf' => commentLoop buf' rest

/-- The `decode_directive` loop: either a transition into
`DirectiveArguments` plus the unconsumed rest, or the keyword buffer at
exhaustion. -/
def directiveLoop : List Nat → List Nat → Except DecodeError ((ArgsState × List Nat) ⊕ List Nat)
  | buf, [] => .ok (.inr buf)
  | buf, b :: rest =>
    match directiveStep buf b with
    | .error e => .error e
    | .ok (.inl buf') => directiveLoop buf' rest
    | .ok (.inr ast) => .ok (.inl (ast, rest))

/-- The `decode_directive_arguments` loop: either an emitted directive plus
the unconsumed rest, or the in-progress state at exhaustion. -/
def argsLoop : ArgsState → List Nat → Except DecodeError ((Directive × List Nat) ⊕ ArgsState)
  | st, [] => .ok (.inr st)
  | st, b :: rest =>
    match argsStep st b with
    | .error e => .error e
    | .ok (.inl st') => argsLoop st' rest
    | .ok (.inr d) => .ok (.inl (d, rest))

/-- The `decode_whitespace` loop combined with the derivation of the next
state: skip ASCII whitespace, then classify the first non-whitespace byte as
in `derive_new_line_state` (whose whitespace branch is unreachable here).
`.inl` carries a fresh comment buffer, `.inr` a fresh keyword buffer. -/
def wsLoop : List Nat → Except DecodeError (Option ((List Nat ⊕ List Nat) × List Nat))
  | [] => .ok none
  | b :: rest =>
    if isAsciiWs b then wsLoop rest
    else if isAsciiAlpha b then .ok (some (.inr [b], rest))
    else if b = 35 then .ok (some (.inl [], rest))
    else .error .unexpectedToken

/-- The `Comment` arm of the decode dispatch loop. -/
def runComment (buf src : List Nat) :
    Except DecodeError (Option Directive × Option DecoderState × List Nat) :=
  match commentLoop buf src with
  | .inl (d, rest) => .ok (some d, none, rest)
  | .inr buf' => .ok (none, some (.comment buf'), [])

/-- The `DirectiveArguments` arm of the decode dispatch loop. -/
def runArgs (ast : ArgsState) (src : List Nat) :
    Except DecodeError (Option Directive × Option DecoderState × List Nat) :=
  match argsLoop ast src with
  | .error e => .error e
  | .ok (.inl (d, rest)) => .ok (some d, none, rest)
  | .ok (.inr ast') => .ok (none, some (.directiveArguments ast'), [])

/-- The `Directive` arm of the decode dispatch loop; when the keyword
resolves, the dispatch continues with the `DirectiveArguments` arm on the
remaining buffer. -/
def runDirective (buf src : List Nat) :
    Except DecodeError (Option Directive × Option DecoderState × List Nat) :=
  match directiveLoop buf src with
  | .error e => .error e
  | .ok (.inr buf') => .ok (none, some (.directive buf'), [])
  | .ok (.inl (ast, rest)) => runArgs ast rest

/-- Mirror of the state dispatch loop inside `DockerfileDecoder::decode`:
run the current state's loop over the buffer, returning an emitted directive
with the unconsumed rest, or the state to save at exhaustion.  A saved
`Whitespace` never occurs (the source then leaves `current_state` empty),
which the dispatch reflects by returning no state from the whitespace
arm. -/
def runState (st : DecoderState) (src : List Nat) :
    Except DecodeError (Option Directive × Option DecoderState × List Nat) :=
  match st with
  | .comment buf => runComment buf src
  | .directiveArguments ast => runArgs ast src
  | .directive buf => runDirective buf src
  | .whitespace =>
    match wsLoop src with
    | .error e => .error e
    | .ok none => .ok (none, none, [])
    | .ok (some (.inl cbuf, rest)) => runComment cbuf rest
    | .ok (some (.inr dbuf, rest)) => runDirective dbuf rest

/-- Mirror of one call of `Decoder::decode`: resume from the saved state, or
derive a fresh state from the first byte. -/
def decodeStep (st : Option DecoderState) (src : List Nat) :
    Except DecodeError (Option Directive × Option DecoderState × List Nat) :=
  match st with
  | some s => runState s src
  | none =>
    match src with
    | [] => .ok (none, none, [])
    | b :: rest =>
      match deriveNewLineState b with
      | .error e => .error e
      | .ok s => runState s rest

/-- An emitted comment consumes at least the terminating newline. -/
theorem commentLoop_inl_length (buf src : List Nat) (d : Directive) (rest : List Nat)
    (h : commentLoop buf src = .inl (d, rest)) : rest.length < src.length := by
  induction src generalizing buf with
  | nil => simp [commentLoop] at h
  | cons b tl ih =>
    simp only [commentLoop] at h
    rcases hs : commentStep buf b with buf' | d'
    · rw [hs] at h
      exact Nat.lt_trans (ih buf' h) (Nat.lt_succ_self _)
    · rw [hs] at h
      simp only [Sum.inl.injEq, Prod.mk.injEq] at h
      simp [← h.2, Nat.lt_succ_self]

/-- An emitted directive consumes at least the terminating newline. -/
theorem argsLoop_inl_length (ast : ArgsState) (src : List Nat) (d : Directive)
    (rest : List Nat) (h : argsLoop ast src = .ok (.inl (d, rest))) :
    rest.length < src.length := by
  induction src generalizing ast with
  | nil => simp [argsLoop] at h
  | cons b tl ih =>
    simp only [argsLoop] at h
    rcases hs : argsStep ast b with e | r
    · rw [hs] at h; cases h
    · rw [hs] at h
      cases r with
      | inl ast' =>
        simp only at h
        exact Nat.lt_trans (ih ast' h) (Nat.lt_succ_self _)
      | inr d' =>
        simp only [Except.ok.injEq, Sum.inl.injEq, Prod.mk.injEq] at h
        simp [← h.2, Nat.lt_succ_self]

/-- A whitespace-skip transition consumes at least one byte. -/
theorem wsLoop_some_length (src : List Nat) (r : List Nat ⊕ List Nat) (rest : List Nat)
    (h : wsLoop src = .ok (some (r, rest))) : rest.length < src.length := by
  induction src with
  | nil => simp [wsLoop] at h
  | cons b tl ih =>
    simp only [wsLoop] at h
    by_cases hb : isAsciiWs b = true
    · rw [if_pos hb] at h
      exact Nat.lt_trans (ih h) (Nat.lt_succ_self _)
    · rw [if_neg hb] at h
      by_cases ha : isAsciiAlpha b = true
      · rw [if_pos ha] at h
        simp only [Except.ok.injEq, Option.some.injEq, Prod.mk.injEq] at h
        simp [← h.2, Nat.lt_succ_self]
      · rw [if_neg ha] at h
        by_cases h35 : b = 35
        · rw [if_pos h35] at h
          simp only [Except.ok.injEq, Option.some.injEq, Prod.mk.injEq] at h
          simp [← h.2, Nat.lt_succ_self]
        · rw [if_neg h35] at h
          cases h

/-- A `decode_directive` transition into argument decoding consumes at least
one byte (the space). -/
theorem directiveLoop_inl_length (buf src : List Nat) (ast : ArgsState) (rest : List Nat)
    (h : directiveLoop buf src = .ok (.inl (ast, rest))) : rest.length < src.length := by
  induction src generalizing buf with
  | nil => simp [directiveLoop] at h
  | cons b tl ih =>
    simp only [directiveLoop] at h
    rcases hs : directiveStep buf b with e | r
    · rw [hs] at h; cases h
    · rw [hs] at h
      cases r with
      | inl buf' =>
        simp only at h
        have := ih buf' h
        simpa using Nat.lt_trans this (Nat.lt_succ_self _)
      | inr ast' =>
        simp only [Except.ok.injEq, Sum.inl.injEq, Prod.mk.injEq] at h
        simp [← h.2, List.length_cons, Nat.lt_succ_self]

/-- `runComment` only emits a directive after consuming at least one byte. -/
theorem runComment_emit_length (buf src : List Nat) (d : Directive)
    (st' : Option DecoderState) (rest : List Nat)
    (h : runComment buf src = .ok (some d, st', rest)) : rest.length < src.length := by
  unfold runComment at h
  rcases hs : commentLoop buf src with ⟨d', rest'⟩ | buf'
  · rw [hs] at h
    simp only [Except.ok.injEq, Prod.mk.injEq] at h
    rw [← h.2.2]
    exact commentLoop_inl_length _ _ _ _ hs
  · rw [hs] at h; simp at h

/-- `runArgs` only emits a directive after consuming at least one byte. -/
theorem runArgs_emit_length (ast : ArgsState) (src : List Nat) (d : Directive)
    (st' : Option DecoderState) (rest : List Nat)
    (h : runArgs ast src = .ok (some d, st', rest)) : rest.length < src.length := by
  unfold runArgs at h
  rcases hs : argsLoop ast src with e | r
  · rw [hs] at h; cases h
  · rw [hs] at h
    rcases r with ⟨d', rest'⟩ | ast'
    · simp only [Except.ok.injEq, Prod.mk.injEq] at h
      rw [← h.2.2]
      exact argsLoop_inl_length _ _ _ _ hs
    · simp at h

/-- `runDirective` only emits a directive after consuming at least one
byte. -/
theorem runDirective_emit_length (buf src : List Nat) (d : Directive)
    (st' : Option DecoderState) (rest : List Nat)
    (h : runDirective buf src = .ok (some d, st', rest)) : rest.length < src.length := by
  unfold runDirective at h
  rcases hs : directiveLoop buf src with e | r
  · rw [hs] at h; cases h
  · rw [hs] at h
    rcases r with ⟨ast, rest'⟩ | buf'
    · exact Nat.lt_trans (runArgs_emit_length _ _ _ _ _ h)
        (directiveLoop_inl_length _ _ _ _ hs)
    · simp at h

/-- `runState` only emits a directive after consuming at least one byte. -/
theorem runState_emit_length (st : DecoderState) (src : List Nat) (d : Directive)
    (st' : Option DecoderState) (rest : List Nat)
    (h : runState st src = .ok (some d, st', rest)) : rest.length < src.length := by
  match st with
  | .comment buf => exact runComment_emit_length _ _ _ _ _ h
  | .directiveArguments ast => exact runArgs_emit_length _ _ _ _ _ h
  | .directive buf => exact runDirective_emit_length _ _ _ _ _ h
  | .whitespace =>
    have h' : (match wsLoop src with
      | .error e => Except.error e
      | .ok none => .ok (none, none, [])
      | .ok (some (.inl cbuf, rest)) => runComment cbuf rest
      | .ok (some (.inr dbuf, rest)) => runDirective dbuf rest) =
        Except.ok (some d, st', rest) := h
    rcases hs : wsLoop src with e | r
    · rw [hs] at h'; cases h'
    · rw [hs] at h'
      rcases r with _ | ⟨cbuf | dbuf, rest'⟩
      · simp at h'
      · exact Nat.lt_trans (runComment_emit_length _ _ _ _ _ h')
          (wsLoop_some_length _ _ _ hs)
      · exact Nat.lt_trans (runDirective_emit_length _ _ _ _ _ h')
          (wsLoop_some_length _ _ _ hs)

/-- One `decode` call only emits a directive after consuming at least one
byte. -/
theorem decodeStep_emit_length (st : Option DecoderState) (src : List Nat) (d : Directive)
    (st' : Option DecoderState) (rest : List Nat)
    (h : decodeStep st src = .ok (some d, st', rest)) : rest.length < src.length := by
  match st with
  | some s => exact runState_emit_length _ _ _ _ _ h
  | none =>
    match src with
    | [] => simp [decodeStep] at h
    | b :: tl =>
      simp only [decodeStep] at h
      rcases hd : deriveNewLineState b with e | s
      · rw [hd] at h; cases h
      · rw [hd] at h
        exact Nat.lt_trans (runState_emit_length _ _ _ _ _ h) (Nat.lt_succ_self _)

/-- Mirror of `TryInto<Option<Directive>> for DecoderState` (the flush
helper).  Note the wildcard arm of the source maps both `Whitespace` and a
mid-keyword `Directive` state to `Ok(None)`. -/
def flushDecoderState (st : DecoderState) : Except DecodeError (Option Directive) :=
  match st with
  | .comment content => .ok (some (.comment content))
  | .directiveArguments ast =>
    match ast.arguments with
    | none => .error .incompleteInstruction
    | some args => (ast.directive.setArguments args).map some
  | _ => .ok none

/-- Mirror of `DockerfileDecoder::flush`. -/
def flushState (st : Option DecoderState) : Except DecodeError (Option Directive) :=
  match st with
  | none => .ok none
  | some s => flushDecoderState s

/-- The repeated-`decode` loop driven by `FramedRead`: a returned frame is
followed immediately by another `decode` call on the remaining buffer; a
`None` return (always with an empty remainder for this decoder) hands
control back for more input. -/
def driverRun (st : Option DecoderState) (src : List Nat) :
    Except DecodeError (List Directive × Option DecoderState) :=
  match h : decodeStep st src with
  | .error e => .error e
  | .ok (none, st', _) => .ok ([], st')
  | .ok (some d, st', rest) =>
    (driverRun st' rest).map (fun p => (d :: p.1, p.2))
termination_by src.length
decreasing_by exact decodeStep_emit_length _ _ _ _ _ h

/-- Mirror of `Decoder::decode_eof`: one more `decode` call on the remaining
buffer, then `flush`. -/
def decodeEof (st : Option DecoderState) (src : List Nat) :
    Except DecodeError (List Directive × Option DecoderState) :=
  match h : decodeStep st src with
  | .error e => .error e
  | .ok (none, st', _) =>
    (flushState st').map (fun d? => (d?.toList, none))
  | .ok (some d, st', rest) =>
    (decodeEof st' rest).map (fun p => (d :: p.1, p.2))
termination_by src.length
decreasing_by exact decodeStep_emit_length _ _ _ _ _ h

/-- The full streaming pipeline of `decode_dockerfile_from_src`, made
explicit over the chunking of the byte source: every chunk is fed through
repeated `decode` calls, and end of input runs `decode_eof` (`decode` +
`flush`).  `FramedRead` calls `decode_eof` until it returns `None`; after
the flush emits, the decoder state is empty, so a single flush suffices. -/
def decodeChunksFrom (st : Option DecoderState) :
    List (List Nat) → Except DecodeError (List Directive)
  | [] => (decodeEof st []).map Prod.fst
  | c :: cs =>
    match driverRun st c with
    | .error e => .error e
    | .ok (ds, st') => (decodeChunksFrom st' cs).map (fun rest => ds ++ rest)

/-- Decode a chunked byte stream from a fresh decoder. -/
def decodeChunks (chunks : List (List Nat)) : Except DecodeError (List Directive) :=
  decodeChunksFrom none chunks

/-- Decode a complete in-memory Dockerfile (a single chunk). -/
def decodeDockerfile (bytes : List Nat) : Except DecodeError (List Directive) :=
  decodeChunks [bytes]

/-! ## Byte-at-a-time normal form of the decoder -/

/-- The per-byte transition of the decoder state machine, used as the normal
form against which the loop structure of `decode` is proved equivalent. -/
def stepB (st : Option DecoderState) (b : Nat) :
    Except DecodeError (Option DecoderState × Option Directive) :=
  match st with
  | none => (deriveNewLineState b).map (fun s => (some s, none))
  | some .whitespace => (deriveNewLineState b).map (fun s => (some s, none))
  | some (.comment buf) =>
    match commentStep buf b with
    | .inl buf' => .ok (some (.comment buf'), none)
    | .inr d => .ok (none, some d)
  | some (.directive buf) =>
    (directiveStep buf b).map (fun r =>
      match r with
      | .inl buf' => (some (.directive buf'), none)
      | .inr ast => (some (.directiveArguments ast), none))
  | some (.directiveArguments ast) =>
    (argsStep ast b).map (fun r =>
      match r with
      | .inl ast' => (some (.directiveArguments ast'), none)
      | .inr d => (none, some d))

/-- Folding the per-byte transition over a buffer, collecting emissions. -/
def foldB (st : Option DecoderState) : List Nat → Except DecodeError (Option DecoderState × List Directive)
  | [] => .ok (st, [])
  | b :: rest =>
    match stepB st b with
    | .error e => .error e
    | .ok (st', d?) => (foldB st' rest).map (fun p => (p.1, d?.toList ++ p.2))

/-! ## UTF-8 encoding (to turn the transform's `String` values into `Bytes`) -/

/-- Standard UTF-8 encoding of one scalar value (mirror of Rust
`String::from` / `Bytes::from(String)` at the char level). -/
def utf8EncodeChar (c : Char) : List Nat :=
  let n := c.toNat
  if n < 128 then [n]
  else if n < 2048 then [192 + n / 64, 128 + n % 64]
  else if n < 65536 then [224 + n / 4096, 128 + (n / 64) % 64, 128 + n % 64]
  else [240 + n / 262144, 128 + (n / 4096) % 64, 128 + (n / 64) % 64, 128 + n % 64]

/-- UTF-8 bytes of a string. -/
def strBytes (s : List Char) : List Nat :=
  (s.map utf8EncodeChar).flatten

/-! ## Build transform (`src/build/mod.rs`, `process_dockerfile`) -/

/-- Mirror of `Directive::new_run`. -/
def Directive.newRun (s : List Char) : Directive := .run (strBytes s)

/-- Mirror of `Directive::new_add`. -/
def Directive.newAdd (sourceUrl destinationPath : List Char) : Directive :=
  .add sourceUrl destinationPath

/-- Modelled from the spec: the legacy tree's two-argument
`Directive::new_env(key, value)` constructor (its `docker` module is not in
the source snapshot).  Spec section 4.2: a block of `ENV` directives, one
variable per line, with delimiter `Eq`; consistent with the expected
`ENV KEY=VALUE` lines of the transform unit tests. -/
def Directive.newEnvKV (key val : List Char) : Directive :=
  .env [⟨key, val, .eq⟩]

/-- Mirror of `bool`'s `Display` (used via `to_string()` on config flags). -/
def boolStr (b : Bool) : List Char :=
  if b then String.data ("true") else String.data ("false")

/-- The fields of `ValidatedCageBuildConfig` that `process_dockerfile`
reads. -/
structure ValidatedCageBuildConfig where
  cageName : List Char
  cageUuid : List Char
  appUuid : List Char
  teamUuid : List Char
  egressEnabled : Bool
  disableTlsTermination : Bool
  apiKeyAuth : Bool
  trxLoggingEnabled : Bool
  deriving DecidableEq, Repr

/-- Modelled from the spec: `get_dataplane_feature_label` (the snapshot of
`config.rs` predates this accessor).  Spec section 4.2: the feature label is
`egress-(enabled|disabled)/tls-termination-(enabled|disabled)`; consistent
with `egress-disabled/tls-termination-enabled` in the transform unit
tests. -/
def getDataplaneFeatureLabel (cfg : ValidatedCageBuildConfig) : List Char :=
  String.data ("egress-") ++
    (if cfg.egressEnabled then String.data ("enabled") else String.data ("disabled")) ++
    String.data ("/tls-termination-") ++
    (if cfg.disableTlsTermination then String.data ("disabled") else String.data ("enabled"))

/-- Errors of `process_dockerfile` reachable in the pure transform
(`DockerError::RestrictedPortExposed` and `DecodeError::NoEntrypoint`,
both carried by `BuildError::DockerError`). -/
inductive BuildError
  | noEntrypoint
  | restrictedPortExposed (port : Nat)
  deriving DecidableEq, Repr

/-- Tokens of an `Entrypoint`/`Cmd` directive, empty for anything else. -/
def optionTokens : Option Directive → List (List Char)
  | some (.entrypoint _ ts) => ts
  | some (.cmd _ ts) => ts
  | _ => []

/-- Modelled from the spec: `create_combined_docker_entrypoint` (the legacy
tree's `docker::utils` module is not in the source snapshot).  Spec section
4.2 step 4: when both the last entrypoint and last cmd are absent the
transform fails with `NoEntrypoint`; otherwise their token sequences are
combined, entrypoint first, into one shell command string. -/
def createCombinedDockerEntrypoint (lastEntrypoint lastCmd : Option Directive) :
    Except BuildError (List Char) :=
  match lastEntrypoint, lastCmd with
  | none, none => .error .noEntrypoint
  | e, c => .ok (joinSep [' '] (optionTokens e ++ optionTokens c))

/-- Accumulator of the single filtering pass of `process_dockerfile`. -/
structure ScanAcc where
  kept : List Directive
  lastCmd : Option Directive
  lastEntrypoint : Option Directive
  exposedPort : Option Nat
  deriving Repr

/-- Mirror of the `remove_unwanted_directives` closure: `Cmd`, `Entrypoint`
and `Expose` are tracked (later occurrences overwrite earlier ones) and
filtered out; everything else is kept in order. -/
def scanStep (acc : ScanAcc) (d : Directive) : ScanAcc :=
  if d.isCmd then { acc with lastCmd := some d }
  else if d.isEntrypoint then { acc with lastEntrypoint := some d }
  else
    match d with
    | .expose p => { acc with exposedPort := p }
    | _ => { acc with kept := acc.kept ++ [d] }

/-- The filtering pass over the whole decoded instruction set. -/
def scanDirectives (instructionSet : List Directive) : ScanAcc :=
  instructionSet.foldl scanStep ⟨[], none, none, none⟩

/-- The port value carried by the last `Expose` directive of the input (the
tracked `exposed_port` after the filtering pass). -/
def exposedPortOf (instructionSet : List Directive) : Option Nat :=
  (scanDirectives instructionSet).exposedPort

/-- Mirror of the `wait_for_env` raw string (`\"` and `\n` are literal
two-character escape sequences interpreted later by `printf`). -/
def waitForEnvScript : List Char :=
  String.data ("while ! grep -q \\\"EV_API_KEY\\\" /etc/customer-env\\n do echo \\\"Env not ready, sleeping user process for one second\\\"\\n sleep 1\\n done \\n source /etc/customer-env\\n")

/-- Mirror of the `entrypoint_script` format string of
`process_dockerfile`. -/
def entrypointScriptFor (entrypoint : List Char) : List Char :=
  String.data ("sleep 5\\necho \\\"Checking status of data-plane\\\"\\nSVDIR=/etc/service sv check data-plane || exit 1\\necho \\\"Data-plane up and running\\\"\\n") ++
    waitForEnvScript ++
    String.data ("\\necho \\\"Booting user service...\\\"\\ncd %s\\nexec ") ++
    entrypoint

/-- Modelled from the spec: `write_command_to_script` (the legacy tree's
`docker::utils` module is not in the source snapshot).  It wraps a script
body in `printf "#!/bin/sh\n<body>\n" <args> > <path> && chmod +x <path>`;
the exact shape is pinned down by the expected `RUN printf ...` lines of the
transform unit tests. -/
def writeCommandToScript (command path : List Char) (args : List (List Char)) : List Char :=
  String.data ("printf \"#!/bin/sh\\n") ++ command ++ String.data ("\\n\"") ++
    args.flatten ++ String.data (" > ") ++ path ++ String.data (" && chmod +x ") ++ path

/-- Mirror of the `data_plane_run_script` construction: the base script,
followed by the captured exposed port when one is present. -/
def dataPlaneRunScript (port : Option Nat) : List Char :=
  let base := String.data ("echo \\\"Booting Evervault data plane...\\\"\\nexec /opt/evervault/data-plane")
  match port with
  | some p => base ++ [' '] ++ decRepr p
  | none => base

/-- Mirror of `bootstrap_script_content`. -/
def bootstrapScriptContent : List Char :=
  String.data ("ifconfig lo 127.0.0.1\\necho \\\"Booting enclave...\\\"\\nexec runsvdir /etc/service")

/-- Mirror of `installer_bundle_url`. -/
def installerBundleUrl (evDomain installerVersion : List Char) : List Char :=
  String.data ("https://cage-build-assets.") ++ evDomain ++ String.data ("/installer/") ++
    installerVersion ++ String.data (".tar.gz")

/-- Mirror of `data_plane_url`. -/
def dataPlaneUrl (evDomain dataPlaneVersion : List Char) (cfg : ValidatedCageBuildConfig) : List Char :=
  String.data ("https://cage-build-assets.") ++ evDomain ++ String.data ("/runtime/") ++
    dataPlaneVersion ++ String.data ("/data-plane/") ++ getDataplaneFeatureLabel cfg

/-- The `RUN` directive that writes `/etc/service/data-plane/run`. -/
def dataPlaneRunDirective (port : Option Nat) : Directive :=
  Directive.newRun (writeCommandToScript (dataPlaneRunScript port)
    (String.data ("/etc/service/data-plane/run")) [])

/-- Mirror of the `injected_directives` vector of `process_dockerfile`. -/
def injectedDirectives (cfg : ValidatedCageBuildConfig) (evDomain dataPlaneVersion installerVersion : List Char)
    (exposedPort : Option Nat) (userServiceBuilder : Directive) : List Directive :=
  [ Directive.newRun (String.data ("mkdir -p /opt/evervault")),
    Directive.newAdd (installerBundleUrl evDomain installerVersion)
      (String.data ("/opt/evervault/runtime-dependencies.tar.gz")),
    Directive.newRun (String.data ("cd /opt/evervault ; tar -xzf runtime-dependencies.tar.gz ; sh ./installer.sh ; rm runtime-dependencies.tar.gz")),
    Directive.newRun (String.data ("mkdir -p /etc/service/user-entrypoint")),
    userServiceBuilder,
    Directive.newAdd (dataPlaneUrl evDomain dataPlaneVersion cfg)
      (String.data ("/opt/evervault/data-plane")),
    Directive.newRun (String.data ("chmod +x /opt/evervault/data-plane")),
    Directive.newRun (String.data ("mkdir -p /etc/service/data-plane")),
    dataPlaneRunDirective exposedPort,
    Directive.newEnvKV (String.data ("EV_CAGE_NAME")) cfg.cageName,
    Directive.newEnvKV (String.data ("CAGE_UUID")) cfg.cageUuid,
    Directive.newEnvKV (String.data ("EV_APP_UUID")) cfg.appUuid,
    Directive.newEnvKV (String.data ("EV_TEAM_UUID")) cfg.teamUuid,
    Directive.newEnvKV (String.data ("DATA_PLANE_HEALTH_CHECKS")) (String.data ("true")),
    Directive.newEnvKV (String.data ("EV_API_KEY_AUTH")) (boolStr cfg.apiKeyAuth),
    Directive.newEnvKV (String.data ("EV_TRX_LOGGING_ENABLED")) (boolStr cfg.trxLoggingEnabled),
    Directive.newRun (writeCommandToScript bootstrapScriptContent (String.data ("/bootstrap")) []),
    Directive.entrypoint (some Mode.exec)
      [String.data ("/bootstrap"), String.data ("1>&2")] ]

/-- Mirror of the pure part of `process_dockerfile` (after the input has been
decoded into a directive sequence).  `evDomain` is the resolved value of the
`EV_DOMAIN` environment variable (default `evervault.com`).  Note the source
builds the user-service script (failing with `NoEntrypoint`) before it
checks the restricted port. -/
def processDockerfile (cfg : ValidatedCageBuildConfig) (evDomain dataPlaneVersion installerVersion : List Char)
    (instructionSet : List Directive) : Except BuildError (List Directive) :=
  let scan := scanDirectives instructionSet
  match createCombinedDockerEntrypoint scan.lastEntrypoint scan.lastCmd with
  | .error e => .error e
  | .ok entrypoint =>
    let userServiceBuilder := Directive.newRun
      (writeCommandToScript (entrypointScriptFor entrypoint)
        (String.data ("/etc/service/user-entrypoint/run")) [String.data (" \"$PWD\" ")])
    if scan.exposedPort = some 443 then .error (.restrictedPortExposed 443)
    else .ok (scan.kept ++
      injectedDirectives cfg evDomain dataPlaneVersion installerVersion scan.exposedPort userServiceBuilder)

/-! ## Deploy flow (`src/deploy/mod.rs`) -/

/-- Mirror of `DeployError` (the variants reachable in the modelled upload
and watch phases). -/
inductive DeployError
  | uploadError (body : List Char)
  | deploymentError
  | timeoutError (operationName : List Char) (seconds : Nat)
  deriving DecidableEq, Repr

/-- Mirror of `DEPLOY_WATCH_TIMEOUT_SECONDS`. -/
def deployWatchTimeoutSeconds : Nat := 1200

/-- Mirror of `timed_operation`: the wrapped future's completion is
abstracted as an `Option` — `some r` when the future finished with `r`
before the timer elapsed, `none` when the timer won the race.  On timeout
the error carries the operation name and
`Duration::from_secs(max_timeout_seconds).as_secs()`, which is
`max_timeout_seconds` itself. -/
def timedOperation {α : Type} (operationName : List Char) (maxTimeoutSeconds : Nat)
    (operation : Option α) : Except DeployError α :=
  match operation with
  | some r => .ok r
  | none => .error (.timeoutError operationName maxTimeoutSeconds)

/-- The remote interactions of `deploy_eif` from the moment the storage
`PUT` has returned a response: the response status, its error text, the
outcome of `watch_build`, and the outcome of `watch_deployment` (inside the
`timed_operation` race, so `none` means the watch was still pending when the
1200-second timer elapsed). -/
structure DeployRemoteEnv where
  s3Success : Bool
  s3ErrorText : List Char
  buildResult : Except DeployError Bool
  deployResult : Option (Except DeployError Bool)

/-- Mirror of `deploy_eif` after the upload `PUT` returns (source lines
72-116): the local zip is removed first, then the response status is
inspected, then the build watch, then the deployment watch under
`timed_operation("Cage Deployment", DEPLOY_WATCH_TIMEOUT_SECONDS, ...)`.
The second component of the result tracks whether `enclave.zip` still
exists on disk. -/
def deployEifAfterUpload (env : DeployRemoteEnv) (zipExists : Bool) :
    Except DeployError Unit × Bool :=
  let zipAfterRemove := false
  if env.s3Success then
    match env.buildResult with
    | .error e => (.error e, zipAfterRemove)
    | .ok false => (.error .deploymentError, zipAfterRemove)
    | .ok true =>
      match timedOperation (String.data ("Cage Deployment")) deployWatchTimeoutSeconds
          env.deployResult with
      | .error e => (.error e, zipAfterRemove)
      | .ok (.error e) => (.error e, zipAfterRemove)
      | .ok (.ok false) => (.error .deploymentError, zipAfterRemove)
      | .ok (.ok true) => (.ok (), zipAfterRemove)
  else (.error (.uploadError env.s3ErrorText), zipAfterRemove)

/-! ## Lemmas about the transform's filtering pass -/

/-- The directives kept by the filtering pass are exactly the input
directives that are neither `Cmd` nor `Entrypoint` nor `Expose`, in their
original order. -/
theorem scan_foldl_kept (l : List Directive) (acc : ScanAcc) :
    (l.foldl scanStep acc).kept =
      acc.kept ++ l.filter (fun d => !(d.isCmd || d.isEntrypoint || d.isExpose)) := by
  induction l generalizing acc with
  | nil => simp
  | cons d tl ih =>
    rw [List.foldl_cons, List.filter_cons, ih]
    cases d <;>
      simp [scanStep, Directive.isCmd, Directive.isEntrypoint, Directive.isExpose]

/-- Once a `Cmd` or `Entrypoint` has been tracked, the rest of the pass keeps
one tracked. -/
theorem scan_foldl_preserve_ep (l : List Directive) (acc : ScanAcc)
    (h : acc.lastEntrypoint ≠ none ∨ acc.lastCmd ≠ none) :
    (l.foldl scanStep acc).lastEntrypoint ≠ none ∨ (l.foldl scanStep acc).lastCmd ≠ none := by
  induction l generalizing acc with
  | nil => exact h
  | cons d tl ih =>
    rw [List.foldl_cons]
    apply ih
    by_cases hc : d.isCmd = true
    · right; simp [scanStep, hc]
    · by_cases he : d.isEntrypoint = true
      · left; simp [scanStep, hc, he]
      · cases d <;> simp_all [scanStep, Directive.isCmd, Directive.isEntrypoint]

/-- If the input contains any `Cmd` or `Entrypoint`, the pass ends with one
tracked. -/
theorem scan_foldl_hit_ep (l : List Directive) (acc : ScanAcc)
    (h : ∃ d, d ∈ l ∧ (d.isEntrypoint || d.isCmd) = true) :
    (l.foldl scanStep acc).lastEntrypoint ≠ none ∨ (l.foldl scanStep acc).lastCmd ≠ none := by
  induction l generalizing acc with
  | nil => simp at h
  | cons d tl ih =>
    obtain ⟨d0, hmem, hd0⟩ := h
    rw [List.foldl_cons]
    rcases List.mem_cons.mp hmem with rfl | hmem'
    · apply scan_foldl_preserve_ep
      rcases Bool.or_eq_true_iff.mp hd0 with he | hc
      · left
        cases d0 <;> simp_all [scanStep, Directive.isEntrypoint, Directive.isCmd]
      · right
        cases d0 <;> simp_all [scanStep, Directive.isEntrypoint, Directive.isCmd]
    · exact ih _ ⟨d0, hmem', hd0⟩

/-! ## Claim C1 -/

/-- A sample configuration used by concrete instantiations. -/
def sampleCfg : ValidatedCageBuildConfig :=
  ⟨String.data ("test"), String.data ("1234"), String.data ("3241"),
   String.data ("teamid"), false, false, true, true⟩

/-- C1 (counterexample): the claim "for every decoded directive sequence
containing `EXPOSE 443`, `process_dockerfile` fails with
`RestrictedPortExposed(443)` regardless of the other directives" is false on
the code: with no entrypoint/cmd at all the transform fails with
`NoEntrypoint` instead (the combined entrypoint is built, with `?`, before
the port check), and a later `EXPOSE` overwrites the tracked port so the
transform succeeds. -/
theorem claim_C1_counterexample :
    processDockerfile sampleCfg (String.data ("evervault.com")) (String.data ("0.0.0"))
        (String.data ("abcdef")) [Directive.expose (some 443)] = .error .noEntrypoint ∧
    (processDockerfile sampleCfg (String.data ("evervault.com")) (String.data ("0.0.0"))
        (String.data ("abcdef"))
        [Directive.expose (some 443), Directive.expose (some 80),
         Directive.entrypoint (some Mode.shell) [String.data ("sh")]]).isOk = true := by
  constructor
  · rfl
  · rfl

/-- C1 (amended): for every decoded directive sequence that contains at
least one `Entrypoint` or `Cmd` directive and whose tracked (last) `Expose`
port is 443, `process_dockerfile` fails with `RestrictedPortExposed(443)`. -/
theorem claim_C1_port_safety (cfg : ValidatedCageBuildConfig)
    (evDomain dataPlaneVersion installerVersion : List Char) (insts : List Directive)
    (hep : ∃ d, d ∈ insts ∧ (d.isEntrypoint || d.isCmd) = true)
    (hport : exposedPortOf insts = some 443) :
    processDockerfile cfg evDomain dataPlaneVersion installerVersion insts =
      .error (.restrictedPortExposed 443) := by
  have htracked := scan_foldl_hit_ep insts ⟨[], none, none, none⟩ hep
  unfold processDockerfile
  have hscan : (scanDirectives insts).exposedPort = some 443 := hport
  rcases he : (scanDirectives insts).lastEntrypoint with _ | e
  · rcases hc : (scanDirectives insts).lastCmd with _ | c
    · exfalso
      unfold scanDirectives at he hc
      rcases htracked with h | h
      · exact h he
      · exact h hc
    · simp [createCombinedDockerEntrypoint, he, hc, hscan]
  · rcases hc : (scanDirectives insts).lastCmd with _ | c <;>
      simp [createCombinedDockerEntrypoint, he, hc, hscan]

/-- Witness for C1: a concrete sequence with an entrypoint and `EXPOSE 443`
is rejected with `RestrictedPortExposed(443)`. -/
theorem claim_C1_port_safety_witness :
    processDockerfile sampleCfg (String.data ("evervault.com")) (String.data ("0.0.0"))
        (String.data ("abcdef"))
        [Directive.entrypoint (some Mode.shell) [String.data ("sh")],
         Directive.expose (some 443)] = .error (.restrictedPortExposed 443) :=
  claim_C1_port_safety sampleCfg _ _ _ _
    ⟨Directive.entrypoint (some Mode.shell) [String.data ("sh")], by simp, rfl⟩ rfl

/-! ## Claim C2 -/

/-- The keep predicate of the filtering pass. -/
def keepPred (d : Directive) : Bool :=
  !(d.isCmd || d.isEntrypoint || d.isExpose)

/-- The final injected directive. -/
def bootstrapEntrypoint : Directive :=
  Directive.entrypoint (some Mode.exec) [String.data ("/bootstrap"), String.data ("1>&2")]

/-- C2: whenever the transform succeeds, the output is the kept user
directives in their original relative order followed by the injected
directives; it contains no `Expose` and no `Cmd`; and it ends with the
exec-form `ENTRYPOINT ["/bootstrap", "1>&2"]`, which is the only
`Entrypoint` in the output. -/
theorem claim_C2_output_shape (cfg : ValidatedCageBuildConfig)
    (evDomain dataPlaneVersion installerVersion : List Char)
    (insts out : List Directive)
    (h : processDockerfile cfg evDomain dataPlaneVersion installerVersion insts = .ok out) :
    (∀ d ∈ out, d.isExpose = false ∧ d.isCmd = false) ∧
    (∃ usb : Directive,
      out = insts.filter keepPred ++
        injectedDirectives cfg evDomain dataPlaneVersion installerVersion
          (exposedPortOf insts) usb ∧
      usb.isExpose = false ∧ usb.isCmd = false ∧ usb.isEntrypoint = false) ∧
    out.getLast? = some bootstrapEntrypoint ∧
    out.filter Directive.isEntrypoint = [bootstrapEntrypoint] := by
  simp only [processDockerfile] at h
  rcases hcc : createCombinedDockerEntrypoint (scanDirectives insts).lastEntrypoint
      (scanDirectives insts).lastCmd with e | entry
  · rw [hcc] at h; cases h
  · rw [hcc] at h
    dsimp only [] at h
    by_cases hport : (scanDirectives insts).exposedPort = some 443
    · rw [if_pos hport] at h; cases h
    · rw [if_neg hport] at h
      injection h with h
      subst h
      set usb := Directive.newRun
        (writeCommandToScript (entrypointScriptFor entry)
          (String.data ("/etc/service/user-entrypoint/run"))
          [String.data (" \"$PWD\" ")]) with husb
      have hkept : (scanDirectives insts).kept = insts.filter keepPred := by
        unfold scanDirectives
        rw [scan_foldl_kept]
        rfl
      refine ⟨?_, ⟨usb, by rw [hkept]; rfl, rfl, rfl, rfl⟩, ?_, ?_⟩
      · intro d hd
        rcases List.mem_append.mp hd with hmem | hmem
        · rw [hkept] at hmem
          have := List.of_mem_filter hmem
          unfold keepPred at this
          constructor
          · cases d <;> simp_all [Directive.isCmd, Directive.isEntrypoint, Directive.isExpose]
          · cases d <;> simp_all [Directive.isCmd, Directive.isEntrypoint, Directive.isExpose]
        · simp only [injectedDirectives, List.mem_cons, List.mem_singleton] at hmem
          rcases hmem with rfl | rfl | rfl | rfl | rfl | rfl | rfl | rfl | rfl | rfl | rfl |
            rfl | rfl | rfl | rfl | rfl | rfl | rfl | hfalse
          all_goals first
            | exact ⟨rfl, rfl⟩
            | cases hfalse
      · rw [List.getLast?_append]
        rfl
      · rw [List.filter_append, hkept]
        have h1 : List.filter Directive.isEntrypoint (insts.filter keepPred) = [] := by
          rw [List.filter_filter]
          apply List.filter_eq_nil_iff.mpr
          intro d _
          cases d <;> simp [Directive.isEntrypoint, keepPred, Directive.isCmd,
            Directive.isExpose]
        rw [h1]
        rfl

/-- Concrete input for the C2 witness. -/
def c2Insts : List Directive :=
  [Directive.fromD (sb ("alpine")),
   Directive.entrypoint (some Mode.shell) [String.data ("sh")]]

/-- The transform output on `c2Insts`. -/
def c2Out : List Directive :=
  [Directive.fromD (sb ("alpine"))] ++
    injectedDirectives sampleCfg (String.data ("evervault.com")) (String.data ("0.0.0"))
      (String.data ("abcdef")) none
      (Directive.newRun
        (writeCommandToScript (entrypointScriptFor (joinSep [' '] ([String.data ("sh")] ++ [])))
          (String.data ("/etc/service/user-entrypoint/run")) [String.data (" \"$PWD\" ")]))

/-- Witness for C2 at a concrete successful transform. -/
theorem claim_C2_output_shape_witness :
    c2Out.getLast? = some bootstrapEntrypoint ∧
    c2Out.filter Directive.isEntrypoint = [bootstrapEntrypoint] :=
  ⟨(claim_C2_output_shape sampleCfg (String.data ("evervault.com")) (String.data ("0.0.0"))
      (String.data ("abcdef")) c2Insts c2Out rfl).2.2.1,
   (claim_C2_output_shape sampleCfg (String.data ("evervault.com")) (String.data ("0.0.0"))
      (String.data ("abcdef")) c2Insts c2Out rfl).2.2.2⟩

/-! ## Claim C8 -/

/-- C8: the `Deploying → Ready` watch runs under `timed_operation` with the
constant 1200-second bound; when the watch is still pending at the bound,
`deploy_eif` returns the timeout error carrying the operation name
`"Cage Deployment"` and the bound in seconds. -/
theorem claim_C8_deploy_watch_timeout (env : DeployRemoteEnv) (zipExists : Bool)
    (hs3 : env.s3Success = true) (hbuild : env.buildResult = .ok true)
    (hpending : env.deployResult = none) :
    deployWatchTimeoutSeconds = 1200 ∧
    (deployEifAfterUpload env zipExists).1 =
      .error (.timeoutError (String.data ("Cage Deployment")) 1200) := by
  refine ⟨rfl, ?_⟩
  simp [deployEifAfterUpload, hs3, hbuild, hpending, timedOperation,
    deployWatchTimeoutSeconds]

/-- Witness for C8. -/
theorem claim_C8_deploy_watch_timeout_witness :
    deployWatchTimeoutSeconds = 1200 ∧
    (deployEifAfterUpload ⟨true, [], .ok true, none⟩ true).1 =
      .error (.timeoutError (String.data ("Cage Deployment")) 1200) :=
  claim_C8_deploy_watch_timeout ⟨true, [], .ok true, none⟩ true rfl rfl rfl

/-! ## Claim C10 -/

/-- C10: `deploy_eif` removes the local `enclave.zip` unconditionally once
the storage `PUT` has returned, before it inspects the response status; in
particular on a non-2xx response the `UploadError` is returned with the zip
already gone from disk. -/
theorem claim_C10_zip_removed_before_status (env : DeployRemoteEnv) (zipExists : Bool) :
    (deployEifAfterUpload env zipExists).2 = false ∧
    (env.s3Success = false →
      deployEifAfterUpload env zipExists = (.error (.uploadError env.s3ErrorText), false)) := by
  constructor
  · rcases env with ⟨s3, txt, br, dr⟩
    cases s3
    · simp [deployEifAfterUpload]
    · rcases br with e | b
      · simp [deployEifAfterUpload]
      · cases b
        · simp [deployEifAfterUpload]
        · rcases dr with _ | r
          · simp [deployEifAfterUpload, timedOperation]
          · rcases r with e | b'
            · simp [deployEifAfterUpload, timedOperation]
            · cases b' <;> simp [deployEifAfterUpload, timedOperation]
  · intro hfail
    simp [deployEifAfterUpload, hfail]

/-- Witness for C10 at a failed upload. -/
theorem claim_C10_zip_removed_before_status_witness :
    deployEifAfterUpload ⟨false, String.data ("denied"), .ok true, none⟩ true =
      (.error (.uploadError (String.data ("denied"))), false) :=
  (claim_C10_zip_removed_before_status ⟨false, String.data ("denied"), .ok true, none⟩ true).2 rfl


/-! ## Equivalence of the loop-structured decoder with the byte fold -/

/-- State normalisation: the source never saves a `Whitespace` state (it
leaves `current_state` empty instead), and flushing either is `Ok(None)`. -/
def normSt : Option DecoderState → Option DecoderState
  | some .whitespace => none
  | s => s

/-- `stepB` does not distinguish an empty saved state from a saved
whitespace state. -/
theorem stepB_norm (s1 s2 : Option DecoderState) (h : normSt s1 = normSt s2) (b : Nat) :
    stepB s1 b = stepB s2 b := by
  match s1, s2 with
  | none, none => rfl
  | none, some .whitespace => rfl
  | some .whitespace, none => rfl
  | some .whitespace, some .whitespace => rfl
  | none, some (.comment _) => simp [normSt] at h
  | none, some (.directive _) => simp [normSt] at h
  | none, some (.directiveArguments _) => simp [normSt] at h
  | some (.comment _), none => simp [normSt] at h
  | some (.directive _), none => simp [normSt] at h
  | some (.directiveArguments _), none => simp [normSt] at h
  | some .whitespace, some (.comment _) => simp [normSt] at h
  | some .whitespace, some (.directive _) => simp [normSt] at h
  | some .whitespace, some (.directiveArguments _) => simp [normSt] at h
  | some (.comment _), some .whitespace => simp [normSt] at h
  | some (.directive _), some .whitespace => simp [normSt] at h
  | some (.directiveArguments _), some .whitespace => simp [normSt] at h
  | some (.comment a), some (.comment c) => simp [normSt] at h; rw [h]
  | some (.comment _), some (.directive _) => simp [normSt] at h
  | some (.comment _), some (.directiveArguments _) => simp [normSt] at h
  | some (.directive _), some (.comment _) => simp [normSt] at h
  | some (.directive a), some (.directive c) => simp [normSt] at h; rw [h]
  | some (.directive _), some (.directiveArguments _) => simp [normSt] at h
  | some (.directiveArguments _), some (.comment _) => simp [normSt] at h
  | some (.directiveArguments _), some (.directive _) => simp [normSt] at h
  | some (.directiveArguments a), some (.directiveArguments c) => simp [normSt] at h; rw [h]

/-- Flushing does not distinguish an empty saved state from a saved
whitespace state. -/
theorem flushState_norm (s1 s2 : Option DecoderState) (h : normSt s1 = normSt s2) :
    flushState s1 = flushState s2 := by
  match s1, s2 with
  | none, none => rfl
  | none, some .whitespace => rfl
  | some .whitespace, none => rfl
  | some .whitespace, some .whitespace => rfl
  | none, some (.comment _) => simp [normSt] at h
  | none, some (.directive _) => simp [normSt] at h
  | none, some (.directiveArguments _) => simp [normSt] at h
  | some (.comment _), none => simp [normSt] at h
  | some (.directive _), none => simp [normSt] at h
  | some (.directiveArguments _), none => simp [normSt] at h
  | some .whitespace, some (.comment _) => simp [normSt] at h
  | some .whitespace, some (.directive _) => simp [normSt] at h
  | some .whitespace, some (.directiveArguments _) => simp [normSt] at h
  | some (.comment _), some .whitespace => simp [normSt] at h
  | some (.directive _), some .whitespace => simp [normSt] at h
  | some (.directiveArguments _), some .whitespace => simp [normSt] at h
  | some (.comment a), some (.comment c) => simp [normSt] at h; rw [h]
  | some (.comment _), some (.directive _) => simp [normSt] at h
  | some (.comment _), some (.directiveArguments _) => simp [normSt] at h
  | some (.directive _), some (.comment _) => simp [normSt] at h
  | some (.directive a), some (.directive c) => simp [normSt] at h; rw [h]
  | some (.directive _), some (.directiveArguments _) => simp [normSt] at h
  | some (.directiveArguments _), some (.comment _) => simp [normSt] at h
  | some (.directiveArguments _), some (.directive _) => simp [normSt] at h
  | some (.directiveArguments a), some (.directiveArguments c) => simp [normSt] at h; rw [h]

/-- Splitting a byte fold at an arbitrary point. -/
theorem foldB_append (a b : List Nat) (st : Option DecoderState) :
    foldB st (a ++ b) =
      match foldB st a with
      | .error e => .error e
      | .ok (s, ds) => (foldB s b).map (fun p => (p.1, ds ++ p.2)) := by
  induction a generalizing st with
  | nil =>
    simp only [List.nil_append, foldB]
    rcases foldB st b with e | ⟨s, ds⟩ <;> simp [Except.map]
  | cons x tl ih =>
    simp only [List.cons_append, foldB]
    rcases stepB st x with e | ⟨st', d?⟩
    · rfl
    · simp only [List.append_eq]
      rw [ih st']
      rcases foldB st' tl with e | ⟨s1, ds1⟩
      · rfl
      · simp only [Except.map]
        rcases foldB s1 b with e | ⟨s2, ds2⟩ <;> simp [Except.map]

/-- Byte folds from norm-equal states agree on emissions and on the
normalised final state. -/
theorem foldB_norm (src : List Nat) (s1 s2 : Option DecoderState)
    (h : normSt s1 = normSt s2) :
    (foldB s1 src).map (fun p => (normSt p.1, p.2)) =
      (foldB s2 src).map (fun p => (normSt p.1, p.2)) := by
  induction src generalizing s1 s2 with
  | nil => simp [foldB, Except.map, h]
  | cons b tl ih =>
    simp only [foldB]
    rw [stepB_norm s1 s2 h b]

/-- An emitted comment relates the comment loop to the byte fold. -/
theorem commentLoop_fold_emit (src : List Nat) (buf : List Nat) (d : Directive)
    (rest : List Nat) (h : commentLoop buf src = .inl (d, rest)) :
    foldB (some (.comment buf)) src = (foldB none rest).map (fun p => (p.1, d :: p.2)) := by
  induction src generalizing buf with
  | nil => simp [commentLoop] at h
  | cons b tl ih =>
    simp only [commentLoop] at h
    simp only [foldB, stepB]
    rcases hs : commentStep buf b with buf' | d'
    · rw [hs] at h
      simp only
      rw [ih buf' h]
      rcases foldB none rest with e | ⟨s, ds⟩ <;> simp [Except.map]
    · rw [hs] at h
      simp only [Sum.inl.injEq, Prod.mk.injEq] at h
      dsimp only
      rw [h.1, h.2]
      rcases foldB none rest with e | ⟨s, ds⟩ <;> simp [Except.map]

/-- An exhausted comment loop saves its state. -/
theorem commentLoop_fold_exhaust (src : List Nat) (buf buf' : List Nat)
    (h : commentLoop buf src = .inr buf') :
    foldB (some (.comment buf)) src = .ok (some (.comment buf'), []) := by
  induction src generalizing buf with
  | nil =>
    simp only [commentLoop, Sum.inr.injEq] at h
    subst h
    rfl
  | cons b tl ih =>
    simp only [commentLoop] at h
    simp only [foldB, stepB]
    rcases hs : commentStep buf b with buf2 | d'
    · rw [hs] at h
      simp only
      rw [ih buf2 h]
      rfl
    · rw [hs] at h; cases h

/-- A keyword-resolving transition relates the directive loop to the byte
fold. -/
theorem directiveLoop_fold_inl (src : List Nat) (buf : List Nat) (ast : ArgsState)
    (rest : List Nat) (h : directiveLoop buf src = .ok (.inl (ast, rest))) :
    foldB (some (.directive buf)) src = foldB (some (.directiveArguments ast)) rest := by
  induction src generalizing buf with
  | nil => simp [directiveLoop] at h
  | cons b tl ih =>
    simp only [directiveLoop] at h
    simp only [foldB, stepB]
    rcases hs : directiveStep buf b with e | r
    · rw [hs] at h; cases h
    · rw [hs] at h
      rcases r with buf2 | ast2
      · simp only at h
        simp only [Except.map]
        rw [ih buf2 h]
        rcases foldB (some (.directiveArguments ast)) rest with e | ⟨s, ds⟩ <;>
          simp [Except.map]
      · simp only [Except.ok.injEq, Sum.inl.injEq, Prod.mk.injEq] at h
        rw [h.1, h.2]
        rcases hx : foldB (some (.directiveArguments ast)) rest with e | ⟨s, ds⟩ <;>
          simp [Except.map, hx]

/-- A failing keyword loop fails the byte fold the same way. -/
theorem directiveLoop_fold_error (src : List Nat) (buf : List Nat) (e : DecodeError)
    (h : directiveLoop buf src = .error e) :
    foldB (some (.directive buf)) src = .error e := by
  induction src generalizing buf with
  | nil => simp [directiveLoop] at h
  | cons b tl ih =>
    simp only [directiveLoop] at h
    simp only [foldB, stepB]
    rcases hs : directiveStep buf b with e2 | r
    · rw [hs] at h
      injection h with h
      subst h
      rfl
    · rw [hs] at h
      rcases r with buf2 | ast2
      · simp only at h
        simp only [Except.map]
        rw [ih buf2 h]
      · cases h

/-- An exhausted keyword loop saves its state. -/
theorem directiveLoop_fold_exhaust (src : List Nat) (buf buf' : List Nat)
    (h : directiveLoop buf src = .ok (.inr buf')) :
    foldB (some (.directive buf)) src = .ok (some (.directive buf'), []) := by
  induction src generalizing buf with
  | nil =>
    simp only [directiveLoop, Except.ok.injEq, Sum.inr.injEq] at h
    subst h
    rfl
  | cons b tl ih =>
    simp only [directiveLoop] at h
    simp only [foldB, stepB]
    rcases hs : directiveStep buf b with e | r
    · rw [hs] at h; cases h
    · rw [hs] at h
      rcases r with buf2 | ast2
      · simp only at h
        simp only [Except.map]
        rw [ih buf2 h]
        rfl
      · cases h

/-- An emitted directive relates the argument loop to the byte fold. -/
theorem argsLoop_fold_emit (src : List Nat) (ast : ArgsState) (d : Directive)
    (rest : List Nat) (h : argsLoop ast src = .ok (.inl (d, rest))) :
    foldB (some (.directiveArguments ast)) src =
      (foldB none rest).map (fun p => (p.1, d :: p.2)) := by
  induction src generalizing ast with
  | nil => simp [argsLoop] at h
  | cons b tl ih =>
    simp only [argsLoop] at h
    simp only [foldB, stepB]
    rcases hs : argsStep ast b with e | r
    · rw [hs] at h; cases h
    · rw [hs] at h
      rcases r with ast2 | d2
      · simp only at h
        simp only [Except.map]
        rw [ih ast2 h]
        rcases foldB none rest with e | ⟨s, ds⟩ <;> simp [Except.map]
      · simp only [Except.ok.injEq, Sum.inl.injEq, Prod.mk.injEq] at h
        obtain ⟨rfl, rfl⟩ := h
        simp only [Except.map]
        rcases foldB none tl with e | ⟨s, ds⟩ <;> simp [Except.map]

/-- A failing argument loop fails the byte fold the same way. -/
theorem argsLoop_fold_error (src : List Nat) (ast : ArgsState) (e : DecodeError)
    (h : argsLoop ast src = .error e) :
    foldB (some (.directiveArguments ast)) src = .error e := by
  induction src generalizing ast with
  | nil => simp [argsLoop] at h
  | cons b tl ih =>
    simp only [argsLoop] at h
    simp only [foldB, stepB]
    rcases hs : argsStep ast b with e2 | r
    · rw [hs] at h
      injection h with h
      subst h
      rfl
    · rw [hs] at h
      rcases r with ast2 | d2
      · simp only at h
        simp only [Except.map]
        rw [ih ast2 h]
      · cases h

/-- An exhausted argument loop saves its state. -/
theorem argsLoop_fold_exhaust (src : List Nat) (ast ast' : ArgsState)
    (h : argsLoop ast src = .ok (.inr ast')) :
    foldB (some (.directiveArguments ast)) src =
      .ok (some (.directiveArguments ast'), []) := by
  induction src generalizing ast with
  | nil =>
    simp only [argsLoop, Except.ok.injEq, Sum.inr.injEq] at h
    subst h
    rfl
  | cons b tl ih =>
    simp only [argsLoop] at h
    simp only [foldB, stepB]
    rcases hs : argsStep ast b with e | r
    · rw [hs] at h; cases h
    · rw [hs] at h
      rcases r with ast2 | d2
      · simp only at h
        simp only [Except.map]
        rw [ih ast2 h]
        rfl
      · cases h

/-- The whitespace loop exhausts only on all-whitespace input, which the
byte fold also skips. -/
theorem wsLoop_fold_none (src : List Nat) (h : wsLoop src = .ok none) :
    foldB (some .whitespace) src = .ok (some .whitespace, []) := by
  induction src with
  | nil => rfl
  | cons b tl ih =>
    simp only [wsLoop] at h
    by_cases hb : isAsciiWs b = true
    · rw [if_pos hb] at h
      simp only [foldB, stepB, deriveNewLineState, if_pos hb]
      simp only [Except.map]
      rw [ih h]
      rfl
    · rw [if_neg hb] at h
      by_cases ha : isAsciiAlpha b = true
      · rw [if_pos ha] at h; cases h
      · rw [if_neg ha] at h
        by_cases h35 : b = 35
        · rw [if_pos h35] at h; cases h
        · rw [if_neg h35] at h; cases h

/-- A whitespace transition into a fresh comment state, seen by the byte
fold. -/
theorem wsLoop_fold_inl (src : List Nat) (cbuf rest : List Nat)
    (h : wsLoop src = .ok (some (.inl cbuf, rest))) :
    foldB (some .whitespace) src = foldB (some (.comment cbuf)) rest := by
  induction src with
  | nil => simp [wsLoop] at h
  | cons b tl ih =>
    simp only [wsLoop] at h
    by_cases hb : isAsciiWs b = true
    · rw [if_pos hb] at h
      simp only [foldB, stepB, deriveNewLineState, if_pos hb]
      simp only [Except.map]
      rw [ih h]
      rcases foldB (some (.comment cbuf)) rest with e | ⟨s, ds⟩ <;> simp [Except.map]
    · rw [if_neg hb] at h
      by_cases ha : isAsciiAlpha b = true
      · rw [if_pos ha] at h
        simp at h
      · rw [if_neg ha] at h
        by_cases h35 : b = 35
        · rw [if_pos h35] at h
          simp only [Except.ok.injEq, Option.some.injEq, Prod.mk.injEq, Sum.inl.injEq] at h
          simp only [foldB, stepB, deriveNewLineState, if_neg hb, if_neg ha, if_pos h35]
          rw [← h.1, ← h.2]
          rcases hx : foldB (some (.comment [])) tl with e | ⟨s, ds⟩ <;>
            simp [Except.map, hx]
        · rw [if_neg h35] at h; cases h

/-- A whitespace transition into a fresh keyword state, seen by the byte
fold. -/
theorem wsLoop_fold_inr (src : List Nat) (dbuf rest : List Nat)
    (h : wsLoop src = .ok (some (.inr dbuf, rest))) :
    foldB (some .whitespace) src = foldB (some (.directive dbuf)) rest := by
  induction src with
  | nil => simp [wsLoop] at h
  | cons b tl ih =>
    simp only [wsLoop] at h
    by_cases hb : isAsciiWs b = true
    · rw [if_pos hb] at h
      simp only [foldB, stepB, deriveNewLineState, if_pos hb]
      simp only [Except.map]
      rw [ih h]
      rcases foldB (some (.directive dbuf)) rest with e | ⟨s, ds⟩ <;> simp [Except.map]
    · rw [if_neg hb] at h
      by_cases ha : isAsciiAlpha b = true
      · rw [if_pos ha] at h
        simp only [Except.ok.injEq, Option.some.injEq, Prod.mk.injEq, Sum.inr.injEq] at h
        simp only [foldB, stepB, deriveNewLineState, if_neg hb, if_pos ha]
        rw [← h.1, ← h.2]
        rcases hx : foldB (some (.directive [b])) tl with e | ⟨s, ds⟩ <;>
          simp [Except.map, hx]
      · rw [if_neg ha] at h
        by_cases h35 : b = 35
        · rw [if_pos h35] at h
          simp at h
        · rw [if_neg h35] at h; cases h

/-- A failing whitespace loop fails the byte fold the same way. -/
theorem wsLoop_fold_error (src : List Nat) (e : DecodeError)
    (h : wsLoop src = .error e) :
    foldB (some .whitespace) src = .error e := by
  induction src with
  | nil => simp [wsLoop] at h
  | cons b tl ih =>
    simp only [wsLoop] at h
    by_cases hb : isAsciiWs b = true
    · rw [if_pos hb] at h
      simp only [foldB, stepB, deriveNewLineState, if_pos hb]
      simp only [Except.map]
      rw [ih h]
    · rw [if_neg hb] at h
      by_cases ha : isAsciiAlpha b = true
      · rw [if_pos ha] at h; cases h
      · rw [if_neg ha] at h
        by_cases h35 : b = 35
        · rw [if_pos h35] at h; cases h
        · rw [if_neg h35] at h
          injection h with h
          subst h
          simp only [foldB, stepB, deriveNewLineState, if_neg hb, if_neg ha, if_neg h35]
          rfl

/-- `runComment` never fails. -/
theorem runComment_no_error (buf src : List Nat) (e : DecodeError) :
    runComment buf src ≠ .error e := by
  unfold runComment
  rcases commentLoop buf src with ⟨d, rest⟩ | buf' <;> simp

/-- An emission of `runComment`, seen by the byte fold. -/
theorem runComment_fold_emit (buf src : List Nat) (d : Directive)
    (st' : Option DecoderState) (rest : List Nat)
    (h : runComment buf src = .ok (some d, st', rest)) :
    st' = none ∧
      foldB (some (.comment buf)) src = (foldB none rest).map (fun p => (p.1, d :: p.2)) := by
  unfold runComment at h
  rcases hs : commentLoop buf src with ⟨d2, rest2⟩ | buf'
  · rw [hs] at h
    simp only [Except.ok.injEq, Prod.mk.injEq, Option.some.injEq] at h
    refine ⟨h.2.1.symm, ?_⟩
    rw [← h.1, ← h.2.2]
    exact commentLoop_fold_emit _ _ _ _ hs
  · rw [hs] at h
    simp at h

/-- A pending `runComment`, seen by the byte fold. -/
theorem runComment_fold_pending (buf src : List Nat) (st' : Option DecoderState)
    (rest : List Nat) (h : runComment buf src = .ok (none, st', rest)) :
    rest = [] ∧ ∃ stG, foldB (some (.comment buf)) src = .ok (stG, []) ∧
      normSt stG = normSt st' := by
  unfold runComment at h
  rcases hs : commentLoop buf src with ⟨d2, rest2⟩ | buf'
  · rw [hs] at h
    simp at h
  · rw [hs] at h
    simp only [Except.ok.injEq, Prod.mk.injEq] at h
    refine ⟨h.2.2.symm, some (.comment buf'), commentLoop_fold_exhaust _ _ _ hs, ?_⟩
    rw [← h.2.1]

/-- A failure of `runArgs`, seen by the byte fold. -/
theorem runArgs_fold_error (ast : ArgsState) (src : List Nat) (e : DecodeError)
    (h : runArgs ast src = .error e) :
    foldB (some (.directiveArguments ast)) src = .error e := by
  unfold runArgs at h
  rcases ha : argsLoop ast src with e2 | r2
  · rw [ha] at h
    injection h with h
    subst h
    exact argsLoop_fold_error _ _ _ ha
  · rw [ha] at h
    rcases r2 with ⟨d2, rest2⟩ | ast2 <;> simp at h

/-- An emission of `runArgs`, seen by the byte fold. -/
theorem runArgs_fold_emit (ast : ArgsState) (src : List Nat) (d : Directive)
    (st' : Option DecoderState) (rest : List Nat)
    (h : runArgs ast src = .ok (some d, st', rest)) :
    st' = none ∧
      foldB (some (.directiveArguments ast)) src =
        (foldB none rest).map (fun p => (p.1, d :: p.2)) := by
  unfold runArgs at h
  rcases ha : argsLoop ast src with e2 | r2
  · rw [ha] at h; cases h
  · rw [ha] at h
    rcases r2 with ⟨d2, rest2⟩ | ast2
    · simp only [Except.ok.injEq, Prod.mk.injEq, Option.some.injEq] at h
      refine ⟨h.2.1.symm, ?_⟩
      rw [← h.1, ← h.2.2]
      exact argsLoop_fold_emit _ _ _ _ ha
    · simp at h

/-- A pending `runArgs`, seen by the byte fold. -/
theorem runArgs_fold_pending (ast : ArgsState) (src : List Nat)
    (st' : Option DecoderState) (rest : List Nat)
    (h : runArgs ast src = .ok (none, st', rest)) :
    rest = [] ∧ ∃ stG, foldB (some (.directiveArguments ast)) src = .ok (stG, []) ∧
      normSt stG = normSt st' := by
  unfold runArgs at h
  rcases ha : argsLoop ast src with e2 | r2
  · rw [ha] at h; cases h
  · rw [ha] at h
    rcases r2 with ⟨d2, rest2⟩ | ast2
    · simp at h
    · simp only [Except.ok.injEq, Prod.mk.injEq] at h
      refine ⟨h.2.2.symm, some (.directiveArguments ast2),
        argsLoop_fold_exhaust _ _ _ ha, by rw [← h.2.1]⟩

/-- A failure of `runDirective`, seen by the byte fold. -/
theorem runDirective_fold_error (buf src : List Nat) (e : DecodeError)
    (h : runDirective buf src = .error e) :
    foldB (some (.directive buf)) src = .error e := by
  unfold runDirective at h
  rcases hs : directiveLoop buf src with e2 | r
  · rw [hs] at h
    injection h with h
    subst h
    exact directiveLoop_fold_error _ _ _ hs
  · rw [hs] at h
    try dsimp only at h
    rcases r with ⟨ast, rest1⟩ | buf'
    · rw [directiveLoop_fold_inl _ _ _ _ hs]
      exact runArgs_fold_error _ _ _ h
    · simp at h

/-- An emission of `runDirective`, seen by the byte fold. -/
theorem runDirective_fold_emit (buf src : List Nat) (d : Directive)
    (st' : Option DecoderState) (rest : List Nat)
    (h : runDirective buf src = .ok (some d, st', rest)) :
    st' = none ∧
      foldB (some (.directive buf)) src = (foldB none rest).map (fun p => (p.1, d :: p.2)) := by
  unfold runDirective at h
  rcases hs : directiveLoop buf src with e2 | r
  · rw [hs] at h; cases h
  · rw [hs] at h
    try dsimp only at h
    rcases r with ⟨ast, rest1⟩ | buf'
    · have := runArgs_fold_emit _ _ _ _ _ h
      exact ⟨this.1, by rw [directiveLoop_fold_inl _ _ _ _ hs]; exact this.2⟩
    · simp at h

/-- A pending `runDirective`, seen by the byte fold. -/
theorem runDirective_fold_pending (buf src : List Nat) (st' : Option DecoderState)
    (rest : List Nat) (h : runDirective buf src = .ok (none, st', rest)) :
    rest = [] ∧ ∃ stG, foldB (some (.directive buf)) src = .ok (stG, []) ∧
      normSt stG = normSt st' := by
  unfold runDirective at h
  rcases hs : directiveLoop buf src with e2 | r
  · rw [hs] at h; cases h
  · rw [hs] at h
    try dsimp only at h
    rcases r with ⟨ast, rest1⟩ | buf'
    · have := runArgs_fold_pending _ _ _ _ h
      rcases this with ⟨hrest, stG, hfold, hnorm⟩
      exact ⟨hrest, stG, by rw [directiveLoop_fold_inl _ _ _ _ hs]; exact hfold, hnorm⟩
    · simp only [Except.ok.injEq, Prod.mk.injEq] at h
      refine ⟨h.2.2.symm, some (.directive buf'), directiveLoop_fold_exhaust _ _ _ hs,
        by rw [← h.2.1]⟩

/-- A failure of `runState`, seen by the byte fold. -/
theorem runState_fold_error (st : DecoderState) (src : List Nat) (e : DecodeError)
    (h : runState st src = .error e) : foldB (some st) src = .error e := by
  match st with
  | .comment buf => exact absurd h (runComment_no_error _ _ _)
  | .directive buf => exact runDirective_fold_error _ _ _ h
  | .directiveArguments ast => exact runArgs_fold_error _ _ _ h
  | .whitespace =>
    have h' : (match wsLoop src with
      | .error e => Except.error e
      | .ok none => .ok (none, none, [])
      | .ok (some (.inl cbuf, rest)) => runComment cbuf rest
      | .ok (some (.inr dbuf, rest)) => runDirective dbuf rest) = Except.error e := h
    rcases hs : wsLoop src with e2 | r
    · rw [hs] at h'
      injection h' with h'
      subst h'
      exact wsLoop_fold_error _ _ hs
    · rw [hs] at h'
      try dsimp only at h'
      rcases r with _ | ⟨cbuf | dbuf, rest⟩
      · simp at h'
      · rw [wsLoop_fold_inl _ _ _ hs]
        exact absurd h' (runComment_no_error _ _ _)
      · rw [wsLoop_fold_inr _ _ _ hs]
        exact runDirective_fold_error _ _ _ h'

/-- An emission of `runState`, seen by the byte fold. -/
theorem runState_fold_emit (st : DecoderState) (src : List Nat) (d : Directive)
    (st' : Option DecoderState) (rest : List Nat)
    (h : runState st src = .ok (some d, st', rest)) :
    st' = none ∧
      foldB (some st) src = (foldB none rest).map (fun p => (p.1, d :: p.2)) := by
  match st with
  | .comment buf => exact runComment_fold_emit _ _ _ _ _ h
  | .directive buf => exact runDirective_fold_emit _ _ _ _ _ h
  | .directiveArguments ast => exact runArgs_fold_emit _ _ _ _ _ h
  | .whitespace =>
    have h' : (match wsLoop src with
      | .error e => Except.error e
      | .ok none => .ok (none, none, [])
      | .ok (some (.inl cbuf, rest)) => runComment cbuf rest
      | .ok (some (.inr dbuf, rest)) => runDirective dbuf rest) =
        Except.ok (some d, st', rest) := h
    rcases hs : wsLoop src with e2 | r
    · rw [hs] at h'; cases h'
    · rw [hs] at h'
      try dsimp only at h'
      rcases r with _ | ⟨cbuf | dbuf, rest1⟩
      · simp at h'
      · have := runComment_fold_emit _ _ _ _ _ h'
        exact ⟨this.1, by rw [wsLoop_fold_inl _ _ _ hs]; exact this.2⟩
      · have := runDirective_fold_emit _ _ _ _ _ h'
        exact ⟨this.1, by rw [wsLoop_fold_inr _ _ _ hs]; exact this.2⟩

/-- A pending `runState`, seen by the byte fold. -/
theorem runState_fold_pending (st : DecoderState) (src : List Nat)
    (st' : Option DecoderState) (rest : List Nat)
    (h : runState st src = .ok (none, st', rest)) :
    rest = [] ∧ ∃ stG, foldB (some st) src = .ok (stG, []) ∧ normSt stG = normSt st' := by
  match st with
  | .comment buf => exact runComment_fold_pending _ _ _ _ h
  | .directive buf => exact runDirective_fold_pending _ _ _ _ h
  | .directiveArguments ast => exact runArgs_fold_pending _ _ _ _ h
  | .whitespace =>
    have h' : (match wsLoop src with
      | .error e => Except.error e
      | .ok none => .ok (none, none, [])
      | .ok (some (.inl cbuf, rest)) => runComment cbuf rest
      | .ok (some (.inr dbuf, rest)) => runDirective dbuf rest) =
        Except.ok (none, st', rest) := h
    rcases hs : wsLoop src with e2 | r
    · rw [hs] at h'; cases h'
    · rw [hs] at h'
      try dsimp only at h'
      rcases r with _ | ⟨cbuf | dbuf, rest1⟩
      · simp only [Except.ok.injEq, Prod.mk.injEq] at h'
        refine ⟨h'.2.2.symm, some .whitespace, wsLoop_fold_none _ hs, by rw [← h'.2.1]; rfl⟩
      · have := runComment_fold_pending _ _ _ _ h'
        rcases this with ⟨hrest, stG, hfold, hnorm⟩
        exact ⟨hrest, stG, by rw [wsLoop_fold_inl _ _ _ hs]; exact hfold, hnorm⟩
      · have := runDirective_fold_pending _ _ _ _ h'
        rcases this with ⟨hrest, stG, hfold, hnorm⟩
        exact ⟨hrest, stG, by rw [wsLoop_fold_inr _ _ _ hs]; exact hfold, hnorm⟩

/-- A failure of one `decode` call, seen by the byte fold. -/
theorem decodeStep_fold_error (st : Option DecoderState) (src : List Nat) (e : DecodeError)
    (h : decodeStep st src = .error e) : foldB st src = .error e := by
  match st with
  | some s => exact runState_fold_error _ _ _ h
  | none =>
    match src with
    | [] => simp [decodeStep] at h
    | b :: tl =>
      simp only [decodeStep] at h
      rcases hd : deriveNewLineState b with e2 | s
      · rw [hd] at h
        injection h with h
        subst h
        simp only [foldB, stepB, hd]
        rfl
      · rw [hd] at h
        simp only [foldB, stepB, hd]
        simp only [Except.map]
        rw [runState_fold_error _ _ _ h]

/-- An emission of one `decode` call, seen by the byte fold. -/
theorem decodeStep_fold_emit (st : Option DecoderState) (src : List Nat) (d : Directive)
    (st' : Option DecoderState) (rest : List Nat)
    (h : decodeStep st src = .ok (some d, st', rest)) :
    st' = none ∧ foldB st src = (foldB none rest).map (fun p => (p.1, d :: p.2)) := by
  match st with
  | some s => exact runState_fold_emit _ _ _ _ _ h
  | none =>
    match src with
    | [] => simp [decodeStep] at h
    | b :: tl =>
      simp only [decodeStep] at h
      rcases hd : deriveNewLineState b with e2 | s
      · rw [hd] at h; cases h
      · rw [hd] at h
        have := runState_fold_emit _ _ _ _ _ h
        refine ⟨this.1, ?_⟩
        simp only [foldB, stepB, hd]
        simp only [Except.map]
        rw [this.2]
        rcases foldB none rest with e2 | ⟨s2, ds2⟩ <;> simp [Except.map]

/-- A non-emitting `decode` call, seen by the byte fold. -/
theorem decodeStep_fold_pending (st : Option DecoderState) (src : List Nat)
    (st' : Option DecoderState) (rest : List Nat)
    (h : decodeStep st src = .ok (none, st', rest)) :
    rest = [] ∧ ∃ stG, foldB st src = .ok (stG, []) ∧ normSt stG = normSt st' := by
  match st with
  | some s => exact runState_fold_pending _ _ _ _ h
  | none =>
    match src with
    | [] =>
      simp only [decodeStep, Except.ok.injEq, Prod.mk.injEq] at h
      exact ⟨h.2.2.symm, none, rfl, by rw [← h.2.1]⟩
    | b :: tl =>
      simp only [decodeStep] at h
      rcases hd : deriveNewLineState b with e2 | s
      · rw [hd] at h; cases h
      · rw [hd] at h
        have := runState_fold_pending _ _ _ _ h
        rcases this with ⟨hrest, stG, hfold, hnorm⟩
        refine ⟨hrest, stG, ?_, hnorm⟩
        simp only [foldB, stepB, hd]
        simp only [Except.map]
        rw [hfold]
        rfl

/-- Normalisation is idempotent. -/
theorem normSt_idem (st : Option DecoderState) : normSt (normSt st) = normSt st := by
  match st with
  | none => rfl
  | some (.comment _) => rfl
  | some (.directive _) => rfl
  | some (.directiveArguments _) => rfl
  | some .whitespace => rfl

/-- A `decode` call on an empty buffer emits nothing and keeps the state (a
saved whitespace state is dropped, as the source never saves one). -/
theorem decodeStep_nil (st : Option DecoderState) :
    decodeStep st [] = .ok (none, normSt st, []) := by
  match st with
  | none => rfl
  | some (.comment _) => rfl
  | some (.directive _) => rfl
  | some (.directiveArguments _) => rfl
  | some .whitespace => rfl

/-- The `FramedRead` decode loop, seen by the byte fold: the emitted
directives agree, and the saved states agree up to normalisation. -/
theorem driverRun_fold_aux (n : Nat) : ∀ (st : Option DecoderState) (src : List Nat),
    src.length ≤ n →
    (∀ e, driverRun st src = .error e → foldB st src = .error e) ∧
    (∀ ds stF, driverRun st src = .ok (ds, stF) →
      ∃ stG, foldB st src = .ok (stG, ds) ∧ normSt stG = normSt stF) := by
  induction n with
  | zero =>
    intro st src hlen
    have hsrc : src = [] := List.length_eq_zero.mp (Nat.le_zero.mp hlen)
    subst hsrc
    constructor
    · intro e h
      unfold driverRun at h
      rw [decodeStep_nil] at h
      simp at h
    · intro ds stF h
      unfold driverRun at h
      rw [decodeStep_nil] at h
      simp only [Except.ok.injEq, Prod.mk.injEq] at h
      refine ⟨st, by rw [← h.1]; rfl, ?_⟩
      rw [← h.2, normSt_idem]
  | succ n ih =>
    intro st src hlen
    constructor
    · intro e h
      unfold driverRun at h
      rcases hd : decodeStep st src with e2 | ⟨d?, st', rest⟩
      · rw [hd] at h
        injection h with h
        subst h
        exact decodeStep_fold_error _ _ _ hd
      · rw [hd] at h
        rcases d? with _ | d
        · simp at h
        · have hemit := decodeStep_fold_emit _ _ _ _ _ hd
          obtain ⟨rfl, hfold⟩ := hemit
          have hlt : rest.length ≤ n := by
            have := decodeStep_emit_length _ _ _ _ _ hd
            omega
          simp only at h
          rcases hrun : driverRun none rest with e2 | ⟨ds1, stF1⟩
          · rw [hrun] at h
            injection h with h
            subst h
            rw [hfold, (ih none rest hlt).1 _ hrun]
            rfl
          · rw [hrun] at h
            simp [Except.map] at h
    · intro ds stF h
      unfold driverRun at h
      rcases hd : decodeStep st src with e2 | ⟨d?, st', rest⟩
      · rw [hd] at h; cases h
      · rw [hd] at h
        rcases d? with _ | d
        · simp only [Except.ok.injEq, Prod.mk.injEq] at h
          have := decodeStep_fold_pending _ _ _ _ hd
          rcases this with ⟨hrest, stG, hfold, hnorm⟩
          exact ⟨stG, by rw [← h.1]; exact hfold, by rw [← h.2]; exact hnorm⟩
        · have hemit := decodeStep_fold_emit _ _ _ _ _ hd
          obtain ⟨rfl, hfold⟩ := hemit
          have hlt : rest.length ≤ n := by
            have := decodeStep_emit_length _ _ _ _ _ hd
            omega
          simp only at h
          rcases hrun : driverRun none rest with e2 | ⟨ds1, stF1⟩
          · rw [hrun] at h
            simp [Except.map] at h
          · rw [hrun] at h
            simp only [Except.map, Except.ok.injEq, Prod.mk.injEq] at h
            have := (ih none rest hlt).2 _ _ hrun
            rcases this with ⟨stG, hfold1, hnorm1⟩
            refine ⟨stG, ?_, by rw [← h.2]; exact hnorm1⟩
            rw [hfold, hfold1]
            simp [Except.map, ← h.1]

/-- A failure of the decode loop, seen by the byte fold. -/
theorem driverRun_fold_error (st : Option DecoderState) (src : List Nat) (e : DecodeError)
    (h : driverRun st src = .error e) : foldB st src = .error e :=
  (driverRun_fold_aux src.length st src (Nat.le_refl _)).1 e h

/-- A completed decode loop, seen by the byte fold. -/
theorem driverRun_fold_ok (st : Option DecoderState) (src : List Nat)
    (ds : List Directive) (stF : Option DecoderState)
    (h : driverRun st src = .ok (ds, stF)) :
    ∃ stG, foldB st src = .ok (stG, ds) ∧ normSt stG = normSt stF :=
  (driverRun_fold_aux src.length st src (Nat.le_refl _)).2 ds stF h

/-- The byte-fold form of whole-stream decoding: fold every byte, then
flush. -/
def foldDecode (bytes : List Nat) : Except DecodeError (List Directive) :=
  match foldB none bytes with
  | .error e => .error e
  | .ok (st, ds) =>
    match flushState st with
    | .error e => .error e
    | .ok d? => .ok (ds ++ d?.toList)

/-- `decode_eof` on an empty buffer is exactly a flush. -/
theorem decodeEof_nil (st : Option DecoderState) :
    decodeEof st [] = (flushState st).map (fun d? => (d?.toList, none)) := by
  unfold decodeEof
  rw [decodeStep_nil]
  dsimp only
  have : flushState (normSt st) = flushState st :=
    flushState_norm _ _ (normSt_idem st)
  rw [this]

/-- The chunked pipeline computes the byte fold of the concatenated stream,
flushed at the end. -/
theorem decodeChunksFrom_fold (chunks : List (List Nat)) : ∀ st : Option DecoderState,
    decodeChunksFrom st chunks =
      (match foldB st chunks.flatten with
       | .error e => .error e
       | .ok (stG, ds) =>
         match flushState stG with
         | .error e => .error e
         | .ok d? => .ok (ds ++ d?.toList)) := by
  induction chunks with
  | nil =>
    intro st
    show (decodeEof st []).map Prod.fst = _
    rw [decodeEof_nil]
    simp only [List.flatten_nil, foldB]
    rcases flushState st with e | d? <;> simp [Except.map]
  | cons c cs ih =>
    intro st
    simp only [decodeChunksFrom]
    rcases hdr : driverRun st c with e | ⟨ds, stF⟩
    · have hf := driverRun_fold_error _ _ _ hdr
      rw [List.flatten_cons, foldB_append, hf]
    · obtain ⟨stG, hfold, hnorm⟩ := driverRun_fold_ok _ _ _ _ hdr
      dsimp only
      rw [ih stF, List.flatten_cons, foldB_append, hfold]
      have hn := foldB_norm cs.flatten stG stF hnorm
      rcases hf2 : foldB stF cs.flatten with e | ⟨stG2, ds2⟩
      · rw [hf2] at hn
        rcases hgg : foldB stG cs.flatten with e3 | ⟨s3, d3⟩
        · rw [hgg] at hn
          simp only [Except.map, Except.error.injEq] at hn
          subst hn
          simp [Except.map, hgg]
        · rw [hgg] at hn
          simp [Except.map] at hn
      · rw [hf2] at hn
        rcases hgg : foldB stG cs.flatten with e3 | ⟨s3, d3⟩
        · rw [hgg] at hn
          simp [Except.map] at hn
        · rw [hgg] at hn
          simp only [Except.map, Except.ok.injEq, Prod.mk.injEq] at hn
          have hflush : flushState s3 = flushState stG2 := flushState_norm _ _ hn.1
          rcases hfl : flushState stG2 with e4 | d4 <;>
            simp [Except.map, hgg, hflush, hn.2, hfl, List.append_assoc]

/-- Chunked decoding equals the byte fold of the concatenation. -/
theorem decodeChunks_fold (chunks : List (List Nat)) :
    decodeChunks chunks = foldDecode chunks.flatten := by
  unfold decodeChunks foldDecode
  rw [decodeChunksFrom_fold]

/-- Whole-buffer decoding equals the byte fold. -/
theorem decodeDockerfile_eq_foldDecode (bytes : List Nat) :
    decodeDockerfile bytes = foldDecode bytes := by
  unfold decodeDockerfile
  rw [decodeChunks_fold]
  simp

/-! ## Claim C9 -/

/-- C9: decoding is invariant under chunk boundaries — feeding any
partition of a byte stream through repeated `decode` calls followed by
`decode_eof` yields exactly the same directive sequence (or the same error)
as decoding the entire stream in a single buffer. -/
theorem claim_C9_chunk_invariance (chunks : List (List Nat)) :
    decodeChunks chunks = decodeDockerfile chunks.flatten := by
  rw [decodeChunks_fold, decodeDockerfile_eq_foldDecode]

/-! ## Claim C4 -/

/-- C4 (counterexample): flushing a mid-`Directive` state does not fail with
`IncompleteInstruction` — the buffered keyword bytes are silently discarded
(the input `FROM` with no trailing space or newline decodes to no directive
at all); and a mid-`DirectiveArguments` state with argument bytes is not
always emitted — the directive's argument parser can fail (flushing
`EXPOSE x` returns `InvalidExposedPort`). -/
theorem claim_C4_counterexample :
    decodeDockerfile (sb ("FROM")) = .ok [] ∧
    decodeDockerfile (sb ("EXPOSE x")) = .error .invalidExposedPort := by
  constructor
  · rw [decodeDockerfile_eq_foldDecode]; decide
  · rw [decodeDockerfile_eq_foldDecode]; decide

/-- C4 (amended): at end of input, a mid-`DirectiveArguments` state with
buffered argument bytes runs the pending directive's argument parser and
emits the directive exactly when the parser succeeds (parser errors are
returned); a mid-`DirectiveArguments` state with no argument bytes fails
with `IncompleteInstruction`; a mid-`Directive` (keyword-only) state yields
no directive and no error, discarding the buffered keyword bytes; a
mid-`Comment` state emits the comment. -/
theorem claim_C4_flush_behaviour (d : Directive) (args buf content : List Nat)
    (nlb : NewLineBehaviour) (ss : List StringToken) :
    flushState (some (.directiveArguments ⟨d, some args, nlb, ss⟩)) =
      (d.setArguments args).map some ∧
    flushState (some (.directiveArguments ⟨d, none, nlb, ss⟩)) =
      .error .incompleteInstruction ∧
    flushState (some (.directive buf)) = .ok none ∧
    flushState (some (.comment content)) = .ok (some (.comment content)) :=
  ⟨rfl, rfl, rfl, rfl⟩

/-! ## Claim C6 -/

/-- C6 (failing input): decoding `ENTRYPOINT [\n` reaches `set_arguments`
with the one-byte exec-mode buffer `[`, and the source's slice
`given_arguments[1..given_arguments.len() - 1]` is `[1..0]`, which panics;
the decoder does not return one of the recoverable `DecodeError` values
here. -/
theorem claim_C6_panic_input :
    decodeDockerfile (sb ("ENTRYPOINT [\n")) = .error .rustPanic := by
  rw [decodeDockerfile_eq_foldDecode]; decide

/-! ## Claim C5 -/

/-- The condition under which the tokenizer records an `Eq` delimiter,
restated as a direct scan of the line: some `=` is seen outside double
quotes while the escape flag is unset.  As in the source, the escape flag is
toggled by each backslash and is not cleared by the character that follows
it. -/
def envActiveEq : Bool → Bool → List Char → Bool
  | _, _, [] => false
  | inQuotes, escape, c :: rest =>
    if c = '\\' then envActiveEq inQuotes (!escape) rest
    else if c = '"' then envActiveEq (!inQuotes) escape rest
    else if c = '=' && !inQuotes && !escape then true
    else envActiveEq inQuotes escape rest

/-- Field-level description of one tokenizer step. -/
theorem envScanStep_fields (st : EnvScan) (c : Char) :
    (envScanStep st c).inQuotes = (if c = '"' then !st.inQuotes else st.inQuotes) ∧
    (envScanStep st c).escape = (if c = '\\' then !st.escape else st.escape) ∧
    (envScanStep st c).delim =
      (if c = '=' && !st.inQuotes && !st.escape then Delimiter.eq else st.delim) := by
  unfold envScanStep
  split_ifs <;> simp_all

/-- A recorded `Eq` delimiter is permanent for the rest of the scan. -/
theorem envScan_foldl_eq_stable (s : List Char) (st : EnvScan) (h : st.delim = .eq) :
    (s.foldl envScanStep st).delim = .eq := by
  induction s generalizing st with
  | nil => exact h
  | cons c tl ih =>
    rw [List.foldl_cons]
    apply ih
    rw [(envScanStep_fields st c).2.2, h]
    split <;> rfl

/-- The tokenizer records delimiter `Eq` exactly when `envActiveEq` holds of
the remaining input, starting from the current quote and escape flags. -/
theorem envScan_foldl_delim (s : List Char) (st : EnvScan) (h : st.delim = .noDelim) :
    (s.foldl envScanStep st).delim =
      (if envActiveEq st.inQuotes st.escape s then Delimiter.eq else Delimiter.noDelim) := by
  induction s generalizing st with
  | nil => simpa [envActiveEq]
  | cons c tl ih =>
    rw [List.foldl_cons]
    obtain ⟨hq, he, hd⟩ := envScanStep_fields st c
    by_cases hset : (c = '=' && !st.inQuotes && !st.escape) = true
    · have hdeq : (envScanStep st c).delim = .eq := by rw [hd, if_pos hset]
      rw [envScan_foldl_eq_stable _ _ hdeq]
      have hs := hset
      simp only [Bool.and_eq_true, decide_eq_true_eq, Bool.not_eq_true'] at hs
      obtain ⟨⟨hc, hiq⟩, hes⟩ := hs
      have hact : envActiveEq st.inQuotes st.escape (c :: tl) = true := by
        rw [envActiveEq, if_neg (by rw [hc]; decide), if_neg (by rw [hc]; decide),
          if_pos (by rw [hc, hiq, hes]; decide)]
      rw [hact]
      simp
    · have hdno : (envScanStep st c).delim = .noDelim := by rw [hd, if_neg hset, h]
      rw [ih _ hdno, hq, he]
      have harg : envActiveEq st.inQuotes st.escape (c :: tl) =
          envActiveEq (if c = '"' then !st.inQuotes else st.inQuotes)
            (if c = '\\' then !st.escape else st.escape) tl := by
        rw [envActiveEq]
        by_cases h1 : c = '\\'
        · rw [if_pos h1, if_neg (by rw [h1]; decide), if_pos h1]
        · rw [if_neg h1]
          by_cases h2 : c = '"'
          · rw [if_pos h2, if_pos h2, if_neg h1]
          · rw [if_neg h2, if_neg hset, if_neg h2, if_neg h1]
      rw [harg]

/-- A token containing `=` splits into a key and a value. -/
theorem splitFirstEq_mem (t : List Char) (hmem : '=' ∈ t) :
    ∃ v, (splitFirstEq t).2 = some v := by
  induction t with
  | nil => simp at hmem
  | cons c cs ihc =>
    rw [splitFirstEq]
    by_cases hc : c = '='
    · rw [if_pos hc]
      exact ⟨cs, rfl⟩
    · rw [if_neg hc]
      rcases List.mem_cons.mp hmem with hh | hh
      · exact absurd hh.symm hc
      · obtain ⟨v, hv⟩ := ihc hh
        refine ⟨v, ?_⟩
        simpa using hv

/-- The `Eq` branch of `parse_env_directive` on tokens that all contain
`=`. -/
theorem parseEqTokens_all (tokens : List (List Char))
    (h : ∀ t ∈ tokens, '=' ∈ t) :
    parseEqTokens tokens =
      .ok (tokens.map (fun t => ⟨(splitFirstEq t).1, ((splitFirstEq t).2).getD [], .eq⟩)) := by
  induction tokens with
  | nil => rfl
  | cons t rest ih =>
    have hmem : '=' ∈ t := h t (List.mem_cons_self t rest)
    obtain ⟨v, hv⟩ := splitFirstEq_mem t hmem
    rw [parseEqTokens, if_pos (by simpa using hmem)]
    rcases hs : splitFirstEq t with ⟨key, v2⟩
    rw [hs] at hv
    simp only at hv
    subst hv
    rw [ih (fun t ht => h t (List.mem_cons_of_mem _ ht))]
    simp [Except.map, hs]

/-- The `Eq` branch of `parse_env_directive` fails on a token without
`=`. -/
theorem parseEqTokens_missing (tokens : List (List Char))
    (h : ∃ t ∈ tokens, '=' ∉ t) :
    parseEqTokens tokens = .error .incompleteInstruction := by
  induction tokens with
  | nil => simp at h
  | cons t rest ih =>
    rw [parseEqTokens]
    by_cases hc : '=' ∈ t
    · rw [if_pos (by simpa using hc)]
      obtain ⟨t0, hmem, hno⟩ := h
      rcases List.mem_cons.mp hmem with rfl | hmem'
      · exact absurd hc hno
      · rcases hs : splitFirstEq t with ⟨key, _ | v⟩
        · rfl
        · rw [ih ⟨t0, hmem', hno⟩]
          rfl
    · rw [if_neg (by simpa using hc)]

/-- The spec's reading of "an unescaped, unquoted `=`": conventional
escaping, where a backslash escapes exactly the character that follows it
and the escape flag is then cleared. -/
def specActiveEq : Bool → Bool → List Char → Bool
  | _, _, [] => false
  | inQuotes, escape, c :: rest =>
    if escape then specActiveEq inQuotes false rest
    else if c = '\\' then specActiveEq inQuotes true rest
    else if c = '"' then specActiveEq (!inQuotes) escape rest
    else if c = '=' && !inQuotes then true
    else specActiveEq inQuotes escape rest

/-- C5 (counterexample): on `a\bc=d e` the `=` is unescaped in the
conventional sense (the backslash escapes the `b`), so the claim requires
the `Eq` branch and, since the token `e` has no `=`, an
`IncompleteInstruction` error — but the source's escape flag stays set
until the next backslash, so the scanner treats the `=` as escaped, records
no delimiter, and the line parses as a single space-delimited variable. -/
theorem claim_C5_counterexample :
    specActiveEq false false (("a\\bc=d e").data) = true ∧
    (∃ t ∈ (extractTokensForEnvDirective (("a\\bc=d e").data)).1, '=' ∉ t) ∧
    parseEnvDirective (("a\\bc=d e").data) =
      .ok [⟨("abc=d").data, ("e").data, Delimiter.noDelim⟩] := by
  refine ⟨by decide, ⟨("e").data, by decide, by decide⟩, by decide⟩

/-- C5 (amended): the tokenizer records delimiter `Eq` exactly when some
`=` is seen outside double quotes with the scanner's sticky escape flag
unset (the flag is toggled by each backslash and not cleared by the
character it precedes).  With no such `=`, fewer than two tokens give
`IncompleteInstruction` and otherwise the first token is the key and the
remaining tokens joined by single spaces the value, with delimiter `None`;
with such an `=`, every token must contain `=` (a token without `=` gives
`IncompleteInstruction`) and each token splits at its first `=`, with
delimiter `Eq`. -/
theorem claim_C5_env_parsing (s : List Char) :
    ((extractTokensForEnvDirective s).2 = .eq ↔ envActiveEq false false s = true) ∧
    (envActiveEq false false s = false →
      ((extractTokensForEnvDirective s).1.length < 2 →
         parseEnvDirective s = .error .incompleteInstruction) ∧
      (∀ key values, (extractTokensForEnvDirective s).1 = key :: values →
         values ≠ [] →
         parseEnvDirective s = .ok [⟨key, joinSep [' '] values, .noDelim⟩])) ∧
    (envActiveEq false false s = true →
      ((∀ t ∈ (extractTokensForEnvDirective s).1, '=' ∈ t) →
         parseEnvDirective s = .ok ((extractTokensForEnvDirective s).1.map
           (fun t => ⟨(splitFirstEq t).1, ((splitFirstEq t).2).getD [], .eq⟩))) ∧
      ((∃ t ∈ (extractTokensForEnvDirective s).1, '=' ∉ t) →
         parseEnvDirective s = .error .incompleteInstruction)) := by
  have hd : (extractTokensForEnvDirective s).2 =
      (if envActiveEq false false s then Delimiter.eq else Delimiter.noDelim) := by
    unfold extractTokensForEnvDirective
    exact envScan_foldl_delim s ⟨false, false, [], [], .noDelim⟩ rfl
  refine ⟨?_, ?_, ?_⟩
  · rw [hd]
    by_cases ha : envActiveEq false false s = true
    · simp [ha]
    · simp [ha]
  · intro ha
    have hd2 : (extractTokensForEnvDirective s).2 = .noDelim := by
      rw [hd, ha]; rfl
    constructor
    · intro hlen
      simp only [parseEnvDirective]
      rw [hd2]
      dsimp only
      rw [if_pos hlen]
    · intro key values hkv hvne
      simp only [parseEnvDirective]
      rw [hd2]
      dsimp only
      rw [hkv]
      have hlen : ¬((key :: values).length < 2) := by
        cases values with
        | nil => exact absurd rfl hvne
        | cons a b => simp [List.length_cons]
      rw [if_neg hlen]
  · intro ha
    have hd2 : (extractTokensForEnvDirective s).2 = .eq := by
      rw [hd, ha]; rfl
    constructor
    · intro hall
      simp only [parseEnvDirective]
      rw [hd2]
      dsimp only
      exact parseEqTokens_all _ hall
    · intro hex
      simp only [parseEnvDirective]
      rw [hd2]
      dsimp only
      exact parseEqTokens_missing _ hex

/-- C5 witness: the two S4 spec examples, obtained by applying the amended
claim at concrete inputs. -/
theorem claim_C5_env_parsing_witness :
    parseEnvDirective (("FOO=BAR=true BAR=BAZ").data) =
      .ok [⟨("FOO").data, ("BAR=true").data, .eq⟩,
           ⟨("BAR").data, ("BAZ").data, .eq⟩] ∧
    parseEnvDirective (("Hello World").data) =
      .ok [⟨("Hello").data, ("World").data, .noDelim⟩] := by
  constructor
  · have h := ((claim_C5_env_parsing (("FOO=BAR=true BAR=BAZ").data)).2.2
      (by decide)).1 (by decide)
    rw [h]; decide
  · have h := ((claim_C5_env_parsing (("Hello World").data)).2.1
      (by decide)).2 (("Hello").data) [("World").data] (by decide) (by decide)
    rw [h]; decide

/-! ## Claim C7 -/

/-- Maximal runs of consecutive decimal digits in a character list,
accumulating the current run reversed. -/
def digitRunsAux : List Char → List Char → List (List Char)
  | cur, [] => if cur.isEmpty then [] else [cur.reverse]
  | cur, c :: rest =>
    if c.isDigit then digitRunsAux (c :: cur) rest
    else if cur.isEmpty then digitRunsAux [] rest
    else cur.reverse :: digitRunsAux [] rest

/-- The maximal digit runs of a character list, in order.  A value `v`
"appears exactly once as a number" in `s` when `digitRuns s = [v]`. -/
def digitRuns (s : List Char) : List (List Char) :=
  digitRunsAux [] s

theorem digitRunsAux_nodigit_nil (s : List Char)
    (h : ∀ c ∈ s, c.isDigit = false) : digitRunsAux [] s = [] := by
  induction s with
  | nil => rfl
  | cons c rest ih =>
    have hc : c.isDigit = false := h c (List.mem_cons_self c rest)
    simp only [digitRunsAux, hc, Bool.false_eq_true, if_false, List.isEmpty_nil, if_true]
    exact ih (fun x hx => h x (List.mem_cons_of_mem _ hx))

theorem digitRunsAux_nodigit_append (a s : List Char)
    (h : ∀ c ∈ a, c.isDigit = false) :
    digitRunsAux [] (a ++ s) = digitRunsAux [] s := by
  induction a with
  | nil => rfl
  | cons c rest ih =>
    have hc : c.isDigit = false := h c (List.mem_cons_self c rest)
    simp only [List.cons_append, digitRunsAux, hc, Bool.false_eq_true, if_false,
      List.isEmpty_nil, if_true]
    exact ih (fun x hx => h x (List.mem_cons_of_mem _ hx))

theorem digitRunsAux_digits_append (d : List Char)
    (h : ∀ c ∈ d, c.isDigit = true) :
    ∀ cur s, digitRunsAux cur (d ++ s) = digitRunsAux (d.reverse ++ cur) s := by
  induction d with
  | nil => intro cur s; simp
  | cons c rest ih =>
    intro cur s
    have hc : c.isDigit = true := h c (List.mem_cons_self c rest)
    simp only [List.cons_append, digitRunsAux, hc, if_true]
    simp only [List.append_eq]
    rw [ih (fun x hx => h x (List.mem_cons_of_mem _ hx)) (c :: cur) s]
    simp [List.append_assoc]

theorem digitRunsAux_flush (s cur : List Char)
    (h : ∀ c ∈ s, c.isDigit = false) (hcur : cur ≠ []) :
    digitRunsAux cur s = [cur.reverse] := by
  have hempty : cur.isEmpty = false := by
    cases cur with
    | nil => exact absurd rfl hcur
    | cons x xs => rfl
  cases s with
  | nil => simp [digitRunsAux, hempty]
  | cons c rest =>
    have hc : c.isDigit = false := h c (List.mem_cons_self c rest)
    simp only [digitRunsAux, hc, Bool.false_eq_true, if_false, hempty]
    rw [digitRunsAux_nodigit_nil rest (fun x hx => h x (List.mem_cons_of_mem _ hx))]

/-- A digit run surrounded by digit-free text is the unique digit run of the
whole. -/
theorem digitRuns_single (a d b : List Char)
    (ha : ∀ c ∈ a, c.isDigit = false) (hd : ∀ c ∈ d, c.isDigit = true)
    (hdne : d ≠ []) (hb : ∀ c ∈ b, c.isDigit = false) :
    digitRuns (a ++ d ++ b) = [d] := by
  unfold digitRuns
  rw [List.append_assoc, digitRunsAux_nodigit_append a _ ha,
    digitRunsAux_digits_append d hd [] b,
    digitRunsAux_flush b _ hb (by simp [hdne])]
  simp

theorem digitChar_isDigit (n : Nat) (h : n < 10) : (digitChar n).isDigit = true := by
  interval_cases n <;> decide

theorem decRepr_ne_nil (n : Nat) : decRepr n ≠ [] := by
  unfold decRepr
  split_ifs <;> simp

theorem decRepr_digits (n : Nat) : ∀ c ∈ decRepr n, c.isDigit = true := by
  induction n using Nat.strong_induction_on with
  | _ n ih =>
    unfold decRepr
    split_ifs with h
    · intro c hc
      rw [List.mem_singleton] at hc
      subst hc
      exact digitChar_isDigit n h
    · intro c hc
      rcases List.mem_append.mp hc with hm | hm
      · exact ih (n / 10) (Nat.div_lt_self (by omega) (by omega)) c hm
      · rw [List.mem_singleton] at hm
        subst hm
        exact digitChar_isDigit (n % 10) (Nat.mod_lt _ (by omega))

set_option maxRecDepth 8192 in
/-- C7: whenever the transform succeeds, the `RUN` directive writing
`/etc/service/data-plane/run` for the tracked exposed port is in the
output; for a captured port `p`, the script it writes contains the decimal
representation of `p` exactly once (it is the script's only maximal digit
run); with no captured port, the script contains no number at all and ends
with `exec /opt/evervault/data-plane`. -/
theorem claim_C7_data_plane_port (cfg : ValidatedCageBuildConfig)
    (evDomain dataPlaneVersion installerVersion : List Char)
    (insts out : List Directive)
    (h : processDockerfile cfg evDomain dataPlaneVersion installerVersion insts = .ok out) :
    dataPlaneRunDirective (exposedPortOf insts) ∈ out ∧
    (∀ p, exposedPortOf insts = some p →
      digitRuns (writeCommandToScript (dataPlaneRunScript (some p))
        (String.data ("/etc/service/data-plane/run")) []) = [decRepr p]) ∧
    (exposedPortOf insts = none →
      digitRuns (writeCommandToScript (dataPlaneRunScript none)
        (String.data ("/etc/service/data-plane/run")) []) = [] ∧
      ∃ pre, dataPlaneRunScript none =
        pre ++ String.data ("exec /opt/evervault/data-plane")) := by
  simp only [processDockerfile] at h
  rcases hcc : createCombinedDockerEntrypoint (scanDirectives insts).lastEntrypoint
      (scanDirectives insts).lastCmd with e | entry
  · rw [hcc] at h; cases h
  · rw [hcc] at h
    dsimp only [] at h
    by_cases hport : (scanDirectives insts).exposedPort = some 443
    · rw [if_pos hport] at h; cases h
    · rw [if_neg hport] at h
      injection h with h
      subst h
      refine ⟨?_, ?_, ?_⟩
      · apply List.mem_append_right
        unfold exposedPortOf
        simp [injectedDirectives]
      · intro p hp
        have hshape : writeCommandToScript (dataPlaneRunScript (some p))
            (String.data ("/etc/service/data-plane/run")) [] =
            (String.data ("printf \"#!/bin/sh\\n") ++
              String.data ("echo \\\"Booting Evervault data plane...\\\"\\nexec /opt/evervault/data-plane") ++
              [' ']) ++ decRepr p ++
            (String.data ("\\n\"") ++ List.flatten [] ++ String.data (" > ") ++
              String.data ("/etc/service/data-plane/run") ++ String.data (" && chmod +x ") ++
              String.data ("/etc/service/data-plane/run")) := by
          simp [writeCommandToScript, dataPlaneRunScript, List.append_assoc]
        rw [hshape]
        exact digitRuns_single _ _ _ (by decide) (decRepr_digits p) (decRepr_ne_nil p)
          (by decide)
      · intro _
        exact ⟨by decide,
          ⟨String.data ("echo \\\"Booting Evervault data plane...\\\"\\n"), by decide⟩⟩

/-- Concrete input for the C7 witness. -/
def c7Insts : List Directive :=
  [Directive.fromD (sb ("alpine")),
   Directive.expose (some 8080),
   Directive.entrypoint (some Mode.shell) [String.data ("sh")]]

/-- The transform output on `c7Insts`. -/
def c7Out : List Directive :=
  [Directive.fromD (sb ("alpine"))] ++
    injectedDirectives sampleCfg (String.data ("evervault.com")) (String.data ("0.0.0"))
      (String.data ("abcdef")) (some 8080)
      (Directive.newRun
        (writeCommandToScript (entrypointScriptFor (joinSep [' '] ([String.data ("sh")] ++ [])))
          (String.data ("/etc/service/user-entrypoint/run")) [String.data (" \"$PWD\" ")]))

/-- Witness for C7 at a concrete successful transform with `EXPOSE 8080`. -/
theorem claim_C7_data_plane_port_witness :
    dataPlaneRunDirective (some 8080) ∈ c7Out ∧
    digitRuns (writeCommandToScript (dataPlaneRunScript (some 8080))
      (String.data ("/etc/service/data-plane/run")) []) = [decRepr 8080] := by
  have h := claim_C7_data_plane_port sampleCfg (String.data ("evervault.com"))
    (String.data ("0.0.0")) (String.data ("abcdef")) c7Insts c7Out rfl
  exact ⟨h.1, h.2.1 8080 rfl⟩

/-! ## Claim C3: ASCII round-trip helpers -/

theorem charToNat_ofNat (x : Nat) (h : x < 128) : (Char.ofNat x).toNat = x := by
  have hv : Nat.isValidChar x := Or.inl (by omega)
  unfold Char.ofNat
  rw [dif_pos hv]
  rfl

/-- One-step unfolding of `utf8Decode` on an ASCII head byte. -/
theorem utf8Decode_cons_ascii (x : Nat) (rest : List Nat) (hx : x < 128) :
    utf8Decode (x :: rest) = (utf8Decode rest).map (fun cs => Char.ofNat x :: cs) := by
  cases rest with
  | nil =>
    show (if x < 128 then (utf8Decode []).map (fun cs => Char.ofNat x :: cs)
      else if 194 ≤ x && x ≤ 223 then none
      else if 224 ≤ x && x ≤ 239 then none
      else if 240 ≤ x && x ≤ 244 then none
      else none) = _
    rw [if_pos hx]
  | cons b2 r2 =>
    cases r2 with
    | nil =>
      show (if x < 128 then (utf8Decode [b2]).map (fun cs => Char.ofNat x :: cs)
        else if 194 ≤ x && x ≤ 223 then
          (if isUtf8Cont b2 then
            (utf8Decode []).map (fun cs => Char.ofNat ((x - 192) * 64 + (b2 - 128)) :: cs)
          else none)
        else if 224 ≤ x && x ≤ 239 then none
        else if 240 ≤ x && x ≤ 244 then none
        else none) = _
      rw [if_pos hx]
    | cons b3 r3 =>
      cases r3 with
      | nil =>
        show (if x < 128 then (utf8Decode [b2, b3]).map (fun cs => Char.ofNat x :: cs)
          else if 194 ≤ x && x ≤ 223 then
            (if isUtf8Cont b2 then
              (utf8Decode [b3]).map (fun cs => Char.ofNat ((x - 192) * 64 + (b2 - 128)) :: cs)
            else none)
          else if 224 ≤ x && x ≤ 239 then
            (if isUtf8Cont b2 && isUtf8Cont b3 &&
                2048 ≤ (x - 224) * 4096 + (b2 - 128) * 64 + (b3 - 128) &&
                !(55296 ≤ (x - 224) * 4096 + (b2 - 128) * 64 + (b3 - 128) &&
                  (x - 224) * 4096 + (b2 - 128) * 64 + (b3 - 128) ≤ 57343) then
              (utf8Decode []).map (fun cs =>
                Char.ofNat ((x - 224) * 4096 + (b2 - 128) * 64 + (b3 - 128)) :: cs)
            else none)
          else if 240 ≤ x && x ≤ 244 then none
          else none) = _
        rw [if_pos hx]
      | cons b4 r4 =>
        show (if x < 128 then
            (utf8Decode (b2 :: b3 :: b4 :: r4)).map (fun cs => Char.ofNat x :: cs)
          else if 194 ≤ x && x ≤ 223 then
            (if isUtf8Cont b2 then
              (utf8Decode (b3 :: b4 :: r4)).map (fun cs =>
                Char.ofNat ((x - 192) * 64 + (b2 - 128)) :: cs)
            else none)
          else if 224 ≤ x && x ≤ 239 then
            (if isUtf8Cont b2 && isUtf8Cont b3 &&
                2048 ≤ (x - 224) * 4096 + (b2 - 128) * 64 + (b3 - 128) &&
                !(55296 ≤ (x - 224) * 4096 + (b2 - 128) * 64 + (b3 - 128) &&
                  (x - 224) * 4096 + (b2 - 128) * 64 + (b3 - 128) ≤ 57343) then
              (utf8Decode (b4 :: r4)).map (fun cs =>
                Char.ofNat ((x - 224) * 4096 + (b2 - 128) * 64 + (b3 - 128)) :: cs)
            else none)
          else if 240 ≤ x && x ≤ 244 then
            (if isUtf8Cont b2 && isUtf8Cont b3 && isUtf8Cont b4 &&
                65536 ≤ (x - 240) * 262144 + (b2 - 128) * 4096 + (b3 - 128) * 64 + (b4 - 128) &&
                (x - 240) * 262144 + (b2 - 128) * 4096 + (b3 - 128) * 64 + (b4 - 128) ≤ 1114111 then
              (utf8Decode r4).map (fun cs =>
                Char.ofNat ((x - 240) * 262144 + (b2 - 128) * 4096 + (b3 - 128) * 64 + (b4 - 128)) :: cs)
            else none)
          else none) = _
        rw [if_pos hx]

theorem utf8Decode_ascii (b : List Nat) (h : ∀ x ∈ b, x < 128) :
    utf8Decode b = some (b.map Char.ofNat) := by
  induction b with
  | nil => rfl
  | cons x rest ih =>
    have hx : x < 128 := h x (List.mem_cons_self x rest)
    rw [utf8Decode_cons_ascii x rest hx, ih (fun y hy => h y (List.mem_cons_of_mem _ hy))]
    rfl

theorem utf8EncodeChar_ascii (c : Char) (h : c.toNat < 128) :
    utf8EncodeChar c = [c.toNat] := by
  unfold utf8EncodeChar
  rw [if_pos h]

theorem strBytes_eq_map (t : List Char) (h : ∀ c ∈ t, c.toNat < 128) :
    strBytes t = t.map Char.toNat := by
  induction t with
  | nil => rfl
  | cons c rest ih =>
    have hc : c.toNat < 128 := h c (List.mem_cons_self c rest)
    have hstep : strBytes (c :: rest) = utf8EncodeChar c ++ strBytes rest := rfl
    rw [hstep, utf8EncodeChar_ascii c hc,
      ih (fun y hy => h y (List.mem_cons_of_mem _ hy)), List.map_cons]
    rfl

theorem utf8Decode_strBytes (t : List Char) (h : ∀ c ∈ t, c.toNat < 128) :
    utf8Decode (strBytes t) = some t := by
  rw [strBytes_eq_map t h, utf8Decode_ascii _ (by
    intro x hx
    obtain ⟨c, hc, rfl⟩ := List.mem_map.mp hx
    exact h c hc)]
  simp only [List.map_map]
  have hid : ∀ c ∈ t, (Char.ofNat ∘ Char.toNat) c = id c := fun c _ => Char.ofNat_toNat c
  rw [List.map_congr_left hid, List.map_id]

theorem strBytes_map_ofNat (b : List Nat) (h : ∀ x ∈ b, x < 128) :
    strBytes (b.map Char.ofNat) = b := by
  rw [strBytes_eq_map _ (by
    intro c hc
    obtain ⟨x, hx, rfl⟩ := List.mem_map.mp hc
    rw [charToNat_ofNat x (h x hx)]
    exact h x hx)]
  rw [List.map_map]
  have hid : ∀ x ∈ b, (Char.toNat ∘ Char.ofNat) x = id x := by
    intro x hx
    exact charToNat_ofNat x (h x hx)
  rw [List.map_congr_left hid, List.map_id]

theorem rawText_ascii (b : List Nat) (h : ∀ x ∈ b, x < 128) :
    rawText b = b.map Char.ofNat := by
  unfold rawText
  rw [utf8Decode_ascii b h]
  rfl

theorem strBytes_append (a b : List Char) :
    strBytes (a ++ b) = strBytes a ++ strBytes b := by
  simp [strBytes]

theorem rustTrim_id (l : List Char) (h : ∀ c ∈ l, isRustWs c = false) :
    rustTrim l = l := by
  have aux : ∀ m : List Char, (∀ c ∈ m, isRustWs c = false) →
      m.dropWhile isRustWs = m := by
    intro m hm
    cases m with
    | nil => rfl
    | cons c t =>
      rw [List.dropWhile_cons_of_neg]
      simp [hm c (List.mem_cons_self c t)]
  unfold rustTrim
  rw [aux l h, aux l.reverse (fun c hc => h c (List.mem_reverse.mp hc)),
    List.reverse_reverse]

theorem rustTrim_cons_space (l : List Char) : rustTrim (' ' :: l) = rustTrim l := by
  unfold rustTrim
  rw [List.dropWhile_cons_of_pos (by decide)]

theorem rustTrim_quoted (t : List Char) :
    rustTrim ('"' :: (t ++ ['"'])) = '"' :: (t ++ ['"']) := by
  have h1 : ('"' :: (t ++ ['"'])).dropWhile isRustWs = '"' :: (t ++ ['"']) := by
    rw [List.dropWhile_cons_of_neg (by decide)]
  have hrev : ('"' :: (t ++ ['"'])).reverse = '"' :: (t.reverse ++ ['"']) := by
    simp
  have h2 : ('"' :: (t ++ ['"'])).reverse.dropWhile isRustWs =
      ('"' :: (t ++ ['"'])).reverse := by
    rw [hrev, List.dropWhile_cons_of_neg (by decide)]
  unfold rustTrim
  rw [h1, h2, List.reverse_reverse]

theorem rustStripQuotes_wrap (t : List Char) :
    rustStripQuotes ('"' :: (t ++ ['"'])) = t := by
  unfold rustStripQuotes
  have h1 : (match '"' :: (t ++ ['"']) with
      | '"' :: rest => rest
      | x => '"' :: (t ++ ['"'])) = t ++ ['"'] := by
    split
    · next rest heq =>
      injection heq with _ h2
      exact h2.symm
    · next hne => exact absurd rfl (hne (t ++ ['"']))
  rw [h1]
  dsimp only
  rw [List.getLast?_concat]
  show (t ++ ['"']).dropLast = t
  rw [List.dropLast_concat]

theorem rsplit_no_sep {α : Type} [DecidableEq α] (sep : α) (p : List α)
    (h : sep ∉ p) : rsplit sep p = [p] := by
  induction p with
  | nil => rfl
  | cons b t ih =>
    rw [rsplit, if_neg (by intro hb; subst hb; exact h (List.mem_cons_self b t))]
    rw [ih (fun hm => h (List.mem_cons_of_mem _ hm))]

theorem rsplit_append_sep {α : Type} [DecidableEq α] (sep : α) (p rest : List α)
    (h : sep ∉ p) : rsplit sep (p ++ sep :: rest) = p :: rsplit sep rest := by
  induction p with
  | nil =>
    rw [List.nil_append, rsplit, if_pos rfl]
  | cons b t ih =>
    rw [List.cons_append, rsplit, if_neg (by intro hb; subst hb; exact h (List.mem_cons_self b t))]
    rw [ih (fun hm => h (List.mem_cons_of_mem _ hm))]

theorem rsplit_join {α : Type} [DecidableEq α] (sep : α) :
    ∀ (ps : List (List α)) (p : List α), sep ∉ p → (∀ q ∈ ps, sep ∉ q) →
    rsplit sep (joinSep [sep] (p :: ps)) = p :: ps := by
  intro ps
  induction ps with
  | nil =>
    intro p hp _
    exact rsplit_no_sep sep p hp
  | cons q ps' ih =>
    intro p hp hqs
    have hj : joinSep [sep] (p :: q :: ps') = p ++ sep :: joinSep [sep] (q :: ps') := by
      rw [show joinSep [sep] (p :: q :: ps') =
        p ++ [sep] ++ joinSep [sep] (q :: ps') from rfl, List.append_assoc]
      rfl
    rw [hj, rsplit_append_sep sep p _ hp,
      ih q (hqs q (List.mem_cons_self q ps')) (fun r hr => hqs r (List.mem_cons_of_mem _ hr))]

theorem rsplit_join_pair :
    ∀ (qs : List (List Nat)) (q : List Nat), (44 : Nat) ∉ q → (∀ r ∈ qs, (44 : Nat) ∉ r) →
    rsplit 44 (joinSep [44, 32] (q :: qs)) = q :: qs.map (fun r => 32 :: r) := by
  intro qs
  induction qs with
  | nil =>
    intro q hq _
    exact rsplit_no_sep 44 q hq
  | cons r rs ih =>
    intro q hq hqs
    have hj : joinSep [44, 32] (q :: r :: rs) =
        q ++ (44 : Nat) :: (32 :: joinSep [44, 32] (r :: rs)) := by
      rw [show joinSep [44, 32] (q :: r :: rs) =
        q ++ [44, 32] ++ joinSep [44, 32] (r :: rs) from rfl, List.append_assoc]
      rfl
    rw [hj, rsplit_append_sep 44 q _ hq, rsplit, if_neg (by decide)]
    rw [ih r (hqs r (List.mem_cons_self r rs)) (fun s hs => hqs s (List.mem_cons_of_mem _ hs))]
    rfl

theorem splitFirstEq_prefix (k v : List Char) (h : '=' ∉ k) :
    splitFirstEq (k ++ '=' :: v) = (k, some v) := by
  induction k with
  | nil =>
    rw [List.nil_append, splitFirstEq, if_pos rfl]
  | cons c t ih =>
    have hc : ¬(c = '=') := by
      intro hh
      apply h
      rw [← hh]
      exact List.mem_cons_self c t
    rw [List.cons_append, splitFirstEq, if_neg hc]
    dsimp only
    rw [ih (fun hm => h (List.mem_cons_of_mem _ hm))]

theorem digitChar_toNat (n : Nat) (h : n < 10) : (digitChar n).toNat = 48 + n := by
  interval_cases n <;> decide

theorem decRepr_toNat_bounds (n : Nat) :
    ∀ c ∈ decRepr n, 48 ≤ c.toNat ∧ c.toNat ≤ 57 := by
  induction n using Nat.strong_induction_on with
  | _ n ih =>
    unfold decRepr
    split_ifs with h
    · intro c hc
      rw [List.mem_singleton] at hc
      subst hc
      rw [digitChar_toNat n h]
      omega
    · intro c hc
      rcases List.mem_append.mp hc with hm | hm
      · exact ih (n / 10) (Nat.div_lt_self (by omega) (by omega)) c hm
      · rw [List.mem_singleton] at hm
        subst hm
        rw [digitChar_toNat (n % 10) (Nat.mod_lt _ (by omega))]
        omega

theorem parseDigitsAux_append (a b : List Char) :
    ∀ acc, parseDigitsAux acc (a ++ b) =
      match parseDigitsAux acc a with
      | none => none
      | some v => parseDigitsAux v b := by
  induction a with
  | nil => intro acc; rfl
  | cons c t ih =>
    intro acc
    rw [List.cons_append, parseDigitsAux, parseDigitsAux]
    by_cases hc : (48 ≤ c.toNat && c.toNat ≤ 57) = true
    · rw [if_pos hc, if_pos hc, ih]
    · rw [if_neg hc, if_neg hc]

theorem parseDigitsAux_decRepr (n : Nat) :
    ∀ acc, parseDigitsAux acc (decRepr n) = some (acc * 10 ^ (decRepr n).length + n) := by
  induction n using Nat.strong_induction_on with
  | _ n ih =>
    intro acc
    unfold decRepr
    split_ifs with h
    · have ht : (digitChar n).toNat = 48 + n := digitChar_toNat n h
      rw [parseDigitsAux, if_pos (by rw [ht]; simp; omega)]
      rw [parseDigitsAux, ht]
      simp [pow_one]
    · rw [parseDigitsAux_append]
      rw [ih (n / 10) (Nat.div_lt_self (by omega) (by omega)) acc]
      have hm : n % 10 < 10 := Nat.mod_lt _ (by omega)
      have ht : (digitChar (n % 10)).toNat = 48 + n % 10 := digitChar_toNat _ hm
      dsimp only
      rw [parseDigitsAux, if_pos (by rw [ht]; simp; omega)]
      rw [parseDigitsAux, ht]
      have hd : n / 10 * 10 + n % 10 = n := by omega
      have hL : (decRepr (n / 10) ++ [digitChar (n % 10)]).length =
          (decRepr (n / 10)).length + 1 := by simp
      rw [hL]
      congr 1
      calc (acc * 10 ^ (decRepr (n / 10)).length + n / 10) * 10 + (48 + n % 10 - 48)
          = acc * (10 ^ (decRepr (n / 10)).length * 10) + (n / 10 * 10 + n % 10) := by
            have : 48 + n % 10 - 48 = n % 10 := by omega
            rw [this]; ring
        _ = acc * 10 ^ ((decRepr (n / 10)).length + 1) + n := by rw [pow_succ, hd]

theorem parseU16_decRepr (p : Nat) (h : p ≤ 65535) : parseU16 (decRepr p) = some p := by
  have hpd : parseDigitsAux 0 (decRepr p) = some p := by
    rw [parseDigitsAux_decRepr p 0]
    simp
  rcases hdr : decRepr p with _ | ⟨c, t⟩
  · exact absurd hdr (decRepr_ne_nil p)
  · have hb : 48 ≤ c.toNat ∧ c.toNat ≤ 57 :=
      decRepr_toNat_bounds p c (by rw [hdr]; exact List.mem_cons_self c t)
    have hc : c ≠ '+' := by
      intro hh
      rw [hh] at hb
      exact absurd hb (by decide)
    rw [hdr] at hpd
    unfold parseU16
    have hmatch : (match c :: t with | '+' :: rest => rest | x => c :: t) = c :: t := by
      split
      · next rest heq =>
        injection heq with h1 _
        exact absurd h1 hc
      · rfl
    rw [hmatch]
    dsimp only
    rw [hpd]
    dsimp only
    rw [if_pos h]

/-! ## Claim C3: decoder composition lemmas -/

theorem foldB_cons_none (st st' : Option DecoderState) (b : Nat) (xs : List Nat)
    (h : stepB st b = .ok (st', none)) : foldB st (b :: xs) = foldB st' xs := by
  rw [foldB, h]
  dsimp only
  rcases hf : foldB st' xs with e | ⟨s, ds⟩ <;> simp [Except.map]

theorem foldB_chain (st st' : Option DecoderState) (a rest : List Nat)
    (h : foldB st a = .ok (st', [])) : foldB st (a ++ rest) = foldB st' rest := by
  rw [foldB_append, h]
  dsimp only
  rcases hf : foldB st' rest with e | ⟨s, ds⟩ <;> simp [Except.map]

theorem foldB_keyword_buf (nb : List Nat) : ∀ (buf rest : List Nat),
    (∀ b ∈ nb, b ≤ 127 ∧ b ≠ 32) →
    foldB (some (.directive buf)) (nb ++ rest) =
      foldB (some (.directive (buf ++ nb))) rest := by
  induction nb with
  | nil =>
    intro buf rest _
    rw [List.nil_append, List.append_nil]
  | cons b nb' ih =>
    intro buf rest h
    obtain ⟨hle, hne⟩ := h b (List.mem_cons_self b nb')
    have hstep : stepB (some (.directive buf)) b =
        .ok (some (.directive (buf ++ [b])), none) := by
      unfold stepB
      dsimp only
      unfold directiveStep
      rw [if_neg hne, if_pos hle]
      rfl
    rw [List.cons_append, foldB_cons_none _ _ _ _ hstep,
      ih _ _ (fun x hx => h x (List.mem_cons_of_mem _ hx))]
    have hap : buf ++ [b] ++ nb' = buf ++ b :: nb' := by simp
    rw [hap]

theorem foldB_keyword (b0 : Nat) (nb rest : List Nat) (d : Directive)
    (h0 : isAsciiAlpha b0 = true)
    (hnb : ∀ b ∈ nb, b ≤ 127 ∧ b ≠ 32)
    (htf : directiveTryFrom (b0 :: nb) = .ok d) :
    foldB none ((b0 :: nb) ++ 32 :: rest) =
      foldB (some (.directiveArguments ⟨d, none, .observe, []⟩)) rest := by
  have hw : isAsciiWs b0 = false := by
    unfold isAsciiAlpha at h0
    unfold isAsciiWs
    simp only [Bool.or_eq_true, Bool.and_eq_true, decide_eq_true_eq] at h0
    simp only [Bool.or_eq_false_iff, decide_eq_false_iff_not]
    omega
  have hstep0 : stepB none b0 = .ok (some (.directive [b0]), none) := by
    unfold stepB deriveNewLineState
    rw [hw, h0]
    rfl
  rw [List.cons_append, foldB_cons_none _ _ _ _ hstep0,
    foldB_keyword_buf nb [b0] (32 :: rest) hnb]
  have hstep32 : stepB (some (.directive ([b0] ++ nb))) 32 =
      .ok (some (.directiveArguments ⟨d, none, .observe, []⟩), none) := by
    unfold stepB
    dsimp only
    unfold directiveStep
    rw [if_pos rfl]
    rw [show ([b0] ++ nb) = b0 :: nb from rfl, htf]
    rfl
  rw [foldB_cons_none _ _ _ _ hstep32]

theorem suffix_92_false (a : List Nat) (ha : (92 : Nat) ∉ a) :
    List.isSuffixOf [92, 10] a = false := by
  rw [Bool.eq_false_iff]
  intro hcon
  obtain ⟨t, ht⟩ := List.isSuffixOf_iff_suffix.mp hcon
  apply ha
  rw [← ht]
  simp

/-- The string-stack change of one ordinary argument byte. -/
def qstack (b : Nat) (ss : List StringToken) : List StringToken :=
  if b = 39 || b = 34 then
    stackPushPop ss (if b = 39 then .singleQuote else .doubleQuote)
  else ss

theorem stepB_args_first (d : Directive) (b : Nat)
    (h10 : b ≠ 10) (h92 : b ≠ 92) (h32 : b ≠ 32) (h35 : b ≠ 35) :
    stepB (some (.directiveArguments ⟨d, none, .observe, []⟩)) b =
      .ok (some (.directiveArguments
        ⟨(if (d.isCmd || d.isEntrypoint) = true then d.setMode (modeFromByte b) else d),
         some [b], .observe, qstack b []⟩), none) := by
  unfold stepB
  dsimp only
  unfold argsStep
  simp [h10, h92, h32, h35, qstack, Except.map, NewLineBehaviour.isEscaped,
    NewLineBehaviour.isObserve]

theorem stepB_args_accum (d : Directive) (a : List Nat) (ss : List StringToken) (b : Nat)
    (h10 : b ≠ 10) (h92 : b ≠ 92) (ha : (92 : Nat) ∉ a) :
    stepB (some (.directiveArguments ⟨d, some a, .observe, ss⟩)) b =
      .ok (some (.directiveArguments ⟨d, some (a ++ [b]), .observe, qstack b ss⟩), none) := by
  unfold stepB
  dsimp only
  unfold argsStep
  by_cases h35 : b = 35
  · subst h35
    simp [qstack, Except.map, NewLineBehaviour.isEscaped, NewLineBehaviour.isObserve,
      suffix_92_false a ha]
  · simp [h10, h92, h35, qstack, Except.map, NewLineBehaviour.isEscaped,
      NewLineBehaviour.isObserve]

theorem foldB_args_accum (bs : List Nat) (hbs : ∀ b ∈ bs, b ≠ 10 ∧ b ≠ 92) :
    ∀ (d : Directive) (a : List Nat) (ss : List StringToken) (rest : List Nat),
      (92 : Nat) ∉ a →
      ∃ ss2, foldB (some (.directiveArguments ⟨d, some a, .observe, ss⟩)) (bs ++ rest) =
        foldB (some (.directiveArguments ⟨d, some (a ++ bs), .observe, ss2⟩)) rest := by
  induction bs with
  | nil =>
    intro d a ss rest _
    exact ⟨ss, by rw [List.nil_append, List.append_nil]⟩
  | cons b bs' ih =>
    intro d a ss rest ha
    obtain ⟨h10, h92⟩ := hbs b (List.mem_cons_self b bs')
    have ha2 : (92 : Nat) ∉ a ++ [b] := by
      intro hm
      rcases List.mem_append.mp hm with hm | hm
      · exact ha hm
      · rw [List.mem_singleton] at hm
        exact h92 hm.symm
    obtain ⟨ss2, hrec⟩ := ih (fun x hx => hbs x (List.mem_cons_of_mem _ hx)) d (a ++ [b])
      (qstack b ss) rest ha2
    refine ⟨ss2, ?_⟩
    rw [List.cons_append, foldB_cons_none _ _ _ _ (stepB_args_accum d a ss b h10 h92 ha), hrec]
    have hap : a ++ [b] ++ bs' = a ++ b :: bs' := by simp
    rw [hap]

theorem foldB_args_newline (d : Directive) (a : List Nat) (ss : List StringToken)
    (d2 : Directive) (hset : d.setArguments a = .ok d2) :
    foldB (some (.directiveArguments ⟨d, some a, .observe, ss⟩)) [10] = .ok (none, [d2]) := by
  have hstep : stepB (some (.directiveArguments ⟨d, some a, .observe, ss⟩)) 10 =
      .ok (none, some d2) := by
    unfold stepB
    dsimp only
    unfold argsStep
    simp [NewLineBehaviour.isObserve, hset, Except.map]
  rw [foldB, hstep]
  dsimp only
  rw [foldB]
  simp [Except.map]

theorem foldB_line (d d2 : Directive) (b0 : Nat) (bs : List Nat)
    (h10 : b0 ≠ 10) (h92 : b0 ≠ 92) (h32 : b0 ≠ 32) (h35 : b0 ≠ 35)
    (hbs : ∀ b ∈ bs, b ≠ 10 ∧ b ≠ 92)
    (hset : (if (d.isCmd || d.isEntrypoint) = true then
        d.setMode (modeFromByte b0) else d).setArguments (b0 :: bs) = .ok d2) :
    foldB (some (.directiveArguments ⟨d, none, .observe, []⟩)) ((b0 :: bs) ++ [10]) =
      .ok (none, [d2]) := by
  rw [List.cons_append, foldB_cons_none _ _ _ _ (stepB_args_first d b0 h10 h92 h32 h35)]
  obtain ⟨ss2, hrec⟩ := foldB_args_accum bs hbs _ [b0] (qstack b0 []) [10]
    (by intro hm; rw [List.mem_singleton] at hm; exact h92 hm.symm)
  rw [hrec]
  exact foldB_args_newline _ _ _ _ hset

theorem foldDecode_of_foldB (bytes : List Nat) (ds : List Directive)
    (h : foldB none bytes = .ok (none, ds)) : foldDecode bytes = .ok ds := by
  unfold foldDecode
  rw [h]
  simp [flushState]

/-! ## Claim C3: env tokenizer inversion -/

theorem envScan_token (t : List Char) (ht : ∀ c ∈ t, c ≠ '\\' ∧ c ≠ '"' ∧ c ≠ ' ') :
    ∀ cur toks dl, t.foldl envScanStep ⟨false, false, cur, toks, dl⟩ =
      ⟨false, false, cur ++ t, toks, if '=' ∈ t then .eq else dl⟩ := by
  induction t with
  | nil =>
    intro cur toks dl
    simp [List.foldl_nil]
  | cons c t' ih =>
    intro cur toks dl
    obtain ⟨hb, hq, hs⟩ := ht c (List.mem_cons_self c t')
    rw [List.foldl_cons]
    have hstep : envScanStep ⟨false, false, cur, toks, dl⟩ c =
        ⟨false, false, cur ++ [c], toks, if c = '=' then .eq else dl⟩ := by
      unfold envScanStep
      by_cases hc : c = '='
      · simp [hb, hq, hs, hc]
      · simp [hb, hq, hs, hc]
    rw [hstep, ih (fun x hx => ht x (List.mem_cons_of_mem _ hx)) (cur ++ [c]) toks _]
    have hcur : cur ++ [c] ++ t' = cur ++ c :: t' := by simp
    rw [hcur]
    by_cases hc : c = '='
    · subst hc
      simp [List.mem_cons]
    · by_cases hm : '=' ∈ t' <;> simp [List.mem_cons, hc, hm, Ne.symm hc]

theorem envScan_join (toks : List (List Char)) (tl : List Char)
    (hclean : ∀ t ∈ toks ++ [tl], t ≠ [] ∧
      ∀ c ∈ t, c ≠ '\\' ∧ c ≠ '"' ∧ isRustWs c = false) :
    ∀ acc dl, (joinSep [' '] (toks ++ [tl])).foldl envScanStep ⟨false, false, [], acc, dl⟩ =
      ⟨false, false, tl, acc ++ toks,
        if (toks ++ [tl]).any (fun t => '=' ∈ t) then .eq else dl⟩ := by
  induction toks generalizing tl with
  | nil =>
    intro acc dl
    have h := hclean tl (by simp)
    have hchars : ∀ c ∈ tl, c ≠ '\\' ∧ c ≠ '"' ∧ c ≠ ' ' := by
      intro c hc
      obtain ⟨h1, h2, h3⟩ := h.2 c hc
      refine ⟨h1, h2, ?_⟩
      intro hsp
      subst hsp
      exact absurd h3 (by decide)
    rw [show joinSep [' '] ([] ++ [tl]) = tl from rfl]
    rw [envScan_token tl hchars [] acc dl]
    simp
  | cons t toks' ih =>
    intro acc dl
    have ht := hclean t (by simp)
    have htchars : ∀ c ∈ t, c ≠ '\\' ∧ c ≠ '"' ∧ c ≠ ' ' := by
      intro c hc
      obtain ⟨h1, h2, h3⟩ := ht.2 c hc
      refine ⟨h1, h2, ?_⟩
      intro hsp
      subst hsp
      exact absurd h3 (by decide)
    have hne : toks' ++ [tl] ≠ [] := by simp
    have hj : joinSep [' '] ((t :: toks') ++ [tl]) =
        t ++ ' ' :: joinSep [' '] (toks' ++ [tl]) := by
      rw [List.cons_append]
      cases hx : toks' ++ [tl] with
      | nil => exact absurd hx hne
      | cons y ys =>
        rw [show joinSep [' '] (t :: y :: ys) =
          t ++ [' '] ++ joinSep [' '] (y :: ys) from rfl, List.append_assoc]
        rfl
    rw [hj]
    rw [show t ++ ' ' :: joinSep [' '] (toks' ++ [tl]) =
      t ++ (' ' :: joinSep [' '] (toks' ++ [tl])) from rfl]
    rw [List.foldl_append]
    rw [envScan_token t htchars [] acc dl]
    rw [List.nil_append, List.foldl_cons]
    have hwtrim : rustTrim t = t := by
      apply rustTrim_id
      intro c hc
      exact (ht.2 c hc).2.2
    have hemp : t.isEmpty = false := by
      cases hx : t with
      | nil => exact absurd hx ht.1
      | cons y ys => rfl
    have hspace : envScanStep ⟨false, false, t, acc, (if '=' ∈ t then Delimiter.eq else dl)⟩ ' ' =
        ⟨false, false, [], acc ++ [t], (if '=' ∈ t then Delimiter.eq else dl)⟩ := by
      unfold envScanStep
      simp [hemp, hwtrim]
    rw [hspace]
    rw [ih tl (fun x hx => hclean x (by
      rw [List.cons_append]
      exact List.mem_cons_of_mem _ hx)) (acc ++ [t]) _]
    have hacc : acc ++ [t] ++ toks' = acc ++ t :: toks' := by simp
    rw [hacc]
    by_cases hm : '=' ∈ t
    · simp [hm]
    · by_cases hany : (toks' ++ [tl]).any (fun s => '=' ∈ s) = true <;>
        simp [hm, hany]

theorem extractTokens_clean (toks : List (List Char)) (tl : List Char)
    (hclean : ∀ t ∈ toks ++ [tl], t ≠ [] ∧
      ∀ c ∈ t, c ≠ '\\' ∧ c ≠ '"' ∧ isRustWs c = false) :
    extractTokensForEnvDirective (joinSep [' '] (toks ++ [tl])) =
      (toks ++ [tl], if (toks ++ [tl]).any (fun t => '=' ∈ t) then .eq else .noDelim) := by
  unfold extractTokensForEnvDirective
  rw [envScan_join toks tl hclean [] .noDelim]
  dsimp only
  have htl := hclean tl (by simp)
  have hemp : tl.isEmpty = false := by
    cases hx : tl with
    | nil => exact absurd hx htl.1
    | cons y ys => rfl
  have hwtrim : rustTrim tl = tl := by
    apply rustTrim_id
    intro c hc
    exact (htl.2 c hc).2.2
  rw [hemp]
  simp [hwtrim]

/-! ## Claim C3: the canonical directive class -/

/-- `c.toNat` differs from any byte whose character `c` is not. -/
theorem char_byte_ne (c : Char) (x : Nat) (h : ¬(c = Char.ofNat x)) : c.toNat ≠ x := by
  intro hh
  apply h
  rw [← Char.ofNat_toNat c, hh]

theorem rustWs_byte_ne (c : Char) (hw : isRustWs c = false) :
    c.toNat ≠ 10 ∧ c.toNat ≠ 32 := by
  constructor
  · intro hh
    have : isRustWs c = true := by
      unfold isRustWs
      rw [hh]
      decide
    rw [this] at hw
    cases hw
  · intro hh
    have : isRustWs c = true := by
      unfold isRustWs
      rw [hh]
      decide
    rw [this] at hw
    cases hw

/-- Canonical ENV keys: nonempty, ASCII, no whitespace, no backslash, no
quote, no `=`, no `#`. -/
def envKeyOk (k : List Char) : Bool :=
  !k.isEmpty && k.all (fun c =>
    c.toNat < 128 && !isRustWs c && c ≠ '\\' && c ≠ '"' && c ≠ '=' && c ≠ '#')

/-- Canonical ENV values: ASCII, no whitespace, no backslash, no quote
(`=` is allowed). -/
def envValOk (v : List Char) : Bool :=
  v.all (fun c => c.toNat < 128 && !isRustWs c && c ≠ '\\' && c ≠ '"')

/-- Canonical ENV variable lists: either a single space-delimited variable
whose value is a single word without `=`, or a nonempty all-`=`-delimited
list. -/
def envVarsOk : List EnvVar → Bool
  | [] => false
  | [⟨k, v, .noDelim⟩] =>
    envKeyOk k && !v.isEmpty && envValOk v && v.all (fun c => c ≠ '=')
  | vs => vs.all (fun x => x.delim = .eq && envKeyOk x.key && envValOk x.val)

/-- Canonical raw argument buffers (`RUN`/`USER`/`FROM`/unknown keywords):
nonempty ASCII bytes without newline or backslash, not starting with a
space or `#`. -/
def rawArgOk (b : List Nat) : Bool :=
  match b with
  | [] => false
  | b0 :: _ => b0 ≠ 32 && b0 ≠ 35 && b.all (fun x => x < 128 && x ≠ 10 && x ≠ 92)

/-- Canonical unknown keywords: head alphabetic, ASCII without space or
newline, and not one of the known keywords (case-insensitively). -/
def otherNameOk (name : List Char) : Bool :=
  match name with
  | [] => false
  | c :: _ =>
    isAsciiAlpha c.toNat &&
    name.all (fun c => c.toNat < 128 && c ≠ ' ' && c ≠ '\n') &&
    !decide (name.map Char.toUpper ∈
      [("ENTRYPOINT").data, ("CMD").data, ("EXPOSE").data, ("RUN").data,
       ("USER").data, ("ENV").data, ("FROM").data])

/-- Canonical exec-form tokens: ASCII without comma, double quote, backslash
or newline. -/
def execTokOk (t : List Char) : Bool :=
  t.all (fun c => c.toNat < 128 && c ≠ ',' && c ≠ '"' && c ≠ '\\' && c ≠ '\n')

/-- Canonical shell-form tokens: nonempty ASCII without space, backslash or
newline. -/
def shellTokOk (t : List Char) : Bool :=
  !t.isEmpty && t.all (fun c => c.toNat < 128 && c ≠ ' ' && c ≠ '\\' && c ≠ '\n')

/-- Canonical `ENTRYPOINT`/`CMD` payloads: a resolved mode; in shell form a
nonempty token list whose first token does not begin with `[` or `#`; in
exec form a nonempty token list of clean tokens. -/
def epCmdOk : Option Mode → List (List Char) → Bool
  | none, _ => false
  | some .shell, [] => false
  | some .shell, t :: ts =>
    (t :: ts).all shellTokOk &&
    (match t with
     | [] => false
     | c :: _ => c ≠ '[' && c ≠ '#')
  | some .exec, ts => !ts.isEmpty && ts.all execTokOk

/-- The class of directives on which the decoder inverts the renderer. -/
def canonicalDirective : Directive → Bool
  | .add _ _ => false
  | .comment _ => false
  | .expose none => false
  | .expose (some p) => decide (p ≤ 65535)
  | .run b => rawArgOk b
  | .user b => rawArgOk b
  | .fromD b => rawArgOk b
  | .other name b => otherNameOk name && rawArgOk b
  | .entrypoint m ts => epCmdOk m ts
  | .cmd m ts => epCmdOk m ts
  | .env vars => envVarsOk vars

theorem envKeyOk_facts (k : List Char) (h : envKeyOk k = true) :
    k ≠ [] ∧ ∀ c ∈ k, c.toNat < 128 ∧ isRustWs c = false ∧
      c ≠ '\\' ∧ c ≠ '"' ∧ c ≠ '=' ∧ c ≠ '#' := by
  unfold envKeyOk at h
  rw [Bool.and_eq_true] at h
  obtain ⟨h1, h2⟩ := h
  constructor
  · intro hk
    subst hk
    simp at h1
  · intro c hc
    have hh := List.all_eq_true.mp h2 c hc
    simp only [Bool.and_eq_true, decide_eq_true_eq, Bool.not_eq_true'] at hh
    tauto

theorem envValOk_facts (v : List Char) (h : envValOk v = true) :
    ∀ c ∈ v, c.toNat < 128 ∧ isRustWs c = false ∧ c ≠ '\\' ∧ c ≠ '"' := by
  intro c hc
  have hh := List.all_eq_true.mp h c hc
  simp only [Bool.and_eq_true, decide_eq_true_eq, Bool.not_eq_true'] at hh
  tauto

theorem envVar_render_eq (v : EnvVar) (hv : v.delim = .eq) :
    EnvVar.render v = v.key ++ '=' :: v.val := by
  unfold EnvVar.render
  rw [hv]
  dsimp only
  rw [List.append_assoc]
  rfl

theorem envVar_render_clean (v : EnvVar) (hd : v.delim = .eq)
    (hk : envKeyOk v.key = true) (hval : envValOk v.val = true) :
    EnvVar.render v ≠ [] ∧
      ∀ c ∈ EnvVar.render v, c ≠ '\\' ∧ c ≠ '"' ∧ isRustWs c = false := by
  rw [envVar_render_eq v hd]
  obtain ⟨hk1, hk2⟩ := envKeyOk_facts _ hk
  have hv2 := envValOk_facts _ hval
  constructor
  · intro hh
    rcases List.append_eq_nil.mp hh with ⟨_, h2⟩
    cases h2
  · intro c hc
    rcases List.mem_append.mp hc with hm | hm
    · obtain ⟨_, hw, hbs, hq, _, _⟩ := hk2 c hm
      exact ⟨hbs, hq, hw⟩
    · rcases List.mem_cons.mp hm with rfl | hm'
      · exact ⟨by decide, by decide, by decide⟩
      · obtain ⟨_, hw, hbs, hq⟩ := hv2 c hm'
        exact ⟨hbs, hq, hw⟩

theorem parseEnvDirective_eq_vars (vars : List EnvVar) (hne : vars ≠ [])
    (hall : ∀ v ∈ vars, v.delim = .eq ∧ envKeyOk v.key = true ∧ envValOk v.val = true) :
    parseEnvDirective (joinSep [' '] (vars.map EnvVar.render)) = .ok vars := by
  rcases List.eq_nil_or_concat vars with rfl | ⟨vs, vl, rfl⟩
  · exact absurd rfl hne
  · rw [List.concat_eq_append] at hall ⊢
    rw [List.map_append, List.map_singleton]
    have hclean : ∀ t ∈ vs.map EnvVar.render ++ [EnvVar.render vl], t ≠ [] ∧
        ∀ c ∈ t, c ≠ '\\' ∧ c ≠ '"' ∧ isRustWs c = false := by
      intro t htk
      rcases List.mem_append.mp htk with hm | hm
      · obtain ⟨v, hv, rfl⟩ := List.mem_map.mp hm
        obtain ⟨hd, hkk, hvv⟩ := hall v (List.mem_append_left _ hv)
        exact envVar_render_clean v hd hkk hvv
      · rw [List.mem_singleton] at hm
        subst hm
        obtain ⟨hd, hkk, hvv⟩ := hall vl (List.mem_append_right _ (by simp))
        exact envVar_render_clean vl hd hkk hvv
    unfold parseEnvDirective
    rw [extractTokens_clean (vs.map EnvVar.render) (EnvVar.render vl) hclean]
    dsimp only
    have hvl := hall vl (List.mem_append_right _ (by simp))
    have hany : ((vs.map EnvVar.render ++ [EnvVar.render vl]).any
        (fun t => '=' ∈ t)) = true := by
      rw [List.any_append]
      have h2 : ([EnvVar.render vl].any fun t => decide ('=' ∈ t)) = true := by
        simp [envVar_render_eq vl hvl.1]
      rw [h2, Bool.or_true]
    have hdelim : (if ((vs.map EnvVar.render ++ [EnvVar.render vl]).any
        (fun t => '=' ∈ t)) then Delimiter.eq else Delimiter.noDelim) = Delimiter.eq := by
      rw [hany]
      rfl
    rw [hdelim]
    dsimp only
    have hms : List.map EnvVar.render vs ++ [EnvVar.render vl] =
        List.map EnvVar.render (vs ++ [vl]) := by
      rw [List.map_append, List.map_singleton]
    rw [hms]
    rw [parseEqTokens_all _ (by
      intro t ht
      obtain ⟨v, hv, rfl⟩ := List.mem_map.mp ht
      obtain ⟨hd, _, _⟩ := hall v hv
      rw [envVar_render_eq v hd]
      exact List.mem_append_right _ (List.mem_cons_self _ _))]
    congr 1
    rw [List.map_map]
    have hmap : ∀ v ∈ vs ++ [vl],
        ((fun t => (⟨(splitFirstEq t).1, ((splitFirstEq t).2).getD [], .eq⟩ : EnvVar)) ∘
          EnvVar.render) v = id v := by
      intro v hv
      obtain ⟨hd, hkk, hvv⟩ := hall v hv
      obtain ⟨hk1, hk2⟩ := envKeyOk_facts _ hkk
      have hkeq : '=' ∉ v.key := fun hm => (hk2 '=' hm).2.2.2.2.1 rfl
      simp only [Function.comp]
      rw [envVar_render_eq v hd, splitFirstEq_prefix v.key v.val hkeq]
      cases v with
      | mk k vv d =>
        dsimp only at hd ⊢
        subst hd
        rfl
    rw [List.map_congr_left hmap, List.map_id]

theorem parseEnvDirective_noDelim (k v : List Char)
    (hk : envKeyOk k = true) (hvne : v.isEmpty = false) (hval : envValOk v = true)
    (hveq : v.all (fun c => c ≠ '=') = true) :
    parseEnvDirective (EnvVar.render ⟨k, v, .noDelim⟩) = .ok [⟨k, v, .noDelim⟩] := by
  obtain ⟨hk1, hk2⟩ := envKeyOk_facts _ hk
  have hv2 := envValOk_facts _ hval
  have hvne' : v ≠ [] := by
    intro hh
    subst hh
    cases hvne
  have hrender : EnvVar.render ⟨k, v, .noDelim⟩ = joinSep [' '] ([k] ++ [v]) := rfl
  rw [hrender]
  have hclean : ∀ t ∈ [k] ++ [v], t ≠ [] ∧
      ∀ c ∈ t, c ≠ '\\' ∧ c ≠ '"' ∧ isRustWs c = false := by
    intro t ht
    rcases List.mem_append.mp ht with hm | hm
    · rw [List.mem_singleton] at hm
      subst hm
      refine ⟨hk1, ?_⟩
      intro c hc
      obtain ⟨_, hw, hbs, hq, _, _⟩ := hk2 c hc
      exact ⟨hbs, hq, hw⟩
    · rw [List.mem_singleton] at hm
      subst hm
      refine ⟨hvne', ?_⟩
      intro c hc
      obtain ⟨_, hw, hbs, hq⟩ := hv2 c hc
      exact ⟨hbs, hq, hw⟩
  unfold parseEnvDirective
  rw [extractTokens_clean [k] v hclean]
  dsimp only
  have hnoany : (([k] ++ [v]).any (fun t => '=' ∈ t)) = false := by
    rw [Bool.eq_false_iff]
    intro hcon
    rw [List.any_eq_true] at hcon
    obtain ⟨t, ht, hmem⟩ := hcon
    rw [decide_eq_true_eq] at hmem
    rcases List.mem_append.mp ht with hm | hm
    · rw [List.mem_singleton] at hm
      subst hm
      exact (hk2 '=' hmem).2.2.2.2.1 rfl
    · rw [List.mem_singleton] at hm
      subst hm
      have := List.all_eq_true.mp hveq '=' hmem
      simp at this
  have hdelim : (if (([k] ++ [v]).any (fun t => '=' ∈ t)) then Delimiter.eq
      else Delimiter.noDelim) = Delimiter.noDelim := by
    rw [hnoany]
    rfl
  rw [hdelim]
  dsimp only
  rw [if_neg (by simp)]
  rfl

theorem joinSep_mem {α : Type} (sep : List α) (ls : List (List α)) (c : α) :
    c ∈ joinSep sep ls → c ∈ sep ∨ ∃ l ∈ ls, c ∈ l := by
  induction ls with
  | nil => intro h; cases h
  | cons x t ih =>
    intro h
    cases t with
    | nil =>
      right
      exact ⟨x, List.mem_cons_self x [], h⟩
    | cons y u =>
      rw [show joinSep sep (x :: y :: u) = x ++ sep ++ joinSep sep (y :: u) from rfl] at h
      rcases List.mem_append.mp h with h1 | h1
      · rcases List.mem_append.mp h1 with h2 | h2
        · exact Or.inr ⟨x, List.mem_cons_self x _, h2⟩
        · exact Or.inl h2
      · rcases ih h1 with h2 | ⟨l, hl, hc⟩
        · exact Or.inl h2
        · exact Or.inr ⟨l, List.mem_cons_of_mem _ hl, hc⟩

theorem strBytes_joinSep (sep : List Char) (ts : List (List Char)) :
    strBytes (joinSep sep ts) = joinSep (strBytes sep) (ts.map strBytes) := by
  induction ts with
  | nil => rfl
  | cons t ts' ih =>
    cases ts' with
    | nil => rfl
    | cons u us =>
      rw [show joinSep sep (t :: u :: us) = t ++ sep ++ joinSep sep (u :: us) from rfl,
        strBytes_append, strBytes_append, ih]
      rfl

theorem filterMap_utf8_strBytes (l : List (List Char))
    (h : ∀ t ∈ l, ∀ c ∈ t, c.toNat < 128) :
    (l.map strBytes).filterMap utf8Decode = l := by
  induction l with
  | nil => rfl
  | cons t ts ih =>
    rw [List.map_cons, List.filterMap_cons,
      utf8Decode_strBytes t (h t (List.mem_cons_self t ts))]
    rw [ih (fun u hu => h u (List.mem_cons_of_mem _ hu))]

/-- The `RUN`/`USER`/`FROM`/`Other` argument phase: a canonical raw buffer
followed by a newline accumulates byte-for-byte and emits via
`set_arguments`. -/
theorem roundTrip_raw_line (d d2 : Directive) (hcd : (d.isCmd || d.isEntrypoint) = false)
    (b : List Nat) (hb : rawArgOk b = true)
    (hset : d.setArguments b = .ok d2) :
    foldB (some (.directiveArguments ⟨d, none, .observe, []⟩)) (b ++ [10]) =
      .ok (none, [d2]) := by
  rcases hB : b with _ | ⟨b0, bs⟩
  · rw [hB] at hb; cases hb
  · rw [hB] at hb hset
    unfold rawArgOk at hb
    simp only [Bool.and_eq_true, decide_eq_true_eq, List.all_eq_true] at hb
    have h32 : b0 ≠ 32 := by tauto
    have h35 : b0 ≠ 35 := by tauto
    have hall : ∀ x ∈ b0 :: bs, x < 128 ∧ x ≠ 10 ∧ x ≠ 92 := by
      intro x hx
      have h3 := hb.2 x hx
      tauto
    obtain ⟨_, h10, h92⟩ := hall b0 (List.mem_cons_self b0 bs)
    apply foldB_line d d2 b0 bs h10 h92 h32 h35
    · intro x hx
      obtain ⟨_, hx10, hx92⟩ := hall x (List.mem_cons_of_mem _ hx)
      exact ⟨hx10, hx92⟩
    · rw [show (if (d.isCmd || d.isEntrypoint) = true then
        d.setMode (modeFromByte b0) else d) = d from by rw [hcd]; rfl]
      exact hset

/-- The `EXPOSE` argument phase on the decimal rendering of a valid port. -/
theorem roundTrip_expose_line (p : Nat) (hp : p ≤ 65535) :
    foldB (some (.directiveArguments ⟨.expose none, none, .observe, []⟩))
      (strBytes (decRepr p) ++ [10]) = .ok (none, [.expose (some p)]) := by
  have hascii : ∀ c ∈ decRepr p, c.toNat < 128 := by
    intro c hc
    have := decRepr_toNat_bounds p c hc
    omega
  have hsetX : (Directive.expose none).setArguments (List.map Char.toNat (decRepr p)) =
      .ok (.expose (some p)) := by
    unfold Directive.setArguments
    rw [show List.map Char.toNat (decRepr p) = strBytes (decRepr p) from
      (strBytes_eq_map _ hascii).symm]
    rw [utf8Decode_strBytes _ hascii]
    dsimp only
    rw [parseU16_decRepr p hp]
  rw [strBytes_eq_map _ hascii]
  rcases hD : decRepr p with _ | ⟨c, t⟩
  · exact absurd hD (decRepr_ne_nil p)
  · have hbound : ∀ x ∈ decRepr p, 48 ≤ x.toNat ∧ x.toNat ≤ 57 := decRepr_toNat_bounds p
    rw [hD] at hbound hsetX
    rw [List.map_cons]
    obtain ⟨hc1, hc2⟩ := hbound c (List.mem_cons_self c t)
    apply foldB_line _ _ _ _ (by omega) (by omega) (by omega) (by omega)
    · intro x hx
      obtain ⟨c2, hc2mem, rfl⟩ := List.mem_map.mp hx
      obtain ⟨x1, x2⟩ := hbound c2 (List.mem_cons_of_mem _ hc2mem)
      exact ⟨by omega, by omega⟩
    · rw [show (if ((Directive.expose none).isCmd ||
          (Directive.expose none).isEntrypoint) = true
        then (Directive.expose none).setMode (modeFromByte c.toNat)
        else Directive.expose none) = Directive.expose none from rfl]
      exact hsetX

theorem joinSep_cons_head {α : Type} (sep : List α) (x : α) (xs : List α)
    (rest : List (List α)) :
    ∃ tail, joinSep sep ((x :: xs) :: rest) = x :: tail ∧
      ∀ y ∈ tail, y ∈ xs ∨ y ∈ sep ∨ ∃ l ∈ rest, y ∈ l := by
  cases rest with
  | nil => exact ⟨xs, rfl, fun y hy => Or.inl hy⟩
  | cons r rs =>
    refine ⟨xs ++ sep ++ joinSep sep (r :: rs), rfl, ?_⟩
    intro y hy
    rcases List.mem_append.mp hy with h1 | h1
    · rcases List.mem_append.mp h1 with h2 | h2
      · exact Or.inl h2
      · exact Or.inr (Or.inl h2)
    · rcases joinSep_mem sep (r :: rs) y h1 with h2 | ⟨l, hl, hyl⟩
      · exact Or.inr (Or.inl h2)
      · exact Or.inr (Or.inr ⟨l, hl, hyl⟩)

theorem roundTrip_epcmd_shell (mk : Option Mode → List (List Char) → Directive)
    (hmk : mk = Directive.entrypoint ∨ mk = Directive.cmd)
    (c : Char) (t' : List Char) (ts : List (List Char))
    (hall : ∀ u ∈ (c :: t') :: ts, shellTokOk u = true)
    (hc91 : c ≠ '[') (hc35 : c ≠ '#') :
    foldB (some (.directiveArguments ⟨mk none [], none, .observe, []⟩))
      (strBytes (joinSep [' '] ((c :: t') :: ts)) ++ [10]) =
      .ok (none, [mk (some .shell) ((c :: t') :: ts)]) := by
  have hfacts : ∀ u ∈ (c :: t') :: ts, ∀ ch ∈ u,
      ch.toNat < 128 ∧ ch ≠ ' ' ∧ ch ≠ '\\' ∧ ch ≠ '\n' := by
    intro u hu ch hch
    have hh := hall u hu
    unfold shellTokOk at hh
    simp only [Bool.and_eq_true, decide_eq_true_eq, List.all_eq_true] at hh
    have h4 := hh.2 ch hch
    tauto
  have hascii : ∀ u ∈ (c :: t') :: ts, ∀ ch ∈ u, ch.toNat < 128 :=
    fun u hu ch hch => (hfacts u hu ch hch).1
  have hno32 : ∀ u ∈ (c :: t') :: ts, (32 : Nat) ∉ strBytes u := by
    intro u hu hmem
    rw [strBytes_eq_map u (hascii u hu)] at hmem
    obtain ⟨ch, hch, hcheq⟩ := List.mem_map.mp hmem
    exact (hfacts u hu ch hch).2.1 (by rw [← Char.ofNat_toNat ch, hcheq])
  have hclean : ∀ u ∈ (c :: t') :: ts, ∀ y ∈ strBytes u, y ≠ 10 ∧ y ≠ 92 := by
    intro u hu y hy
    rw [strBytes_eq_map u (hascii u hu)] at hy
    obtain ⟨ch, hch, rfl⟩ := List.mem_map.mp hy
    obtain ⟨_, _, hbs, hnl⟩ := hfacts u hu ch hch
    constructor
    · exact char_byte_ne ch 10 (by intro hh; apply hnl; rw [hh])
    · exact char_byte_ne ch 92 (by intro hh; apply hbs; rw [hh])
  -- the rendered bytes
  rw [strBytes_joinSep, show strBytes [' '] = [32] from by decide]
  rw [List.map_cons, strBytes_eq_map _ (hascii _ (List.mem_cons_self _ _)), List.map_cons]
  obtain ⟨tail, htail, htmem⟩ := joinSep_cons_head [32] c.toNat (List.map Char.toNat t')
    (List.map strBytes ts)
  rw [htail]
  -- head byte facts
  obtain ⟨hc128, hcsp, hcbs, hcnl⟩ := hfacts (c :: t') (List.mem_cons_self _ _) c
    (List.mem_cons_self c t')
  have hb10 : c.toNat ≠ 10 := char_byte_ne c 10 (by intro hh; apply hcnl; rw [hh])
  have hb92 : c.toNat ≠ 92 := char_byte_ne c 92 (by intro hh; apply hcbs; rw [hh])
  have hb32 : c.toNat ≠ 32 := char_byte_ne c 32 (by intro hh; apply hcsp; rw [hh])
  have hb35 : c.toNat ≠ 35 := char_byte_ne c 35 (by intro hh; apply hc35; rw [hh])
  have hb91 : c.toNat ≠ 91 := char_byte_ne c 91 (by intro hh; apply hc91; rw [hh])
  apply foldB_line _ _ _ _ hb10 hb92 hb32 hb35
  · intro y hy
    rcases htmem y hy with h1 | h1 | ⟨l, hl, hyl⟩
    · obtain ⟨ch, hch, rfl⟩ := List.mem_map.mp h1
      have := hclean (c :: t') (List.mem_cons_self _ _) ch.toNat (by
        rw [strBytes_eq_map _ (hascii _ (List.mem_cons_self _ _))]
        exact List.mem_map_of_mem _ (List.mem_cons_of_mem _ hch))
      exact this
    · rw [List.mem_singleton] at h1
      subst h1
      exact ⟨by omega, by omega⟩
    · obtain ⟨u, hu, rfl⟩ := List.mem_map.mp hl
      exact hclean u (List.mem_cons_of_mem _ hu) y hyl
  · -- mode and set_arguments
    have hcmdep : ((mk none []).isCmd || (mk none []).isEntrypoint) = true := by
      rcases hmk with rfl | rfl <;> rfl
    rw [if_pos hcmdep]
    have hmode : modeFromByte c.toNat = Mode.shell := by
      unfold modeFromByte
      rw [if_neg hb91]
    rw [hmode]
    have hsetm : (mk none []).setMode Mode.shell = mk (some .shell) [] := by
      rcases hmk with rfl | rfl <;> rfl
    rw [hsetm]
    -- restore the byte list shape
    have hback : c.toNat :: tail =
        joinSep [32] (List.map strBytes ((c :: t') :: ts)) := by
      rw [List.map_cons, strBytes_eq_map _ (hascii _ (List.mem_cons_self _ _)),
        List.map_cons, htail]
    rw [hback]
    have hsplit : rsplit 32 (joinSep [32] (List.map strBytes ((c :: t') :: ts))) =
        List.map strBytes ((c :: t') :: ts) := by
      rw [List.map_cons]
      apply rsplit_join 32 (List.map strBytes ts) (strBytes (c :: t'))
        (hno32 _ (List.mem_cons_self _ _))
      intro q hq
      obtain ⟨u, hu, rfl⟩ := List.mem_map.mp hq
      exact hno32 u (List.mem_cons_of_mem _ hu)
    have hparse : parseEpCmdTokens (some Mode.shell)
        (joinSep [32] (List.map strBytes ((c :: t') :: ts))) =
        .ok ((c :: t') :: ts) := by
      unfold parseEpCmdTokens
      dsimp only
      rw [if_neg (show ¬(Mode.shell = Mode.exec) from by decide)]
      rw [hsplit, filterMap_utf8_strBytes _ hascii]
    rcases hmk with rfl | rfl
    · unfold Directive.setArguments
      dsimp only
      rw [hparse]
      rfl
    · unfold Directive.setArguments
      dsimp only
      rw [hparse]
      rfl

theorem exec_pieces_tail (us : List (List Char))
    (hfacts : ∀ t ∈ us, ∀ ch ∈ t, ch.toNat < 128) :
    (((us.map (fun t => ['"'] ++ t ++ ['"'])).map strBytes).map (fun q => 32 :: q)).filterMap
      (fun p => (utf8Decode p).map (fun tok => rustStripQuotes (rustTrim tok))) = us := by
  induction us with
  | nil => rfl
  | cons v vs ih =>
    have hF : (utf8Decode ((32 : Nat) :: strBytes (['"'] ++ v ++ ['"']))).map
        (fun tok => rustStripQuotes (rustTrim tok)) = some v := by
      rw [show (32 : Nat) :: strBytes (['"'] ++ v ++ ['"']) =
        strBytes (' ' :: (['"'] ++ v ++ ['"'])) from rfl]
      rw [utf8Decode_strBytes _ (by
        intro ch hch
        rcases List.mem_cons.mp hch with rfl | hm
        · decide
        · rcases List.mem_append.mp hm with hm2 | hm2
          · rcases List.mem_append.mp hm2 with hm3 | hm3
            · rw [List.mem_singleton] at hm3
              subst hm3
              decide
            · exact hfacts v (List.mem_cons_self v vs) ch hm3
          · rw [List.mem_singleton] at hm2
            subst hm2
            decide)]
      rw [Option.map_some']
      rw [rustTrim_cons_space]
      rw [show (['"'] ++ v ++ ['"']) = '"' :: (v ++ ['"']) from rfl]
      rw [rustTrim_quoted, rustStripQuotes_wrap]
    simp only [List.map_cons, List.filterMap_cons, hF]
    rw [ih (fun t ht ch hch => hfacts t (List.mem_cons_of_mem _ ht) ch hch)]

theorem roundTrip_epcmd_exec (mk : Option Mode → List (List Char) → Directive)
    (hmk : mk = Directive.entrypoint ∨ mk = Directive.cmd)
    (u : List Char) (us : List (List Char))
    (hall : ∀ t ∈ u :: us, execTokOk t = true) :
    foldB (some (.directiveArguments ⟨mk none [], none, .observe, []⟩))
      (strBytes (epCmdText (some .exec) (u :: us)) ++ [10]) =
      .ok (none, [mk (some .exec) (u :: us)]) := by
  have hfacts : ∀ t ∈ u :: us, ∀ ch ∈ t,
      ch.toNat < 128 ∧ ch ≠ ',' ∧ ch ≠ '"' ∧ ch ≠ '\\' ∧ ch ≠ '\n' := by
    intro t ht ch hch
    have hh := hall t ht
    unfold execTokOk at hh
    rw [List.all_eq_true] at hh
    have h5 := hh ch hch
    simp only [Bool.and_eq_true, decide_eq_true_eq] at h5
    tauto
  have hqascii : ∀ t ∈ u :: us, ∀ ch ∈ (['"'] ++ t ++ ['"']), ch.toNat < 128 := by
    intro t ht ch hch
    rcases List.mem_append.mp hch with hm | hm
    · rcases List.mem_append.mp hm with hm2 | hm2
      · rw [List.mem_singleton] at hm2
        subst hm2
        decide
      · exact (hfacts t ht ch hm2).1
    · rw [List.mem_singleton] at hm
      subst hm
      decide
  have hqno44 : ∀ t ∈ u :: us, (44 : Nat) ∉ strBytes (['"'] ++ t ++ ['"']) := by
    intro t ht hmem
    rw [strBytes_eq_map _ (hqascii t ht)] at hmem
    obtain ⟨ch, hch, hcheq⟩ := List.mem_map.mp hmem
    have hch44 : ch = ',' := by rw [← Char.ofNat_toNat ch, hcheq]
    subst hch44
    rcases List.mem_append.mp hch with hm | hm
    · rcases List.mem_append.mp hm with hm2 | hm2
      · rw [List.mem_singleton] at hm2
        cases hm2
      · exact (hfacts t ht ',' hm2).2.1 rfl
    · rw [List.mem_singleton] at hm
      cases hm
  have hqclean : ∀ t ∈ u :: us, ∀ y ∈ strBytes (['"'] ++ t ++ ['"']), y ≠ 10 ∧ y ≠ 92 := by
    intro t ht y hy
    rw [strBytes_eq_map _ (hqascii t ht)] at hy
    obtain ⟨ch, hch, rfl⟩ := List.mem_map.mp hy
    have hq : ch = '"' ∨ ch ∈ t := by
      rcases List.mem_append.mp hch with hm | hm
      · rcases List.mem_append.mp hm with hm2 | hm2
        · rw [List.mem_singleton] at hm2
          exact Or.inl hm2
        · exact Or.inr hm2
      · rw [List.mem_singleton] at hm
        exact Or.inl hm
    rcases hq with rfl | hm
    · exact ⟨by decide, by decide⟩
    · obtain ⟨_, _, _, hbs, hnl⟩ := hfacts t ht ch hm
      constructor
      · exact char_byte_ne ch 10 (by intro hh; apply hnl; rw [hh])
      · exact char_byte_ne ch 92 (by intro hh; apply hbs; rw [hh])
  have htext : epCmdText (some .exec) (u :: us) =
      ['['] ++ joinSep (String.data (", "))
        ((u :: us).map (fun t => ['"'] ++ t ++ ['"'])) ++ [']'] := by
    unfold epCmdText
    rw [if_pos rfl]
  have hbytes : strBytes (epCmdText (some .exec) (u :: us)) =
      91 :: (joinSep [44, 32] (((u :: us).map (fun t => ['"'] ++ t ++ ['"'])).map strBytes)
        ++ [93]) := by
    rw [htext, strBytes_append, strBytes_append, strBytes_joinSep]
    rw [show strBytes (String.data (", ")) = [44, 32] from by decide]
    rfl
  rw [hbytes]
  apply foldB_line _ _ 91
    (joinSep [44, 32] (((u :: us).map (fun t => ['"'] ++ t ++ ['"'])).map strBytes) ++ [93])
    (by omega) (by omega) (by omega) (by omega)
  · intro y hy
    rcases List.mem_append.mp hy with hm | hm
    · rcases joinSep_mem _ _ _ hm with h1 | ⟨l, hl, hyl⟩
      · rcases List.mem_cons.mp h1 with rfl | h2
        · exact ⟨by omega, by omega⟩
        · rw [List.mem_singleton] at h2
          subst h2
          exact ⟨by omega, by omega⟩
      · obtain ⟨q, hq, rfl⟩ := List.mem_map.mp hl
        obtain ⟨t, ht, rfl⟩ := List.mem_map.mp hq
        exact hqclean t ht y hyl
    · rw [List.mem_singleton] at hm
      subst hm
      exact ⟨by omega, by omega⟩
  · have hcmdep : ((mk none []).isCmd || (mk none []).isEntrypoint) = true := by
      rcases hmk with rfl | rfl <;> rfl
    rw [if_pos hcmdep]
    have hmode : modeFromByte 91 = Mode.exec := rfl
    rw [hmode]
    have hsetm : (mk none []).setMode Mode.exec = mk (some .exec) [] := by
      rcases hmk with rfl | rfl <;> rfl
    rw [hsetm]
    have hparse : parseEpCmdTokens (some Mode.exec)
        (91 :: (joinSep [44, 32]
          (((u :: us).map (fun t => ['"'] ++ t ++ ['"'])).map strBytes) ++ [93])) =
        .ok (u :: us) := by
      unfold parseEpCmdTokens
      dsimp only
      rw [if_pos rfl, if_neg (by simp)]
      rw [show ((91 : Nat) :: (joinSep [44, 32]
          (((u :: us).map (fun t => ['"'] ++ t ++ ['"'])).map strBytes) ++ [93])).drop 1 =
        joinSep [44, 32] (((u :: us).map (fun t => ['"'] ++ t ++ ['"'])).map strBytes)
          ++ [93] from rfl]
      rw [List.dropLast_concat]
      rw [List.map_cons, List.map_cons]
      rw [rsplit_join_pair _ _ (hqno44 u (List.mem_cons_self u us)) (by
        intro r hr
        obtain ⟨q, hq, rfl⟩ := List.mem_map.mp hr
        obtain ⟨t, ht, rfl⟩ := List.mem_map.mp hq
        exact hqno44 t (List.mem_cons_of_mem _ ht))]
      have hF : (utf8Decode (strBytes (['"'] ++ u ++ ['"']))).map
          (fun tok => rustStripQuotes (rustTrim tok)) = some u := by
        rw [utf8Decode_strBytes _ (hqascii u (List.mem_cons_self u us))]
        rw [Option.map_some']
        rw [show (['"'] ++ u ++ ['"']) = '"' :: (u ++ ['"']) from rfl]
        rw [rustTrim_quoted, rustStripQuotes_wrap]
      simp only [List.filterMap_cons, hF]
      rw [exec_pieces_tail us (fun t ht ch hch => (hfacts t (List.mem_cons_of_mem _ ht) ch hch).1)]
    rcases hmk with rfl | rfl
    · unfold Directive.setArguments
      dsimp only
      rw [hparse]
      rfl
    · unfold Directive.setArguments
      dsimp only
      rw [hparse]
      rfl

theorem envVar_render_noDelim (v : EnvVar) (hv : v.delim = .noDelim) :
    EnvVar.render v = v.key ++ ' ' :: v.val := by
  unfold EnvVar.render
  rw [hv]
  dsimp only
  rw [List.append_assoc]
  rfl

theorem envVar_render_mem (v : EnvVar) (c : Char) (h : c ∈ EnvVar.render v) :
    c ∈ v.key ∨ c ∈ v.val ∨ c = '=' ∨ c = ' ' := by
  rcases hd : v.delim with _ | _
  · rw [envVar_render_eq v hd] at h
    rcases List.mem_append.mp h with h1 | h1
    · exact Or.inl h1
    · rcases List.mem_cons.mp h1 with rfl | h2
      · exact Or.inr (Or.inr (Or.inl rfl))
      · exact Or.inr (Or.inl h2)
  · rw [envVar_render_noDelim v hd] at h
    rcases List.mem_append.mp h with h1 | h1
    · exact Or.inl h1
    · rcases List.mem_cons.mp h1 with rfl | h2
      · exact Or.inr (Or.inr (Or.inr rfl))
      · exact Or.inr (Or.inl h2)

/-- The `ENV` argument phase in the all-`=` canonical form. -/
theorem roundTrip_env_eq_line (vars : List EnvVar) (hne : vars ≠ [])
    (hall : ∀ x ∈ vars, x.delim = .eq ∧ envKeyOk x.key = true ∧ envValOk x.val = true) :
    foldB (some (.directiveArguments ⟨.env [], none, .observe, []⟩))
      (strBytes (joinSep [' '] (vars.map EnvVar.render)) ++ [10]) =
      .ok (none, [.env vars]) := by
  have hchar : ∀ ch ∈ joinSep [' '] (vars.map EnvVar.render),
      ch.toNat < 128 ∧ ch.toNat ≠ 10 ∧ ch.toNat ≠ 92 ∧ ch ≠ '\n' := by
    intro ch hch
    rcases joinSep_mem _ _ _ hch with h1 | ⟨l, hl, hcl⟩
    · rw [List.mem_singleton] at h1
      subst h1
      exact ⟨by decide, by decide, by decide, by decide⟩
    · obtain ⟨r, hr, rfl⟩ := List.mem_map.mp hl
      obtain ⟨hd, hkk, hvv⟩ := hall r hr
      obtain ⟨_, hk2⟩ := envKeyOk_facts _ hkk
      have hv2 := envValOk_facts _ hvv
      rcases envVar_render_mem r ch hcl with hm | hm | rfl | rfl
      · obtain ⟨ha, hw, hbs, _, _, _⟩ := hk2 ch hm
        obtain ⟨w10, w32⟩ := rustWs_byte_ne ch hw
        refine ⟨ha, w10, char_byte_ne ch 92 (by intro hh; apply hbs; rw [hh]), ?_⟩
        intro hh
        subst hh
        exact absurd hw (by decide)
      · obtain ⟨ha, hw, hbs, _⟩ := hv2 ch hm
        obtain ⟨w10, w32⟩ := rustWs_byte_ne ch hw
        refine ⟨ha, w10, char_byte_ne ch 92 (by intro hh; apply hbs; rw [hh]), ?_⟩
        intro hh
        subst hh
        exact absurd hw (by decide)
      · exact ⟨by decide, by decide, by decide, by decide⟩
      · exact ⟨by decide, by decide, by decide, by decide⟩
  have hsetE : (Directive.env []).setArguments
      (strBytes (joinSep [' '] (vars.map EnvVar.render))) = .ok (.env vars) := by
    unfold Directive.setArguments
    dsimp only
    rw [utf8Decode_strBytes _ (fun ch hch => (hchar ch hch).1)]
    dsimp only
    rw [parseEnvDirective_eq_vars vars hne hall]
    rfl
  -- head decomposition
  obtain ⟨v0, rest, hV⟩ : ∃ v0 rest, vars = v0 :: rest := by
    cases vars with
    | nil => exact absurd rfl hne
    | cons a b => exact ⟨a, b, rfl⟩
  subst hV
  obtain ⟨hd, hkk, hvv⟩ := hall v0 (List.mem_cons_self _ _)
  obtain ⟨hk1, hk2⟩ := envKeyOk_facts _ hkk
  rcases hK : v0.key with _ | ⟨c, k'⟩
  · exact absurd hK hk1
  · have hr0 : EnvVar.render v0 = c :: (k' ++ '=' :: v0.val) := by
      rw [envVar_render_eq v0 hd, hK]
      rfl
    obtain ⟨tailc, htailc, htmemc⟩ :=
      joinSep_cons_head [' '] c (k' ++ '=' :: v0.val) (rest.map EnvVar.render)
    have hjoin : joinSep [' '] (List.map EnvVar.render (v0 :: rest)) = c :: tailc := by
      rw [List.map_cons, hr0, htailc]
    have hchar2 : ∀ ch ∈ c :: tailc,
        ch.toNat < 128 ∧ ch.toNat ≠ 10 ∧ ch.toNat ≠ 92 ∧ ch ≠ '\n' := by
      rw [← hjoin]
      exact hchar
    rw [hjoin]
    rw [strBytes_eq_map _ (fun ch hch => (hchar2 ch hch).1), List.map_cons]
    obtain ⟨_, hwk, hbsk, _, _, h35k⟩ := hk2 c (by rw [hK]; exact List.mem_cons_self c k')
    obtain ⟨w10, w32⟩ := rustWs_byte_ne c hwk
    apply foldB_line _ _ _ _ w10
      (char_byte_ne c 92 (by intro hh; apply hbsk; rw [hh])) w32
      (char_byte_ne c 35 (by intro hh; apply h35k; rw [hh]))
    · intro y hy
      obtain ⟨ch, hch, rfl⟩ := List.mem_map.mp hy
      have hc3 := hchar2 ch (List.mem_cons_of_mem _ hch)
      exact ⟨hc3.2.1, hc3.2.2.1⟩
    · rw [show (if ((Directive.env []).isCmd || (Directive.env []).isEntrypoint) = true
        then (Directive.env []).setMode (modeFromByte c.toNat)
        else Directive.env []) = Directive.env [] from rfl]
      rw [show c.toNat :: List.map Char.toNat tailc =
        List.map Char.toNat (c :: tailc) from rfl]
      rw [← strBytes_eq_map _ (fun ch hch => (hchar2 ch hch).1)]
      rw [← hjoin]
      exact hsetE

/-- The `ENV` argument phase in the single space-delimited canonical form. -/
theorem roundTrip_env_noDelim_line (k v : List Char)
    (hk : envKeyOk k = true) (hvne : v.isEmpty = false) (hval : envValOk v = true)
    (hveq : v.all (fun c => c ≠ '=') = true) :
    foldB (some (.directiveArguments ⟨.env [], none, .observe, []⟩))
      (strBytes (EnvVar.render ⟨k, v, .noDelim⟩) ++ [10]) =
      .ok (none, [.env [⟨k, v, .noDelim⟩]]) := by
  obtain ⟨hk1, hk2⟩ := envKeyOk_facts _ hk
  have hv2 := envValOk_facts _ hval
  have hchar : ∀ ch ∈ EnvVar.render ⟨k, v, .noDelim⟩,
      ch.toNat < 128 ∧ ch.toNat ≠ 10 ∧ ch.toNat ≠ 92 := by
    intro ch hch
    rcases envVar_render_mem _ ch hch with hm | hm | rfl | rfl
    · obtain ⟨ha, hw, hbs, _, _, _⟩ := hk2 ch hm
      obtain ⟨w10, _⟩ := rustWs_byte_ne ch hw
      exact ⟨ha, w10, char_byte_ne ch 92 (by intro hh; apply hbs; rw [hh])⟩
    · obtain ⟨ha, hw, hbs, _⟩ := hv2 ch hm
      obtain ⟨w10, _⟩ := rustWs_byte_ne ch hw
      exact ⟨ha, w10, char_byte_ne ch 92 (by intro hh; apply hbs; rw [hh])⟩
    · exact ⟨by decide, by decide, by decide⟩
    · exact ⟨by decide, by decide, by decide⟩
  have hsetE : (Directive.env []).setArguments
      (strBytes (EnvVar.render ⟨k, v, .noDelim⟩)) = .ok (.env [⟨k, v, .noDelim⟩]) := by
    unfold Directive.setArguments
    dsimp only
    rw [utf8Decode_strBytes _ (fun ch hch => (hchar ch hch).1)]
    dsimp only
    rw [parseEnvDirective_noDelim k v hk hvne hval hveq]
    rfl
  rcases hK : k with _ | ⟨c, k'⟩
  · exact absurd hK hk1
  · have hr0 : EnvVar.render ⟨c :: k', v, .noDelim⟩ = c :: (k' ++ ' ' :: v) := by
      rw [envVar_render_noDelim ⟨c :: k', v, .noDelim⟩ rfl]
      rfl
    rw [hr0]
    rw [hK] at hchar hsetE
    rw [hr0] at hchar hsetE
    rw [strBytes_eq_map _ (fun ch hch => (hchar ch hch).1), List.map_cons]
    obtain ⟨_, hwk, hbsk, _, _, h35k⟩ := hk2 c (by rw [hK]; exact List.mem_cons_self c k')
    obtain ⟨w10, w32⟩ := rustWs_byte_ne c hwk
    apply foldB_line _ _ _ _ w10
      (char_byte_ne c 92 (by intro hh; apply hbsk; rw [hh])) w32
      (char_byte_ne c 35 (by intro hh; apply h35k; rw [hh]))
    · intro y hy
      obtain ⟨ch, hch, rfl⟩ := List.mem_map.mp hy
      have := hchar ch (List.mem_cons_of_mem _ hch)
      exact ⟨this.2.1, this.2.2⟩
    · rw [show (if ((Directive.env []).isCmd || (Directive.env []).isEntrypoint) = true
        then (Directive.env []).setMode (modeFromByte c.toNat)
        else Directive.env []) = Directive.env [] from rfl]
      rw [show c.toNat :: List.map Char.toNat (k' ++ ' ' :: v) =
        List.map Char.toNat (c :: (k' ++ ' ' :: v)) from rfl]
      rw [← strBytes_eq_map _ (fun ch hch => (hchar ch hch).1)]
      exact hsetE

theorem rawArgOk_ascii (b : List Nat) (h : rawArgOk b = true) : ∀ x ∈ b, x < 128 := by
  rcases b with _ | ⟨b0, bs⟩
  · intro x hx
    cases hx
  · unfold rawArgOk at h
    simp only [Bool.and_eq_true, decide_eq_true_eq, List.all_eq_true] at h
    intro x hx
    have h3 := h.2 x hx
    tauto

theorem otherNameOk_facts (name : List Char) (h : otherNameOk name = true) :
    ∃ c cs, name = c :: cs ∧ isAsciiAlpha c.toNat = true ∧
      (∀ ch ∈ name, ch.toNat < 128 ∧ ch ≠ ' ' ∧ ch ≠ '\n') ∧
      name.map Char.toUpper ∉
        [("ENTRYPOINT").data, ("CMD").data, ("EXPOSE").data, ("RUN").data,
         ("USER").data, ("ENV").data, ("FROM").data] := by
  rcases name with _ | ⟨c, cs⟩
  · exact absurd h (by decide)
  · unfold otherNameOk at h
    simp only [Bool.and_eq_true, decide_eq_true_eq, List.all_eq_true,
      Bool.not_eq_true', decide_eq_false_iff_not] at h
    refine ⟨c, cs, rfl, by tauto, ?_, by tauto⟩
    intro ch hch
    have h3 := h.1.2 ch hch
    tauto

theorem directiveTryFrom_other (name : List Char) (h : otherNameOk name = true) :
    directiveTryFrom (List.map Char.toNat name) = .ok (.other name []) := by
  obtain ⟨c, cs, rfl, halpha, hchars, hnotin⟩ := otherNameOk_facts _ h
  have hascii : ∀ ch ∈ c :: cs, ch.toNat < 128 := fun ch hch => (hchars ch hch).1
  have hdec : utf8Decode (List.map Char.toNat (c :: cs)) = some (c :: cs) := by
    rw [← strBytes_eq_map _ hascii]
    exact utf8Decode_strBytes _ hascii
  unfold directiveTryFrom
  rw [hdec]
  dsimp only
  rw [if_neg (by
    intro hh
    injection hh with hh2
    rw [hh2] at halpha
    exact absurd halpha (by decide))]
  simp only [List.mem_cons, List.mem_singleton, not_or] at hnotin
  obtain ⟨n1, n2, n3, n4, n5, n6, n7, _⟩ := hnotin
  rw [if_neg n1, if_neg n2, if_neg n3, if_neg n4, if_neg n5, if_neg n6, if_neg n7]

theorem epCmdOk_shell_facts (t : List Char) (ts : List (List Char))
    (h : epCmdOk (some .shell) (t :: ts) = true) :
    (∀ u ∈ t :: ts, shellTokOk u = true) ∧ ∃ c t', t = c :: t' ∧ c ≠ '[' ∧ c ≠ '#' := by
  unfold epCmdOk at h
  rw [Bool.and_eq_true] at h
  constructor
  · exact List.all_eq_true.mp h.1
  · rcases t with _ | ⟨c, t'⟩
    · exact absurd h.2 (by decide)
    · have h2 := h.2
      simp only [Bool.and_eq_true, decide_eq_true_eq] at h2
      exact ⟨c, t', rfl, h2.1, h2.2⟩

theorem envVarsOk_eq_facts (k v : List Char) (rest : List EnvVar)
    (hv : envVarsOk (⟨k, v, .eq⟩ :: rest) = true) :
    ∀ x ∈ (⟨k, v, .eq⟩ : EnvVar) :: rest,
      x.delim = .eq ∧ envKeyOk x.key = true ∧ envValOk x.val = true := by
  cases rest with
  | nil =>
    unfold envVarsOk at hv
    rw [List.all_eq_true] at hv
    intro x hx
    have h3 := hv x hx
    simp only [Bool.and_eq_true, decide_eq_true_eq] at h3
    tauto
  | cons r rs =>
    unfold envVarsOk at hv
    rw [List.all_eq_true] at hv
    intro x hx
    have h3 := hv x hx
    simp only [Bool.and_eq_true, decide_eq_true_eq] at h3
    tauto

theorem epCmdText_shell (ts : List (List Char)) :
    epCmdText (some .shell) ts = joinSep [' '] ts := by
  unfold epCmdText
  rw [if_neg (by decide)]

/-- C3 (amended): on the canonical directive class — every variant the
decoder can produce except comments, with a resolved mode, clean ASCII
payloads and the delimiter shapes fixed by the renderer — decoding the
rendered single line (plus the terminating LF) yields exactly the original
directive, so rendering is textually faithful to a well-formed input line
for that directive.  Comments are excluded (the renderer inserts a space
after `#` that the decoder keeps), `ADD` is excluded (the keyword table has
no `ADD` entry, so such lines decode to `Other`), and exec-form arrays
re-render with a space after each comma. -/
theorem claim_C3_round_trip (d : Directive) (h : canonicalDirective d = true) :
    decodeDockerfile (strBytes (Directive.render d) ++ [10]) = .ok [d] := by
  rw [decodeDockerfile_eq_foldDecode]
  apply foldDecode_of_foldB
  cases d with
  | add s t => simp [canonicalDirective] at h
  | comment b => simp [canonicalDirective] at h
  | expose p =>
    cases p with
    | none => simp [canonicalDirective] at h
    | some p =>
      have hp : p ≤ 65535 := by simpa [canonicalDirective] using h
      have hbytes : strBytes (Directive.render (.expose (some p))) ++ [10] =
          strBytes (String.data ("EXPOSE ")) ++ (strBytes (decRepr p) ++ [10]) := by
        unfold Directive.render Directive.keyword Directive.argumentsText
        dsimp only [Option.map, Option.getD]
        rw [strBytes_append, strBytes_append]
        rw [show strBytes (String.data ("EXPOSE")) ++ strBytes [' '] =
          strBytes (String.data ("EXPOSE ")) from by decide]
        rw [List.append_assoc]
      rw [hbytes, foldB_chain _
        (some (.directiveArguments ⟨.expose none, none, .observe, []⟩)) _ _ (by decide)]
      exact roundTrip_expose_line p hp
  | run b =>
    have hraw : rawArgOk b = true := by simpa [canonicalDirective] using h
    have hascii := rawArgOk_ascii b hraw
    have hbytes : strBytes (Directive.render (.run b)) ++ [10] =
        strBytes (String.data ("RUN ")) ++ (b ++ [10]) := by
      unfold Directive.render Directive.keyword Directive.argumentsText
      dsimp only [Option.getD]
      rw [rawText_ascii b hascii, strBytes_append, strBytes_append,
        strBytes_map_ofNat b hascii]
      rw [show strBytes (String.data ("RUN")) ++ strBytes [' '] =
        strBytes (String.data ("RUN ")) from by decide]
      rw [List.append_assoc]
    rw [hbytes, foldB_chain _
      (some (.directiveArguments ⟨.run [], none, .observe, []⟩)) _ _ (by decide)]
    exact roundTrip_raw_line (.run []) (.run b) rfl b hraw rfl
  | user b =>
    have hraw : rawArgOk b = true := by simpa [canonicalDirective] using h
    have hascii := rawArgOk_ascii b hraw
    have hbytes : strBytes (Directive.render (.user b)) ++ [10] =
        strBytes (String.data ("USER ")) ++ (b ++ [10]) := by
      unfold Directive.render Directive.keyword Directive.argumentsText
      dsimp only [Option.getD]
      rw [rawText_ascii b hascii, strBytes_append, strBytes_append,
        strBytes_map_ofNat b hascii]
      rw [show strBytes (String.data ("USER")) ++ strBytes [' '] =
        strBytes (String.data ("USER ")) from by decide]
      rw [List.append_assoc]
    rw [hbytes, foldB_chain _
      (some (.directiveArguments ⟨.user [], none, .observe, []⟩)) _ _ (by decide)]
    exact roundTrip_raw_line (.user []) (.user b) rfl b hraw rfl
  | fromD b =>
    have hraw : rawArgOk b = true := by simpa [canonicalDirective] using h
    have hascii := rawArgOk_ascii b hraw
    have hbytes : strBytes (Directive.render (.fromD b)) ++ [10] =
        strBytes (String.data ("FROM ")) ++ (b ++ [10]) := by
      unfold Directive.render Directive.keyword Directive.argumentsText
      dsimp only [Option.getD]
      rw [rawText_ascii b hascii, strBytes_append, strBytes_append,
        strBytes_map_ofNat b hascii]
      rw [show strBytes (String.data ("FROM")) ++ strBytes [' '] =
        strBytes (String.data ("FROM ")) from by decide]
      rw [List.append_assoc]
    rw [hbytes, foldB_chain _
      (some (.directiveArguments ⟨.fromD [], none, .observe, []⟩)) _ _ (by decide)]
    exact roundTrip_raw_line (.fromD []) (.fromD b) rfl b hraw rfl
  | other name b =>
    have hok : otherNameOk name = true ∧ rawArgOk b = true := by
      have h2 : (otherNameOk name && rawArgOk b) = true := by
        simpa [canonicalDirective] using h
      rw [Bool.and_eq_true] at h2
      exact h2
    obtain ⟨hname, hraw⟩ := hok
    have hascii := rawArgOk_ascii b hraw
    obtain ⟨c, cs, rfl, halpha, hchars, _⟩ := otherNameOk_facts name hname
    have hnascii : ∀ ch ∈ c :: cs, ch.toNat < 128 := fun ch hch => (hchars ch hch).1
    have hbytes : strBytes (Directive.render (.other (c :: cs) b)) ++ [10] =
        (c.toNat :: List.map Char.toNat cs) ++ (32 :: (b ++ [10])) := by
      unfold Directive.render Directive.keyword Directive.argumentsText
      dsimp only [Option.getD]
      rw [rawText_ascii b hascii, strBytes_append, strBytes_append,
        strBytes_map_ofNat b hascii, strBytes_eq_map _ hnascii]
      rw [show strBytes [' '] = [32] from by decide]
      rw [List.map_cons, List.append_assoc, List.append_assoc]
      rfl
    rw [hbytes]
    rw [foldB_keyword c.toNat (List.map Char.toNat cs) (b ++ [10]) (.other (c :: cs) [])
      halpha
      (by
        intro x hx
        obtain ⟨ch, hch, rfl⟩ := List.mem_map.mp hx
        obtain ⟨ha, hsp, _⟩ := hchars ch (List.mem_cons_of_mem _ hch)
        exact ⟨by omega, char_byte_ne ch 32 (by intro hh; apply hsp; rw [hh])⟩)
      (by
        rw [show (c.toNat :: List.map Char.toNat cs) =
          List.map Char.toNat (c :: cs) from rfl]
        exact directiveTryFrom_other (c :: cs) hname)]
    exact roundTrip_raw_line (.other (c :: cs) []) (.other (c :: cs) b) rfl b hraw rfl
  | env vars =>
    have hv : envVarsOk vars = true := by simpa [canonicalDirective] using h
    have hbytes : strBytes (Directive.render (.env vars)) ++ [10] =
        strBytes (String.data ("ENV ")) ++
          (strBytes (joinSep [' '] (vars.map EnvVar.render)) ++ [10]) := by
      unfold Directive.render Directive.keyword Directive.argumentsText
      dsimp only [Option.getD]
      rw [strBytes_append, strBytes_append]
      rw [show strBytes (String.data ("ENV")) ++ strBytes [' '] =
        strBytes (String.data ("ENV ")) from by decide]
      rw [List.append_assoc]
    rw [hbytes, foldB_chain _
      (some (.directiveArguments ⟨.env [], none, .observe, []⟩)) _ _ (by decide)]
    rcases vars with _ | ⟨⟨k, v, dl⟩, rest⟩
    · simp [envVarsOk] at hv
    · cases dl with
      | eq =>
        exact roundTrip_env_eq_line (⟨k, v, .eq⟩ :: rest) (by simp)
          (envVarsOk_eq_facts k v rest hv)
      | noDelim =>
        cases rest with
        | nil =>
          unfold envVarsOk at hv
          simp only [Bool.and_eq_true, decide_eq_true_eq, Bool.not_eq_true',
            List.all_eq_true] at hv
          rw [show joinSep [' '] (([⟨k, v, .noDelim⟩] : List EnvVar).map EnvVar.render) =
            EnvVar.render ⟨k, v, .noDelim⟩ from rfl]
          apply roundTrip_env_noDelim_line k v
          · tauto
          · tauto
          · tauto
          · rw [List.all_eq_true]
            intro c hc
            have h4 : c ≠ '=' := by tauto
            simpa using h4
        | cons r rs =>
          exfalso
          unfold envVarsOk at hv
          rw [List.all_eq_true] at hv
          have h3 := hv ⟨k, v, .noDelim⟩ (List.mem_cons_self _ _)
          simp at h3
  | entrypoint m ts =>
    cases m with
    | none => simp [canonicalDirective, epCmdOk] at h
    | some mo =>
      cases mo with
      | shell =>
        rcases ts with _ | ⟨t, ts'⟩
        · simp [canonicalDirective, epCmdOk] at h
        · have hep : epCmdOk (some .shell) (t :: ts') = true := by
            simpa [canonicalDirective] using h
          obtain ⟨hall, c, t', rfl, hc91, hc35⟩ := epCmdOk_shell_facts t ts' hep
          have hbytes : strBytes (Directive.render
              (.entrypoint (some .shell) ((c :: t') :: ts'))) ++ [10] =
              strBytes (String.data ("ENTRYPOINT ")) ++
                (strBytes (joinSep [' '] ((c :: t') :: ts')) ++ [10]) := by
            unfold Directive.render Directive.keyword Directive.argumentsText
            dsimp only [Option.getD]
            rw [epCmdText_shell]
            rw [strBytes_append, strBytes_append]
            rw [show strBytes (String.data ("ENTRYPOINT")) ++ strBytes [' '] =
              strBytes (String.data ("ENTRYPOINT ")) from by decide]
            rw [List.append_assoc]
          rw [hbytes, foldB_chain _
            (some (.directiveArguments ⟨.entrypoint none [], none, .observe, []⟩)) _ _
            (by decide)]
          exact roundTrip_epcmd_shell Directive.entrypoint (Or.inl rfl) c t' ts'
            hall hc91 hc35
      | exec =>
        rcases ts with _ | ⟨u, us⟩
        · simp [canonicalDirective, epCmdOk] at h
        · have hex : epCmdOk (some .exec) (u :: us) = true := by
            simpa [canonicalDirective] using h
          have hall : ∀ x ∈ u :: us, execTokOk x = true := by
            unfold epCmdOk at hex
            rw [Bool.and_eq_true] at hex
            exact List.all_eq_true.mp hex.2
          have hbytes : strBytes (Directive.render
              (.entrypoint (some .exec) (u :: us))) ++ [10] =
              strBytes (String.data ("ENTRYPOINT ")) ++
                (strBytes (epCmdText (some .exec) (u :: us)) ++ [10]) := by
            unfold Directive.render Directive.keyword Directive.argumentsText
            dsimp only [Option.getD]
            rw [strBytes_append, strBytes_append]
            rw [show strBytes (String.data ("ENTRYPOINT")) ++ strBytes [' '] =
              strBytes (String.data ("ENTRYPOINT ")) from by decide]
            rw [List.append_assoc]
          rw [hbytes, foldB_chain _
            (some (.directiveArguments ⟨.entrypoint none [], none, .observe, []⟩)) _ _
            (by decide)]
          exact roundTrip_epcmd_exec Directive.entrypoint (Or.inl rfl) u us hall
  | cmd m ts =>
    cases m with
    | none => simp [canonicalDirective, epCmdOk] at h
    | some mo =>
      cases mo with
      | shell =>
        rcases ts with _ | ⟨t, ts'⟩
        · simp [canonicalDirective, epCmdOk] at h
        · have hep : epCmdOk (some .shell) (t :: ts') = true := by
            simpa [canonicalDirective] using h
          obtain ⟨hall, c, t', rfl, hc91, hc35⟩ := epCmdOk_shell_facts t ts' hep
          have hbytes : strBytes (Directive.render
              (.cmd (some .shell) ((c :: t') :: ts'))) ++ [10] =
              strBytes (String.data ("CMD ")) ++
                (strBytes (joinSep [' '] ((c :: t') :: ts')) ++ [10]) := by
            unfold Directive.render Directive.keyword Directive.argumentsText
            dsimp only [Option.getD]
            rw [epCmdText_shell]
            rw [strBytes_append, strBytes_append]
            rw [show strBytes (String.data ("CMD")) ++ strBytes [' '] =
              strBytes (String.data ("CMD ")) from by decide]
            rw [List.append_assoc]
          rw [hbytes, foldB_chain _
            (some (.directiveArguments ⟨.cmd none [], none, .observe, []⟩)) _ _
            (by decide)]
          exact roundTrip_epcmd_shell Directive.cmd (Or.inr rfl) c t' ts' hall hc91 hc35
      | exec =>
        rcases ts with _ | ⟨u, us⟩
        · simp [canonicalDirective, epCmdOk] at h
        · have hex : epCmdOk (some .exec) (u :: us) = true := by
            simpa [canonicalDirective] using h
          have hall : ∀ x ∈ u :: us, execTokOk x = true := by
            unfold epCmdOk at hex
            rw [Bool.and_eq_true] at hex
            exact List.all_eq_true.mp hex.2
          have hbytes : strBytes (Directive.render
              (.cmd (some .exec) (u :: us))) ++ [10] =
              strBytes (String.data ("CMD ")) ++
                (strBytes (epCmdText (some .exec) (u :: us)) ++ [10]) := by
            unfold Directive.render Directive.keyword Directive.argumentsText
            dsimp only [Option.getD]
            rw [strBytes_append, strBytes_append]
            rw [show strBytes (String.data ("CMD")) ++ strBytes [' '] =
              strBytes (String.data ("CMD ")) from by decide]
            rw [List.append_assoc]
          rw [hbytes, foldB_chain _
            (some (.directiveArguments ⟨.cmd none [], none, .observe, []⟩)) _ _
            (by decide)]
          exact roundTrip_epcmd_exec Directive.cmd (Or.inr rfl) u us hall

/-- C3 (counterexample): the unrestricted round-trip claim is false on the
code — a comment line `#x` re-renders as `# x` (the renderer always prints
a space after the keyword, here `#`), an exec-form array `["a","b"]`
re-renders with a space after the comma, and an `ADD` line does not decode
to the `Add` variant at all (the keyword table has no `ADD` entry), so the
`Add` part of "every variant" is unsatisfiable for the decoder. -/
theorem claim_C3_counterexample :
    decodeDockerfile (sb ("#x\n")) = .ok [.comment [120]] ∧
    Directive.render (.comment [120]) ≠ String.data ("#x") ∧
    decodeDockerfile (sb ("ENTRYPOINT [\"a\",\"b\"]\n")) =
      .ok [.entrypoint (some Mode.exec) [['a'], ['b']]] ∧
    Directive.render (.entrypoint (some Mode.exec) [['a'], ['b']]) ≠
      String.data ("ENTRYPOINT [\"a\",\"b\"]") ∧
    decodeDockerfile (sb ("ADD a b\n")) =
      .ok [.other (String.data ("ADD")) (sb ("a b"))] := by
  refine ⟨?_, by decide, ?_, by decide, ?_⟩
  · rw [decodeDockerfile_eq_foldDecode]
    decide
  · rw [decodeDockerfile_eq_foldDecode]
    decide
  · rw [decodeDockerfile_eq_foldDecode]
    decide

/-- C3 witness: the round trip at a concrete canonical directive. -/
theorem claim_C3_round_trip_witness :
    canonicalDirective (.run (sb ("echo hi"))) = true ∧
    decodeDockerfile (strBytes (Directive.render (.run (sb ("echo hi")))) ++ [10]) =
      .ok [.run (sb ("echo hi"))] :=
  ⟨by decide, claim_C3_round_trip _ (by decide)⟩
